import Mathlib

/-!
# QtTelnet protocol engine (qttelnet.cpp): shallow embedding

Bytes (`char`, `uchar`) are natural numbers below 256, a `QByteArray` and a
locally encoded `QString` are lists of bytes.  The private object
`QtTelnetPrivate` becomes a record that is passed explicitly; the bytes handed
to `socket->write`, the byte sent with `MSG_OOB` and the Qt signals emitted
are recorded, in order, in the fields `written`, `urgent` and `emitted`.
Slots connected to the signals are taken not to call back into the engine.
The transport is abstract: it drives the engine through `socketConnected`,
`socketConnectionClosed` and `socketReadyRead`, and calls such as
`socket->close()` and `socket->flush()` leave no trace in the record.
-/

namespace QtTelnet

/-! ## namespace Common (RFC 854), lines 136-181 -/

namespace Common

def CEOF : Nat := 236
def SUSP : Nat := 237
def ABORT : Nat := 238
def SE : Nat := 240
def NOP : Nat := 241
def DM : Nat := 242
def BRK : Nat := 243
def IP : Nat := 244
def AO : Nat := 245
def AYT : Nat := 246
def EC : Nat := 247
def EL : Nat := 248
def GA : Nat := 249
def SB : Nat := 250
def WILL : Nat := 251
def WONT : Nat := 252
def DO : Nat := 253
def DONT : Nat := 254
def IAC : Nat := 255

def IS : Nat := 0
def SEND : Nat := 1

def Authentication : Nat := 37
def SuppressGoAhead : Nat := 3
def Echo : Nat := 1
def LineMode : Nat := 34
def Status : Nat := 5
def Logout : Nat := 18
def TerminalType : Nat := 24
def NAWS : Nat := 31

end Common

namespace Auth

def AUTHNULL : Nat := 0

end Auth

/-! ## Library types (Qt), as far as the engine uses them -/

/-- QSize of Qt: a pair of ints; the default constructed size is (-1, -1). -/
structure QSize where
  wd : Int
  ht : Int
  deriving DecidableEq, Repr

/-- The default constructed `QSize()`. -/
def QSize.invalid : QSize := ⟨-1, -1⟩

/-- `QSize::isValid()` of Qt: both the width and the height are >= 0. -/
def QSize.isValid (s : QSize) : Bool := decide (0 ≤ s.wd) && decide (0 ≤ s.ht)

/-- The two queries the engine makes of a `QRegExp`: `isEmpty()` (the pattern
string is empty) and `indexIn(text) != -1` (the pattern is found in `text`). -/
structure QRegExp where
  isEmpty : Bool
  found : List Nat → Bool

/-- A default constructed `QRegExp()`: the empty pattern, found in every text. -/
def QRegExp.empty : QRegExp := ⟨true, fun _ => true⟩

/-- White space as `\s` sees it, for the ASCII range. -/
def isSpace (c : Nat) : Bool := c = 32 || (9 ≤ c && c ≤ 13)

/-- Text with its trailing white space removed. -/
def dropTrailingSpace (text : List Nat) : List Nat :=
  (text.reverse.dropWhile isSpace).reverse

/-- A pattern `lit\s*$` for a literal `lit` that ends in a non-space
character: it is found exactly when the text without its trailing white space
ends in `lit`. -/
def QRegExp.literalAtEnd (lit : List Nat) : QRegExp :=
  ⟨lit.isEmpty, fun text => lit.isSuffixOf (dropTrailingSpace text)⟩

/-- The pattern `ogin:\s*$` of the constructor (line 562). -/
def defaultLoginp : QRegExp := QRegExp.literalAtEnd [111, 103, 105, 110, 58]

/-- The pattern `assword:\s*$` of the constructor (line 562). -/
def defaultPassp : QRegExp := QRegExp.literalAtEnd [97, 115, 115, 119, 111, 114, 100, 58]

/-- `htons` on a little-endian host: the two bytes of a 16-bit value swapped. -/
def htons (x : Nat) : Nat := (x % 256) * 256 + (x / 256) % 256

/-- `int` to `uint16_t` conversion: reduction modulo 2^16. -/
def toUInt16 (x : Int) : Nat := (x % 65536).toNat

/-! ## class QtTelnetAuth, lines 96-113 and 474-494 -/

namespace QtTelnetAuth

inductive State where
  | AuthIntermediate
  | AuthSuccess
  | AuthFailure
  deriving DecidableEq, Repr

end QtTelnetAuth

/-- The data members of `QtTelnetAuth`; `QtTelnetAuthNull` is the only
subclass the source defines, so `authStep` below is its `authStep`. -/
structure QtTelnetAuth where
  st : QtTelnetAuth.State
  cd : Nat
  deriving DecidableEq, Repr

/-- The constructor `QtTelnetAuthNull()`: `QtTelnetAuth(0)`, state `AuthIntermediate`. -/
def QtTelnetAuthNull : QtTelnetAuth := ⟨QtTelnetAuth.State.AuthIntermediate, 0⟩

/-- The signals of `QtTelnet` (qttelnet.h, `Q_SIGNALS`). -/
inductive Signal where
  | loginRequired
  | loginFailed
  | loggedIn
  | loggedOut
  | connectionError (error : Nat)
  | message (data : List Nat)
  deriving DecidableEq, Repr

/-- The public enum `QtTelnet::Control` (qttelnet.h). -/
inductive Control where
  | GoAhead
  | InterruptProcess
  | AreYouThere
  | AbortOutput
  | EraseCharacter
  | EraseLine
  | Break
  | EndOfFile
  | Suspend
  | Abort
  deriving DecidableEq, Repr

/-! ## class QtTelnetPrivate, lines 496-555 -/

/-- The data members of `QtTelnetPrivate` (lines 503-521).  `modes` is the
`QMap<char, bool>` read through `operator[]`, which yields `false` for a key
that was never written: a total map from option codes to booleans.  `buffer`
is the `QList<QByteArray>` of `QtTelnetReceiveBuffer`.  `curauth` is the
pointer to the active mechanism, `none` for the null pointer.  The last three
fields record the effects on the socket and the signals emitted. -/
structure QtTelnetPrivate where
  modes : Nat → Bool
  osent : List (Nat × Nat)
  buffer : List (List Nat)
  windowSize : QSize
  connected : Bool
  nocheckp : Bool
  triedlogin : Bool
  triedpass : Bool
  firsttry : Bool
  curauth : Option QtTelnetAuth
  nullauth : Bool
  loginp : QRegExp
  passp : QRegExp
  promptp : QRegExp
  login : List Nat
  pass : List Nat
  written : List Nat
  urgent : List Nat
  emitted : List Signal

/-- The state built by the constructor (lines 557-565). -/
def QtTelnetPrivate.new : QtTelnetPrivate where
  modes := fun _ => false
  osent := []
  buffer := []
  windowSize := QSize.invalid
  connected := false
  nocheckp := false
  triedlogin := false
  triedpass := false
  firsttry := true
  curauth := none
  nullauth := false
  loginp := defaultLoginp
  passp := defaultPassp
  promptp := QRegExp.empty
  login := []
  pass := []
  written := []
  urgent := []
  emitted := []

/-- The call `socket->write(bytes)`. -/
def socketWrite (d : QtTelnetPrivate) (bytes : List Nat) : QtTelnetPrivate :=
  { d with written := d.written ++ bytes }

/-- The statement `emit q->signal(...)`. -/
def emit (d : QtTelnetPrivate) (s : Signal) : QtTelnetPrivate :=
  { d with emitted := d.emitted ++ [s] }

/-- The assignment `modes[option] = value`. -/
def setModeEntry (modes : Nat → Bool) (option : Nat) (value : Bool) : Nat → Bool :=
  fun k => if k = option then value else modes k

/-- `QtTelnetPrivate::opposite`, lines 596-607. -/
def opposite (operation : Nat) (positive : Bool) : Nat :=
  if operation = Common.DO then (if positive then Common.WILL else Common.WONT)
  else if operation = Common.DONT then Common.WONT
  else if operation = Common.WILL then (if positive then Common.DO else Common.DONT)
  else if operation = Common.WONT then Common.DONT
  else 0

/-- `QtTelnetPrivate::isCommand`, lines 628-631. -/
def isCommand (c : Nat) : Bool := c = Common.DM

/-- `QtTelnetPrivate::isOperation`, lines 633-637. -/
def isOperation (c : Nat) : Bool :=
  c = Common.WILL || c = Common.WONT || c = Common.DO || c = Common.DONT

/-- `QtTelnet::windowSize`, lines 1188-1191. -/
def windowSize (d : QtTelnetPrivate) : QSize :=
  if d.modes Common.NAWS then d.windowSize else QSize.invalid

/-- `QtTelnet::isValidWindowSize`, lines 1199-1202. -/
def isValidWindowSize (d : QtTelnetPrivate) : Bool := (windowSize d).isValid

/-- `QtTelnetPrivate::allowOption`, lines 912-924. -/
def allowOption (d : QtTelnetPrivate) (_oper : Nat) (opt : Nat) : Bool :=
  if opt = Common.Authentication ∨ opt = Common.SuppressGoAhead ∨ opt = Common.LineMode
      ∨ opt = Common.Status ∨ opt = Common.Logout ∨ opt = Common.TerminalType then true
  else if opt = Common.NAWS ∧ isValidWindowSize d = true then true
  else false

/-- `QtTelnetPrivate::replyNeeded`, lines 824-835. -/
def replyNeeded (d : QtTelnetPrivate) (operation option : Nat) : Bool :=
  if operation = Common.DO ∨ operation = Common.DONT then
    if operation = Common.DO ∧ d.modes option = true then false
    else if operation = Common.DONT ∧ d.modes option = false then false
    else true
  else true

/-- `QtTelnetPrivate::addSent`, lines 862-865. -/
def addSent (d : QtTelnetPrivate) (operation option : Nat) : QtTelnetPrivate :=
  { d with osent := d.osent ++ [(operation, option)] }

/-- `QtTelnetPrivate::alreadySent`, lines 867-875: the returned boolean and
the state after `removeAll`. -/
def alreadySent (d : QtTelnetPrivate) (operation option : Nat) : Bool × QtTelnetPrivate :=
  if (operation, option) ∈ d.osent then
    (true, { d with osent := d.osent.filter (fun v => decide (v ≠ (operation, option))) })
  else (false, d)

/-- `QtTelnetPrivate::sendString`, lines 877-883. -/
def sendString (d : QtTelnetPrivate) (str : List Nat) : QtTelnetPrivate :=
  if d.connected = false ∨ str.length = 0 then d else socketWrite d str

/-- `QtTelnetPrivate::sendCommand(const QByteArray &)`, lines 885-898; the
overload `sendCommand(const char *, int)` (lines 906-910) only builds the
array. -/
def sendCommand (d : QtTelnetPrivate) (command : List Nat) : QtTelnetPrivate :=
  if d.connected = false ∨ command.isEmpty = true then d
  else if command.length = 3 then
    let operation := command.getD 1 0
    let option := command.getD 2 0
    if (alreadySent d operation option).1 = true then (alreadySent d operation option).2
    else socketWrite (addSent (alreadySent d operation option).2 operation option) command
  else socketWrite d command

/-- `QtTelnetPrivate::sendCommand(const char operation, const char option)`,
lines 900-904. -/
def sendCommandOp (d : QtTelnetPrivate) (operation option : Nat) : QtTelnetPrivate :=
  sendCommand d [Common.IAC, operation, option]

/-- `QtTelnetPrivate::sendWindowSize`, lines 847-860. -/
def sendWindowSize (d : QtTelnetPrivate) : QtTelnetPrivate :=
  if d.modes Common.NAWS = false then d
  else if isValidWindowSize d = false then d
  else
    let h := htons (toUInt16 d.windowSize.ht)
    let w := htons (toUInt16 d.windowSize.wd)
    sendCommand d [Common.IAC, Common.SB, Common.NAWS,
      w % 256, (w / 256) % 256, h % 256, (h / 256) % 256, Common.IAC, Common.SE]

/-- `QtTelnetPrivate::setMode`, lines 837-845. -/
def setMode (d : QtTelnetPrivate) (operation option : Nat) : QtTelnetPrivate :=
  if operation ≠ Common.DO ∧ operation ≠ Common.DONT then d
  else
    let d1 := { d with modes := setModeEntry d.modes option (decide (operation = Common.DO)) }
    if option = Common.NAWS ∧ d1.modes Common.NAWS = true then sendWindowSize d1 else d1

/-- The search loop of `getSubOption` (lines 646-650) from index `i`: the
first index `i` with `i < size - 1` that holds IAC followed by SE. -/
def getSubOptionLoop (data : List Nat) : Nat → Nat → Option Nat
  | 0, _ => none
  | fuel + 1, i =>
    if i + 1 < data.length then
      if data.getD i 0 = Common.IAC ∧ data.getD (i + 1) 0 = Common.SE then some i
      else getSubOptionLoop data fuel (i + 1)
    else none

/-- `QtTelnetPrivate::getSubOption`, lines 639-652. -/
def getSubOption (data : List Nat) : List Nat :=
  if data.length < 4 ∨ data.getD 1 0 ≠ Common.SB then []
  else
    match getSubOptionLoop data data.length 2 with
    | some i => (data.drop 2).take (i - 2)
    | none => []

/-- `QtTelnetPrivate::parseSubNAWS`, lines 654-657. -/
def parseSubNAWS (d : QtTelnetPrivate) (_data : List Nat) : QtTelnetPrivate := d

/-- `QtTelnetPrivate::parseSubTT`, lines 659-672. -/
def parseSubTT (d : QtTelnetPrivate) (data : List Nat) : QtTelnetPrivate :=
  if data.length < 2 ∨ data.getD 1 0 ≠ Common.SEND then d
  else
    let d1 := sendCommand d [Common.IAC, Common.SB, Common.TerminalType, Common.IS]
    let d2 := sendString d1 [85, 78, 75, 78, 79, 87, 78]
    sendCommand d2 [Common.IAC, Common.SE]

/-- `QtTelnetAuthNull::authStep`, lines 482-494: the mechanism afterwards and
the bytes returned. -/
def authStep (a : QtTelnetAuth) (data : List Nat) : QtTelnetAuth × List Nat :=
  if data.length < 2 ∨ data.getD 1 0 ≠ Common.SEND then (a, [])
  else
    ({ a with st := QtTelnetAuth.State.AuthSuccess },
      [Common.IAC, Common.SB, Common.Authentication, Common.IS, Auth.AUTHNULL, 0,
        Common.IAC, Common.SE])

/-- The registry `auths` (line 516) is inserted into nowhere in the source, so
`auths[code]` is the null pointer for every code. -/
def authsLookup (_code : Nat) : Option QtTelnetAuth := none

/-- The loop of `parseSubAuth`, lines 680-688, from position `pos`: the
mechanism it selects, if any. -/
def parseSubAuthLoop (data : List Nat) : Nat → Nat → Option QtTelnetAuth
  | 0, _ => none
  | fuel + 1, pos =>
    if pos < data.length then
      match authsLookup (data.getD pos 0) with
      | some a => some a
      | none => parseSubAuthLoop data fuel (pos + 2)
    else none

/-- The first part of `parseSubAuth`, lines 678-697: a mechanism is selected
when none is active and the second payload byte is SEND. -/
def parseSubAuthSelect (d : QtTelnetPrivate) (data : List Nat) : QtTelnetPrivate :=
  if d.curauth = none ∧ data.getD 1 0 = Common.SEND then
    match parseSubAuthLoop data data.length 2 with
    | some a => emit { d with curauth := some a } Signal.loginRequired
    | none =>
      let d0 := { d with curauth := some QtTelnetAuthNull, nullauth := true }
      if d0.loginp.isEmpty = true ∧ d0.passp.isEmpty = true then { d0 with nocheckp := true }
      else d0
  else d

/-- The second part of `parseSubAuth`, lines 698-711: the active mechanism
takes a step. -/
def parseSubAuthStep (d : QtTelnetPrivate) (data : List Nat) : QtTelnetPrivate :=
  match d.curauth with
  | none => d
  | some cur =>
    let r := authStep cur data
    let d2 := { d with curauth := some r.1 }
    let d3 := if r.2.isEmpty = false then sendCommand d2 r.2 else d2
    if r.1.st = QtTelnetAuth.State.AuthFailure then emit d3 Signal.loginFailed
    else if r.1.st = QtTelnetAuth.State.AuthSuccess then
      let d4 :=
        if d3.loginp.isEmpty = true ∧ d3.passp.isEmpty = true then emit d3 Signal.loggedIn
        else d3
      if d4.nullauth = false then { d4 with nocheckp := true } else d4
    else d3

/-- `QtTelnetPrivate::parseSubAuth`, lines 674-712. -/
def parseSubAuth (d : QtTelnetPrivate) (data : List Nat) : QtTelnetPrivate :=
  parseSubAuthStep (parseSubAuthSelect d data) data

/-- `QtTelnet::close`, lines 1056-1065.  The call `socket->close()` is a call
into the transport; a `disconnected()` signal the transport raises in answer
is the separate event `socketConnectionClosed`. -/
def close(d : QtTelnetPrivate) : QtTelnetPrivate :=
  if d.connected = false then d
  else emit { d with connected := false } Signal.loggedOut

/-- `QtTelnet::sendData`, lines 1126-1134. -/
def sendData (d : QtTelnetPrivate) (data : List Nat) : QtTelnetPrivate :=
  if d.connected = false then d else socketWrite d data

/-- The switch of `parseIAC` on the first suboption byte, lines 752-766;
`parseSubNAWS` is handed `data`, the other two handlers `suboption`. -/
def parseIACSwitch (d : QtTelnetPrivate) (data suboption : List Nat) : QtTelnetPrivate :=
  if suboption.getD 0 0 = Common.Authentication then parseSubAuth d suboption
  else if suboption.getD 0 0 = Common.TerminalType then parseSubTT d suboption
  else if suboption.getD 0 0 = Common.NAWS then parseSubNAWS d data
  else d

/-- The special case DONT Authentication of `parseIAC`, lines 731-735. -/
def parseIACDontAuth (d : QtTelnetPrivate) (operation option : Nat) : QtTelnetPrivate :=
  if operation = Common.DONT ∧ option = Common.Authentication then
    { (if d.loginp.isEmpty = true ∧ d.passp.isEmpty = true then emit d Signal.loggedIn
        else d) with nullauth := true }
  else d

/-- `QtTelnetPrivate::parseIAC`, lines 717-768: the state afterwards and the
number of bytes consumed. -/
def parseIAC (d : QtTelnetPrivate) (data : List Nat) : QtTelnetPrivate × Nat :=
  if data.isEmpty = true then (d, 0)
  else if 3 ≤ data.length ∧ isOperation (data.getD 1 0) = true then
    let operation := data.getD 1 0
    let option := data.getD 2 0
    if operation = Common.WONT ∧ option = Common.Logout then (close d, 3)
    else
      let d1 := parseIACDontAuth d operation option
      if replyNeeded d1 operation option = true then
        let allowed := allowOption d1 operation option
        (setMode (sendCommandOp d1 (opposite operation allowed) option) operation option, 3)
      else (d1, 3)
  else if 2 ≤ data.length ∧ isCommand (data.getD 1 0) = true then (d, 2)
  else
    let suboption := getSubOption data
    if suboption.isEmpty = true then (d, 0)
    else (parseIACSwitch d data suboption, suboption.length + 4)

/-- `QByteArray::indexOf(0)`: the index of the first NUL byte, `none` for -1. -/
def indexOfNul : List Nat → Option Nat
  | [] => none
  | c :: cs => if c = 0 then some 0 else (indexOfNul cs).map (fun i => i + 1)

/-- The login branch of `parsePlaintext`, lines 790-801, on the local `text`. -/
def parsePlaintextLogin (d : QtTelnetPrivate) (text : List Nat) : QtTelnetPrivate × List Nat :=
  if d.loginp.isEmpty = false ∧ d.loginp.found text = true then
    let r : QtTelnetPrivate × List Nat :=
      if d.triedlogin = true ∨ d.firsttry = true then
        ({ emit (emit d (Signal.message text)) Signal.loginRequired with firsttry := false }, [])
      else (d, text)
    if r.1.triedlogin = false then ({ sendData r.1 r.1.login with triedlogin := true }, r.2)
    else r
  else (d, text)

/-- The password branch of `parsePlaintext`, lines 802-816, on the local `text`. -/
def parsePlaintextPass (d : QtTelnetPrivate) (text : List Nat) : QtTelnetPrivate × List Nat :=
  if d.passp.isEmpty = false ∧ d.passp.found text = true then
    let r : QtTelnetPrivate × List Nat :=
      if d.triedpass = true ∨ d.firsttry = true then
        ({ emit (emit d (Signal.message text)) Signal.loginRequired with firsttry := false }, [])
      else (d, text)
    if r.1.triedpass = false then
      ({ sendData r.1 r.1.pass with triedpass := true, pass := [] }, r.2)
    else r
  else (d, text)

/-- The part of `parsePlaintext` that works on the decoded `text`, lines
783-820. -/
def parsePlaintextText (d : QtTelnetPrivate) (text : List Nat) : QtTelnetPrivate :=
  let d1 :=
    if d.nocheckp = false ∧ d.nullauth = true then
      if d.promptp.isEmpty = false ∧ d.promptp.found text = true then
        { emit d Signal.loggedIn with nocheckp := true }
      else d
    else d
  let r : QtTelnetPrivate × List Nat :=
    if d1.nocheckp = false ∧ d1.nullauth = true then
      let r1 := parsePlaintextLogin d1 text
      parsePlaintextPass r1.1 r1.2
    else (d1, text)
  if r.2.isEmpty = false then emit r.1 (Signal.message r.2) else r.1

/-- `QtTelnetPrivate::parsePlaintext`, lines 770-822: the state afterwards and
the number of bytes consumed. -/
def parsePlaintext (d : QtTelnetPrivate) (data : List Nat) : QtTelnetPrivate × Nat :=
  match indexOfNul data with
  | none => (parsePlaintextText d (data.take data.length), data.length)
  | some length => (parsePlaintextText d (data.take length), length + 1)

/-- The body of the loop of `consume` (lines 615-622) at position `currpos`:
the state afterwards and the new `currpos`. -/
def consumeStep (d : QtTelnetPrivate) (data : List Nat) (currpos : Nat) : QtTelnetPrivate × Nat :=
  let c := data.getD currpos 0
  if c = Common.DM then (d, currpos + 1)
  else if c = Common.IAC then
    ((parseIAC d (data.drop currpos)).1, currpos + (parseIAC d (data.drop currpos)).2)
  else
    ((parsePlaintext d (data.drop currpos)).1, currpos + (parsePlaintext d (data.drop currpos)).2)

/-- The loop of `consume`, lines 614-623, with at most `fuel` iterations: the
state and `currpos` at the exit. -/
def consumeLoop (data : List Nat) : Nat → QtTelnetPrivate → Int → Nat → QtTelnetPrivate × Nat
  | 0, d, _, currpos => (d, currpos)
  | fuel + 1, d, prevpos, currpos =>
    if prevpos < (currpos : Int) ∧ currpos < data.length then
      consumeLoop data fuel (consumeStep d data currpos).1 (currpos : Int)
        (consumeStep d data currpos).2
    else (d, currpos)

/-- `QtTelnetPrivate::consume`, lines 609-626.  Every iteration but the last
advances `currpos`, so `data.size() + 1` iterations are enough. -/
def consume (d : QtTelnetPrivate) : QtTelnetPrivate :=
  let data := d.buffer.flatten
  let r := consumeLoop data (data.length + 1) { d with buffer := [] } (-1) 0
  if r.2 < data.length then { r.1 with buffer := data.drop r.2 :: r.1.buffer } else r.1

/-- `QtTelnetPrivate::sendOptions`, lines 926-934. -/
def sendOptions (d : QtTelnetPrivate) : QtTelnetPrivate :=
  let d1 := sendCommandOp d Common.WILL Common.Authentication
  let d2 := sendCommandOp d1 Common.DO Common.SuppressGoAhead
  let d3 := sendCommandOp d2 Common.WILL Common.LineMode
  let d4 := sendCommandOp d3 Common.DO Common.Status
  if isValidWindowSize d4 = true then sendCommandOp d4 Common.WILL Common.NAWS else d4

/-- `QtTelnetPrivate::socketConnected`, lines 936-945. -/
def socketConnected (d : QtTelnetPrivate) : QtTelnetPrivate :=
  sendOptions { d with connected := true }

/-- `QtTelnetPrivate::socketConnectionClosed`, lines 952-958. -/
def socketConnectionClosed (d : QtTelnetPrivate) : QtTelnetPrivate :=
  emit { d with connected := false } Signal.loggedOut

/-- `QtTelnetPrivate::socketReadyRead`, lines 960-964, for the bytes `chunk`
returned by `socket->readAll()`. -/
def socketReadyRead (d : QtTelnetPrivate) (chunk : List Nat) : QtTelnetPrivate :=
  consume { d with buffer := d.buffer ++ [chunk] }

/-- `QtTelnet::logout`, lines 1142-1145. -/
def logout (d : QtTelnetPrivate) : QtTelnetPrivate :=
  sendCommandOp d Common.DO Common.Logout

/-- `QtTelnet::setWindowSize(int, int)`, lines 1167-1180. -/
def setWindowSize (d : QtTelnetPrivate) (width height : Int) : QtTelnetPrivate :=
  let wasvalid := isValidWindowSize d
  let d1 := { d with windowSize := ⟨width, height⟩ }
  if wasvalid = true ∧ isValidWindowSize d1 = true then sendWindowSize d1
  else if isValidWindowSize d1 = true then sendCommandOp d1 Common.WILL Common.NAWS
  else if wasvalid = true then sendCommandOp d1 Common.WONT Common.NAWS
  else d1

/-- `QtTelnet::login`, lines 1321-1326. -/
def login (d : QtTelnetPrivate) (username password : List Nat) : QtTelnetPrivate :=
  { d with triedpass := false, triedlogin := false, login := username, pass := password }

/-- `QtTelnetPrivate::socketError`, lines 966-969. -/
def socketError (d : QtTelnetPrivate) (error : Nat) : QtTelnetPrivate :=
  emit d (Signal.connectionError error)

/-- `QtTelnet::sendSync`, lines 1238-1247: the DM byte goes out of band. -/
def sendSync (d : QtTelnetPrivate) : QtTelnetPrivate :=
  if d.connected = false then d else { d with urgent := d.urgent ++ [Common.DM] }

/-- The switch of `QtTelnet::sendControl`, lines 1077-1113: the command byte
and whether a SYNC follows. -/
def controlByte : Control → Nat × Bool
  | Control.InterruptProcess => (Common.IP, true)
  | Control.AbortOutput => (Common.AO, true)
  | Control.Break => (Common.BRK, false)
  | Control.Suspend => (Common.SUSP, false)
  | Control.EndOfFile => (Common.CEOF, false)
  | Control.Abort => (Common.ABORT, false)
  | Control.GoAhead => (Common.GA, false)
  | Control.AreYouThere => (Common.AYT, true)
  | Control.EraseCharacter => (Common.EC, false)
  | Control.EraseLine => (Common.EL, false)

/-- `QtTelnet::sendControl`, lines 1073-1118. -/
def sendControl (d : QtTelnetPrivate) (ctrl : Control) : QtTelnetPrivate :=
  let d1 := sendCommand d [Common.IAC, (controlByte ctrl).1]
  if (controlByte ctrl).2 = true then sendSync d1 else d1

/-- `QtTelnet::setPromptPattern`, lines 1258-1261. -/
def setPromptPattern (d : QtTelnetPrivate) (pattern : QRegExp) : QtTelnetPrivate :=
  { d with promptp := pattern }

/-- `QtTelnet::setLoginPattern`, lines 1280-1283. -/
def setLoginPattern (d : QtTelnetPrivate) (pattern : QRegExp) : QtTelnetPrivate :=
  { d with loginp := pattern }

/-- `QtTelnet::setPasswordPattern`, lines 1302-1305. -/
def setPasswordPattern (d : QtTelnetPrivate) (pattern : QRegExp) : QtTelnetPrivate :=
  { d with passp := pattern }

/-- Feeding the chunks of successive reads, one `socketReadyRead` per chunk. -/
def feedAll (d : QtTelnetPrivate) : List (List Nat) → QtTelnetPrivate
  | [] => d
  | chunk :: chunks => feedAll (socketReadyRead d chunk) chunks

/-- A fresh engine whose transport has come up. -/
def connectedEngine : QtTelnetPrivate := socketConnected QtTelnetPrivate.new

/-! ## Definitions used to state the properties -/

/-- Sending the negotiations `ps` one after the other, each through
`sendCommand(operation, option)`. -/
def sendAll (d : QtTelnetPrivate) : List (Nat × Nat) → QtTelnetPrivate
  | [] => d
  | p :: ps => sendAll (sendCommandOp d p.1 p.2) ps

/-- The options the specification (section 4.3, step 2) lists as supported
whatever the window size is. -/
def specSupported (opt : Nat) : Bool :=
  opt = 37 || opt = 3 || opt = 34 || opt = 5 || opt = 18 || opt = 24

/-- The opposite table of the specification (section 4.3, step 3): the reply
to an inbound DO (253), DONT (254), WILL (251) or WONT (252). -/
def specReply (inbound : Nat) (allowed : Bool) : Nat :=
  if inbound = 253 then (if allowed then 251 else 252)
  else if inbound = 254 then 252
  else if inbound = 251 then (if allowed then 253 else 254)
  else 254

/-- The pass of `consume` seen from the unread bytes `rest` (the array
`data.mid(currpos)`): the state at the exit of the loop and the bytes that
were not consumed. -/
def consumeRest : Nat → QtTelnetPrivate → List Nat → QtTelnetPrivate × List Nat
  | 0, d, rest => (d, rest)
  | fuel + 1, d, rest =>
    if rest = [] then (d, rest)
    else if (consumeStep d rest 0).2 = 0 then ((consumeStep d rest 0).1, rest)
    else consumeRest fuel (consumeStep d rest 0).1 (rest.drop (consumeStep d rest 0).2)

/-- The number of bytes one iteration of the loop of `consume` takes off the
front of `rest`; it is the same in every state (`consumeStep_snd`). -/
def frameLength (rest : List Nat) : Nat := (consumeStep QtTelnetPrivate.new rest 0).2

/-- The bytes `rest` go to the plaintext sub-parser and hold no NUL byte, so
that the run reaches the end of the data. -/
def isOpenText (rest : List Nat) : Bool :=
  decide (rest.getD 0 0 ≠ Common.DM) && decide (rest.getD 0 0 ≠ Common.IAC)
    && (indexOfNul rest).isNone

/-- A pass over `rest` ends with a plaintext run that holds no NUL byte. -/
def endsInOpenTextAux : Nat → List Nat → Bool
  | 0, _ => false
  | fuel + 1, rest =>
    if rest = [] then false
    else if isOpenText rest = true then true
    else if frameLength rest = 0 then false
    else endsInOpenTextAux fuel (rest.drop (frameLength rest))

/-- A pass over `data` ends with a plaintext run that holds no NUL byte. -/
def endsInOpenText (data : List Nat) : Bool := endsInOpenTextAux data.length data

/-- No read boundary of the chunks that follow the bytes `pre` comes after a
pass that ended with a plaintext run without NUL: the bytes received before
each of the chunks do not end in such a run. -/
def splitsAvoidOpenText : List Nat → List (List Nat) → Bool
  | _, [] => true
  | pre, chunk :: chunks => !(endsInOpenText pre) && splitsAvoidOpenText (pre ++ chunk) chunks

/-- The end of `consume`, lines 624-625: the unread bytes, when there are
any, are pushed back as one chunk at the front of the receive buffer. -/
def pushBack (r : QtTelnetPrivate × List Nat) : QtTelnetPrivate :=
  if r.2 = [] then r.1 else { r.1 with buffer := r.2 :: r.1.buffer }

/-- The data of a `message` signal; no bytes for any other signal. -/
def Signal.payload : Signal → List Nat
  | Signal.message data => data
  | _ => []

/-- The payloads of the `message` signals among `signals`, in the order of
emission, one after the other. -/
def messagePayloads (signals : List Signal) : List Nat :=
  (signals.map Signal.payload).flatten

/-- The NAWS suboption of the specification (section 4.4) for a window of
`cols` columns and `rows` rows: IAC SB NAWS, the columns then the rows as
16-bit values with the high byte first, IAC SE. -/
def specNawsSuboption (cols rows : Nat) : List Nat :=
  [255, 250, 31, cols / 256 % 256, cols % 256, rows / 256 % 256, rows % 256, 255, 240]

/-- The reply IAC SB Authentication IS NULL 0 IAC SE of the specification
(section 4.5). -/
def specAuthNullReply : List Nat := [255, 250, 37, 0, 0, 0, 255, 240]

/-- The reply IAC SB TerminalType IS "UNKNOWN" IAC SE of the specification
(section 4.4). -/
def specTerminalTypeReply : List Nat :=
  [255, 250, 24, 0, 85, 78, 75, 78, 79, 87, 78, 255, 240]

/-- `QtTelnetPrivate::setSocket`, lines 574-591, called through
`QtTelnet::setSocket` on an engine that has a socket: `logout()` is sent on
the old socket and `connected` is reset. -/
def setSocket (d : QtTelnetPrivate) : QtTelnetPrivate :=
  { logout d with connected := false }

/-- The byte the specification (section 4.7, table of public control kinds)
gives for each control kind. -/
def specControlByte : Control → Nat
  | Control.GoAhead => 249
  | Control.InterruptProcess => 244
  | Control.AreYouThere => 246
  | Control.AbortOutput => 245
  | Control.EraseCharacter => 247
  | Control.EraseLine => 248
  | Control.Break => 243
  | Control.EndOfFile => 236
  | Control.Suspend => 237
  | Control.Abort => 238

/-- The control kinds after which the specification (section 4.7) has a SYNC
sent: InterruptProcess, AbortOutput and AreYouThere. -/
def specControlSync : Control → Bool
  | Control.InterruptProcess => true
  | Control.AbortOutput => true
  | Control.AreYouThere => true
  | _ => false

/-- The events that drive the engine: the calls of the application on
`QtTelnet` and the signals of the transport. -/
inductive Action where
  | login (username password : List Nat)
  | socketReadyRead (chunk : List Nat)
  | socketConnected
  | socketConnectionClosed
  | socketError (error : Nat)
  | close
  | logout
  | sendData (data : List Nat)
  | sendControl (ctrl : Control)
  | sendSync
  | setWindowSize (width height : Int)
  | setSocket
  | setPromptPattern (pattern : QRegExp)
  | setLoginPattern (pattern : QRegExp)
  | setPasswordPattern (pattern : QRegExp)

/-- The engine after one event. -/
def Action.apply (d : QtTelnetPrivate) : Action → QtTelnetPrivate
  | Action.login username password => QtTelnet.login d username password
  | Action.socketReadyRead chunk => QtTelnet.socketReadyRead d chunk
  | Action.socketConnected => QtTelnet.socketConnected d
  | Action.socketConnectionClosed => QtTelnet.socketConnectionClosed d
  | Action.socketError error => QtTelnet.socketError d error
  | Action.close => QtTelnet.close d
  | Action.logout => QtTelnet.logout d
  | Action.sendData data => QtTelnet.sendData d data
  | Action.sendControl ctrl => QtTelnet.sendControl d ctrl
  | Action.sendSync => QtTelnet.sendSync d
  | Action.setWindowSize width height => QtTelnet.setWindowSize d width height
  | Action.setSocket => QtTelnet.setSocket d
  | Action.setPromptPattern pattern => QtTelnet.setPromptPattern d pattern
  | Action.setLoginPattern pattern => QtTelnet.setLoginPattern d pattern
  | Action.setPasswordPattern pattern => QtTelnet.setPasswordPattern d pattern

/-- The engine after a sequence of events, the first of the list first. -/
def runActions (d : QtTelnetPrivate) : List Action → QtTelnetPrivate
  | [] => d
  | a :: as => runActions (Action.apply d a) as

/-- The index reads of the test `!curauth && data[1] == Common::SEND` at line
678 of `parseSubAuth`, as pairs of the index and the size of the array read:
`data[1]` is evaluated exactly when `curauth` is null. -/
def parseSubAuthReads (d : QtTelnetPrivate) (data : List Nat) : List (Nat × Nat) :=
  if d.curauth = none then [(1, data.length)] else []

/-- The loop of `consume`, lines 614-623, run for at most `fuel` iterations,
together with the number of iterations it has made: the state and `currpos`
at the exit and the count, or `none` when the loop has not reached its exit
after `fuel` iterations. -/
def consumeLoopCount (data : List Nat) :
    Nat → QtTelnetPrivate → Int → Nat → Option (QtTelnetPrivate × Nat × Nat)
  | 0, d, prevpos, currpos =>
    if prevpos < (currpos : Int) ∧ currpos < data.length then none else some (d, currpos, 0)
  | fuel + 1, d, prevpos, currpos =>
    if prevpos < (currpos : Int) ∧ currpos < data.length then
      match consumeLoopCount data fuel (consumeStep d data currpos).1 (currpos : Int)
          (consumeStep d data currpos).2 with
      | none => none
      | some r => some (r.1, r.2.1, r.2.2 + 1)
    else some (d, currpos, 0)

/-! ## The sent-set and the reply to a negotiation -/

theorem sendCommandOp_eq (d : QtTelnetPrivate) (operation option : Nat)
    (hc : d.connected = true) :
    sendCommandOp d operation option
      = if (operation, option) ∈ d.osent then
          { d with osent := d.osent.filter (fun v => decide (v ≠ (operation, option))) }
        else
          { d with osent := d.osent ++ [(operation, option)],
                   written := d.written ++ [Common.IAC, operation, option] } := by
  unfold sendCommandOp sendCommand alreadySent addSent socketWrite
  by_cases h : (operation, option) ∈ d.osent <;> simp [hc, h]

theorem sendCommandOp_disconnected (d : QtTelnetPrivate) (operation option : Nat)
    (hc : d.connected = false) :
    sendCommandOp d operation option = d := by
  unfold sendCommandOp sendCommand
  simp [hc]

theorem sendCommandOp_connected (d : QtTelnetPrivate) (operation option : Nat) :
    (sendCommandOp d operation option).connected = d.connected := by
  cases hc : d.connected
  · rw [sendCommandOp_disconnected d operation option hc, hc]
  · rw [sendCommandOp_eq d operation option hc]
    split_ifs <;> simp [hc]

theorem mem_osent_sendCommandOp_self (d : QtTelnetPrivate) (p : Nat × Nat)
    (hc : d.connected = true) :
    p ∈ (sendCommandOp d p.1 p.2).osent ↔ p ∉ d.osent := by
  rw [sendCommandOp_eq d p.1 p.2 hc]
  by_cases h : p ∈ d.osent
  · have h' : (p.1, p.2) ∈ d.osent := h
    simp [h, h', List.mem_filter]
  · have h' : (p.1, p.2) ∉ d.osent := h
    simp [h, h']

theorem mem_osent_sendCommandOp_other (d : QtTelnetPrivate) (p q : Nat × Nat)
    (hc : d.connected = true) (hne : p ≠ q) :
    p ∈ (sendCommandOp d q.1 q.2).osent ↔ p ∈ d.osent := by
  rw [sendCommandOp_eq d q.1 q.2 hc]
  have hq : (q.1, q.2) = q := rfl
  split_ifs with h
  · simp [List.mem_filter, hq, hne]
  · simp [hq, hne]

theorem sendAll_connected (ps : List (Nat × Nat)) (d : QtTelnetPrivate) :
    (sendAll d ps).connected = d.connected := by
  induction ps generalizing d with
  | nil => rfl
  | cons q qs ih => rw [sendAll, ih, sendCommandOp_connected]

theorem mem_osent_sendAll (ps : List (Nat × Nat)) (d : QtTelnetPrivate) (p : Nat × Nat)
    (hc : d.connected = true) (hp : p ∉ ps) :
    p ∈ (sendAll d ps).osent ↔ p ∈ d.osent := by
  induction ps generalizing d with
  | nil => rfl
  | cons q qs ih =>
    have hne : p ≠ q := fun h => hp (by simp [h])
    have hqs : p ∉ qs := fun h => hp (by simp [h])
    rw [sendAll, ih _ (by rw [sendCommandOp_connected, hc]) hqs,
      mem_osent_sendCommandOp_other d p q hc hne]

theorem written_sendCommandOp (d : QtTelnetPrivate) (p : Nat × Nat) (hc : d.connected = true) :
    (sendCommandOp d p.1 p.2).written
      = if p ∈ d.osent then d.written else d.written ++ [255, p.1, p.2] := by
  rw [sendCommandOp_eq d p.1 p.2 hc]
  have hp : (p.1, p.2) = p := rfl
  rw [hp]
  split_ifs <;> rfl

/-- C5: on a connected engine, sending the negotiation IAC op opt writes
nothing and removes the pair from the sent-set when the pair is in the
sent-set, and otherwise writes exactly FF op opt and appends the pair; the
other pairs of the sent-set stay as they were, in order. -/
theorem sendCommand_loop_breaker (d : QtTelnetPrivate) (op opt : Nat)
    (hc : d.connected = true) :
    ((op, opt) ∈ d.osent →
        (sendCommandOp d op opt).written = d.written
        ∧ (op, opt) ∉ (sendCommandOp d op opt).osent
        ∧ (sendCommandOp d op opt).osent
            = d.osent.filter (fun v => decide (v ≠ (op, opt))))
    ∧ ((op, opt) ∉ d.osent →
        (sendCommandOp d op opt).written = d.written ++ [255, op, opt]
        ∧ (sendCommandOp d op opt).osent = d.osent ++ [(op, opt)]) := by
  rw [sendCommandOp_eq d op opt hc]
  constructor
  · intro h
    simp [h, List.mem_filter]
  · intro h
    simp [h, Common.IAC]

theorem sendCommand_loop_breaker_witness :
    connectedEngine.connected = true
    ∧ (253, 3) ∈ connectedEngine.osent
    ∧ (sendCommandOp connectedEngine 253 3).written = connectedEngine.written
    ∧ (sendCommandOp connectedEngine 253 3).osent = [(251, 37), (251, 34), (253, 5)] :=
  ⟨by decide, by decide,
    ((sendCommand_loop_breaker connectedEngine 253 3 (by decide)).1 (by decide)).1,
    (((sendCommand_loop_breaker connectedEngine 253 3 (by decide)).1 (by decide)).2.2).trans
      (by decide)⟩

/-- C6 (as stated, refuted): three logout() calls on a connected engine, with
no inbound bytes at all, write IAC DO Logout twice. -/
theorem logout_thrice_writes_twice :
    (logout (logout (logout connectedEngine))).written
      = connectedEngine.written ++ [255, 253, 18] ++ [255, 253, 18] := by
  decide

/-- C6 (amended): on a connected engine, of two sends of the same negotiation
pair with only sends of other pairs between them, exactly one writes FF op
opt: the send that finds the pair in the sent-set writes nothing and removes
it, and the next send of the pair writes it again. -/
theorem sendCommand_alternates (d : QtTelnetPrivate) (p : Nat × Nat) (ps : List (Nat × Nat))
    (hc : d.connected = true) (hp : p ∉ ps) :
    ((sendCommandOp d p.1 p.2).written = d.written ++ [255, p.1, p.2]
      ∧ (sendCommandOp (sendAll (sendCommandOp d p.1 p.2) ps) p.1 p.2).written
          = (sendAll (sendCommandOp d p.1 p.2) ps).written)
    ∨ ((sendCommandOp d p.1 p.2).written = d.written
      ∧ (sendCommandOp (sendAll (sendCommandOp d p.1 p.2) ps) p.1 p.2).written
          = (sendAll (sendCommandOp d p.1 p.2) ps).written ++ [255, p.1, p.2]) := by
  have hc1 : (sendCommandOp d p.1 p.2).connected = true := by
    rw [sendCommandOp_connected, hc]
  have hc2 : (sendAll (sendCommandOp d p.1 p.2) ps).connected = true := by
    rw [sendAll_connected, hc1]
  have hmem := (mem_osent_sendAll ps _ p hc1 hp).trans (mem_osent_sendCommandOp_self d p hc)
  rw [written_sendCommandOp _ p hc2, written_sendCommandOp d p hc]
  by_cases h : p ∈ d.osent
  · right
    have h2 : p ∉ (sendAll (sendCommandOp d p.1 p.2) ps).osent := fun h3 => hmem.1 h3 h
    simp [h, h2]
  · left
    have h2 : p ∈ (sendAll (sendCommandOp d p.1 p.2) ps).osent := hmem.2 h
    simp [h, h2]

theorem sendCommand_alternates_witness :
    connectedEngine.connected = true
    ∧ ((253, 18) : Nat × Nat) ∉ [((251, 31) : Nat × Nat)]
    ∧ (sendCommandOp connectedEngine 253 18).written
        = connectedEngine.written ++ [255, 253, 18]
    ∧ (sendCommandOp (sendAll (sendCommandOp connectedEngine 253 18) [(251, 31)]) 253 18).written
        = (sendAll (sendCommandOp connectedEngine 253 18) [(251, 31)]).written :=
  ⟨by decide, by decide,
    (sendCommand_alternates connectedEngine (253, 18) [(251, 31)] (by decide)
      (by decide)).elim (fun h => h.1) (fun h => absurd h.1 (by decide)),
    (sendCommand_alternates connectedEngine (253, 18) [(251, 31)] (by decide)
      (by decide)).elim (fun h => h.2) (fun h => absurd h.1 (by decide))⟩

/-! ## Negotiation frames in `parseIAC` -/

theorem parseIACDontAuth_fields (d : QtTelnetPrivate) (operation option : Nat) :
    (parseIACDontAuth d operation option).modes = d.modes
    ∧ (parseIACDontAuth d operation option).osent = d.osent
    ∧ (parseIACDontAuth d operation option).written = d.written
    ∧ (parseIACDontAuth d operation option).urgent = d.urgent
    ∧ (parseIACDontAuth d operation option).connected = d.connected
    ∧ (parseIACDontAuth d operation option).windowSize = d.windowSize
    ∧ (parseIACDontAuth d operation option).buffer = d.buffer := by
  unfold parseIACDontAuth emit
  split_ifs <;> simp

theorem replyNeeded_congr (d d1 : QtTelnetPrivate) (operation option : Nat)
    (h : d1.modes = d.modes) : replyNeeded d1 operation option = replyNeeded d operation option := by
  simp [replyNeeded, h]

theorem allowOption_congr (d d1 : QtTelnetPrivate) (operation option : Nat)
    (h : d1.modes = d.modes) (hw : d1.windowSize = d.windowSize) :
    allowOption d1 operation option = allowOption d operation option := by
  simp [allowOption, isValidWindowSize, windowSize, h, hw]

/-- The negotiation branch of `parseIAC`, lines 724-742, apart from WONT
Logout. -/
theorem parseIAC_operation (d : QtTelnetPrivate) (operation option : Nat) (rest : List Nat)
    (hop : isOperation operation = true)
    (hlogout : ¬ (operation = Common.WONT ∧ option = Common.Logout)) :
    parseIAC d (Common.IAC :: operation :: option :: rest)
      = if replyNeeded d operation option = true then
          (setMode (sendCommandOp (parseIACDontAuth d operation option)
            (opposite operation (allowOption d operation option)) option) operation option, 3)
        else (parseIACDontAuth d operation option, 3) := by
  have hf := parseIACDontAuth_fields d operation option
  simp only [parseIAC, List.isEmpty_cons, Bool.false_eq_true, if_false, List.length_cons,
    List.getD_cons_succ, List.getD_cons_zero, hop, hlogout, and_true,
    replyNeeded_congr d _ operation option hf.1,
    allowOption_congr d _ operation option hf.1 hf.2.2.2.2.2.1]
  simp

theorem setMode_written_of_ne (d : QtTelnetPrivate) (operation option : Nat)
    (h : option ≠ Common.NAWS) :
    (setMode d operation option).written = d.written
    ∧ (setMode d operation option).osent = d.osent := by
  unfold setMode
  split_ifs <;> simp_all

theorem allowOption_of_ne (d : QtTelnetPrivate) (operation option : Nat)
    (h : option ≠ Common.NAWS) :
    allowOption d operation option = specSupported option := by
  simp only [allowOption, specSupported, Common.Authentication, Common.SuppressGoAhead,
    Common.LineMode, Common.Status, Common.Logout, Common.TerminalType, h, false_and,
    if_false]
  by_cases h1 : option = 37 <;> by_cases h2 : option = 3 <;> by_cases h3 : option = 34
    <;> by_cases h4 : option = 5 <;> by_cases h5 : option = 18 <;> by_cases h6 : option = 24
    <;> simp [h1, h2, h3, h4, h5, h6]

theorem opposite_eq_specReply (operation : Nat) (allowed : Bool)
    (hop : isOperation operation = true) :
    opposite operation allowed = specReply operation allowed := by
  simp only [isOperation, Common.WILL, Common.WONT, Common.DO, Common.DONT, Bool.or_eq_true,
    decide_eq_true_eq] at hop
  rcases hop with ((h | h) | h) | h <;> subst h <;> cases allowed <;> decide

/-- C3: for an option other than NAWS and an inbound IAC op opt that needs a
reply (WONT Logout apart), the reply operation is the entry of the opposite
table with allowed = (opt is Authentication, SuppressGoAhead, LineMode,
Status, Logout or TerminalType); the reply goes through the loop breaker, so
on a connected engine that has not the reply in its sent-set exactly FF reply
opt is written.  An option outside the six is never answered with WILL or DO,
DONT is never answered with WILL, and WONT never with DO. -/
theorem reply_decision (d : QtTelnetPrivate) (op opt : Nat) (rest : List Nat)
    (hop : isOperation op = true) (hnaws : opt ≠ Common.NAWS)
    (hlogout : ¬ (op = Common.WONT ∧ opt = Common.Logout))
    (hneed : replyNeeded d op opt = true) :
    opposite op (allowOption d op opt) = specReply op (specSupported opt)
    ∧ (parseIAC d (Common.IAC :: op :: opt :: rest)).2 = 3
    ∧ (parseIAC d (Common.IAC :: op :: opt :: rest)).1.osent
        = (sendCommandOp d (specReply op (specSupported opt)) opt).osent
    ∧ (parseIAC d (Common.IAC :: op :: opt :: rest)).1.written
        = (sendCommandOp d (specReply op (specSupported opt)) opt).written
    ∧ (d.connected = true → (specReply op (specSupported opt), opt) ∉ d.osent →
        (parseIAC d (Common.IAC :: op :: opt :: rest)).1.written
          = d.written ++ [255, specReply op (specSupported opt), opt])
    ∧ (specSupported opt = false →
        specReply op (specSupported opt) ≠ Common.WILL
        ∧ specReply op (specSupported opt) ≠ Common.DO)
    ∧ (op = Common.DONT → specReply op (specSupported opt) ≠ Common.WILL)
    ∧ (op = Common.WONT → specReply op (specSupported opt) ≠ Common.DO) := by
  have hrep : opposite op (allowOption d op opt) = specReply op (specSupported opt) := by
    rw [allowOption_of_ne d op opt hnaws, opposite_eq_specReply op _ hop]
  have hf := parseIACDontAuth_fields d op opt
  have hosent : (parseIAC d (Common.IAC :: op :: opt :: rest)).1.osent
      = (sendCommandOp d (specReply op (specSupported opt)) opt).osent := by
    rw [parseIAC_operation d op opt rest hop hlogout, if_pos hneed, hrep]
    simp only [(setMode_written_of_ne _ op opt hnaws).2]
    cases hc : d.connected
    · rw [sendCommandOp_disconnected _ _ _ (hf.2.2.2.2.1.trans hc),
        sendCommandOp_disconnected _ _ _ hc, hf.2.1]
    · rw [sendCommandOp_eq _ _ _ (hf.2.2.2.2.1.trans hc), sendCommandOp_eq _ _ _ hc, hf.2.1]
      split_ifs <;> simp [hf.2.1]
  have hwritten : (parseIAC d (Common.IAC :: op :: opt :: rest)).1.written
      = (sendCommandOp d (specReply op (specSupported opt)) opt).written := by
    rw [parseIAC_operation d op opt rest hop hlogout, if_pos hneed, hrep]
    simp only [(setMode_written_of_ne _ op opt hnaws).1]
    cases hc : d.connected
    · rw [sendCommandOp_disconnected _ _ _ (hf.2.2.2.2.1.trans hc),
        sendCommandOp_disconnected _ _ _ hc, hf.2.2.1]
    · rw [sendCommandOp_eq _ _ _ (hf.2.2.2.2.1.trans hc), sendCommandOp_eq _ _ _ hc, hf.2.1]
      split_ifs <;> simp [hf.2.2.1]
  refine ⟨hrep, ?_, hosent, hwritten, ?_, ?_, ?_, ?_⟩
  · rw [parseIAC_operation d op opt rest hop hlogout, if_pos hneed]
  · intro hc hnot
    rw [hwritten, sendCommandOp_eq _ _ _ hc, if_neg hnot]
    rfl
  · intro hs
    rw [hs]
    simp only [specReply, Bool.false_eq_true, if_false, Common.WILL, Common.DO]
    split_ifs <;> decide
  · intro h
    subst h
    cases specSupported opt <;> decide
  · intro h
    subst h
    cases specSupported opt <;> decide

theorem reply_decision_witness :
    isOperation 253 = true ∧ (1 : Nat) ≠ Common.NAWS
    ∧ replyNeeded connectedEngine 253 1 = true
    ∧ (parseIAC connectedEngine [255, 253, 1, 65]).1.written
        = connectedEngine.written ++ [255, 252, 1] :=
  ⟨by decide, by decide, by decide,
    (reply_decision connectedEngine 253 1 [65] (by decide) (by decide) (by decide)
      (by decide)).2.2.2.2.1 (by decide) (by decide)⟩

/-! ## What the engine does where the code departs from the documented behaviour -/

/-- C4 (the code at the failing input): with the window size set to (80, 24)
on a connected engine, peer_enabled[NAWS] false and (WILL, NAWS) not in the
sent-set, an inbound IAC DO NAWS is answered with IAC WONT NAWS (FF FC 1F),
after which the NAWS suboption carrying the size is written all the same. -/
theorem do_naws_answered_wont :
    (setWindowSize connectedEngine 80 24).connected = true
    ∧ (setWindowSize connectedEngine 80 24).windowSize = ⟨80, 24⟩
    ∧ (setWindowSize connectedEngine 80 24).modes Common.NAWS = false
    ∧ (Common.WILL, Common.NAWS) ∉ (setWindowSize connectedEngine 80 24).osent
    ∧ (socketReadyRead (setWindowSize connectedEngine 80 24) [255, 253, 31]).written
        = (setWindowSize connectedEngine 80 24).written
            ++ [255, 252, 31] ++ [255, 250, 31, 0, 80, 0, 24, 255, 240] := by
  decide

/-- C8 (the code at the failing input): an inbound IAC DO Echo on a connected
engine is answered with IAC WONT Echo (FF FC 01) and peer_enabled[Echo] is
true afterwards. -/
theorem do_echo_refused_yet_enabled :
    (socketReadyRead connectedEngine [255, 253, 1]).written
        = connectedEngine.written ++ [255, 252, 1]
    ∧ (socketReadyRead connectedEngine [255, 253, 1]).modes Common.Echo = true
    ∧ specSupported Common.Echo = false := by
  decide

/-- C9 (the code at the failing input): for IAC NOP followed by the letter A
the IAC sub-parser consumes no byte; the pass emits nothing and holds the
three bytes back, and the bytes of the next read are held back behind them. -/
theorem iac_nop_not_consumed :
    (parseIAC connectedEngine [255, 241, 65]).2 = 0
    ∧ (socketReadyRead connectedEngine [255, 241, 65]).emitted = []
    ∧ (socketReadyRead connectedEngine [255, 241, 65]).buffer = [[255, 241, 65]]
    ∧ (feedAll connectedEngine [[255, 241, 65], [66, 67]]).emitted = []
    ∧ (feedAll connectedEngine [[255, 241, 65], [66, 67]]).buffer = [[255, 241, 65, 66, 67]] := by
  decide

/-! ## Suboption frames -/

theorem getSubOptionLoop_found (data : List Nat) (j : Nat) (hj : j + 1 < data.length)
    (hiac : data.getD j 0 = Common.IAC) (hse : data.getD (j + 1) 0 = Common.SE) :
    ∀ (fuel i : Nat), i ≤ j → j - i < fuel →
      (∀ m, i ≤ m → m < j → ¬ (data.getD m 0 = Common.IAC ∧ data.getD (m + 1) 0 = Common.SE)) →
      getSubOptionLoop data fuel i = some j := by
  intro fuel
  induction fuel with
  | zero => intro i _ h; omega
  | succ fuel ih =>
    intro i hij hfuel hfirst
    have hi : i + 1 < data.length := by omega
    rcases Nat.eq_or_lt_of_le hij with heq | hlt
    · subst heq
      simp only [getSubOptionLoop, hi, if_true, hiac, hse, and_self]
    · have hno := hfirst i (Nat.le_refl i) hlt
      simp only [getSubOptionLoop, hi, if_true, hno, if_false]
      exact ih (i + 1) hlt (by omega) (fun m hm hmj => hfirst m (by omega) hmj)

theorem getD_framed_payload (p rest : List Nat) (m : Nat) (hm : m < p.length) :
    (255 :: 250 :: (p ++ 255 :: 240 :: rest)).getD (m + 2) 0 = p.getD m 0 := by
  simp only [List.getD_cons_succ]
  exact List.getD_append p _ 0 m hm

theorem getD_framed_iac (p rest : List Nat) :
    (255 :: 250 :: (p ++ 255 :: 240 :: rest)).getD (p.length + 2) 0 = 255 := by
  simp only [List.getD_cons_succ]
  rw [List.getD_append_right p _ 0 p.length (Nat.le_refl _)]
  simp

theorem getD_framed_se (p rest : List Nat) :
    (255 :: 250 :: (p ++ 255 :: 240 :: rest)).getD (p.length + 2 + 1) 0 = 240 := by
  have h : p.length + 2 + 1 = (p.length + 1) + 1 + 1 := by omega
  rw [h]
  simp only [List.getD_cons_succ]
  rw [List.getD_append_right p _ 0 (p.length + 1) (Nat.le_succ _)]
  simp

theorem getD_ne_of_not_mem (p : List Nat) (m : Nat) (hm : m < p.length) (c : Nat)
    (h : c ∉ p) : p.getD m 0 ≠ c := by
  rw [List.getD_eq_getElem p 0 hm]
  intro heq
  exact h (heq ▸ List.getElem_mem hm)

theorem getSubOption_framed (p rest : List Nat) (hne : p ≠ []) (hff : 255 ∉ p) :
    getSubOption (255 :: 250 :: (p ++ 255 :: 240 :: rest)) = p := by
  have hlen : (255 :: 250 :: (p ++ 255 :: 240 :: rest)).length = p.length + rest.length + 4 := by
    simp
    omega
  have hpos : 0 < p.length := List.length_pos.mpr hne
  have hloop : getSubOptionLoop (255 :: 250 :: (p ++ 255 :: 240 :: rest))
      (255 :: 250 :: (p ++ 255 :: 240 :: rest)).length 2 = some (p.length + 2) := by
    apply getSubOptionLoop_found _ (p.length + 2) (by rw [hlen]; omega)
      (getD_framed_iac p rest) (getD_framed_se p rest) _ 2 (by omega) (by rw [hlen]; omega)
    intro m hm2 hmj hboth
    obtain ⟨k, rfl⟩ : ∃ k, m = k + 2 := ⟨m - 2, by omega⟩
    have hk : k < p.length := by omega
    rw [getD_framed_payload p rest k hk] at hboth
    exact getD_ne_of_not_mem p k hk 255 hff hboth.1
  have h4 : ¬ ((255 :: 250 :: (p ++ 255 :: 240 :: rest)).length < 4
      ∨ (255 :: 250 :: (p ++ 255 :: 240 :: rest)).getD 1 0 ≠ Common.SB) := by
    rw [hlen]
    intro h
    rcases h with h | h
    · omega
    · exact h rfl
  unfold getSubOption
  rw [if_neg h4, hloop]
  show ((255 :: 250 :: (p ++ 255 :: 240 :: rest)).drop 2).take (p.length + 2 - 2) = p
  simp

theorem parseIAC_suboption (d : QtTelnetPrivate) (p rest : List Nat) (hne : p ≠ [])
    (hff : 255 ∉ p) :
    parseIAC d (255 :: 250 :: (p ++ 255 :: 240 :: rest))
      = (parseIACSwitch d (255 :: 250 :: (p ++ 255 :: 240 :: rest)) p, p.length + 4) := by
  have hsub := getSubOption_framed p rest hne hff
  have hemp : p.isEmpty = false := by
    cases p with
    | nil => exact absurd rfl hne
    | cons _ _ => rfl
  unfold parseIAC
  rw [hsub]
  simp [isOperation, isCommand, Common.WILL, Common.WONT, Common.DO, Common.DONT, Common.DM, hemp]

/-- C10: for a non-empty payload p without 0xFF, the IAC sub-parser applied
to FF FA p FF F0 followed by any bytes takes p as the suboption, consumes
|p| + 4 bytes, and does what the Authentication handler does with p when
the first byte of p is 37, what the TerminalType handler does with p when it
is 24, what the NAWS handler does with p when it is 31; for every first byte
other than 24 and 37 (NAWS among them) the whole engine state stays as it
was, so that nothing is written. -/
theorem suboption_framing (d : QtTelnetPrivate) (p rest : List Nat) (hne : p ≠ [])
    (hff : 255 ∉ p) :
    getSubOption ([255, 250] ++ p ++ [255, 240] ++ rest) = p
    ∧ (parseIAC d ([255, 250] ++ p ++ [255, 240] ++ rest)).2 = p.length + 4
    ∧ (p.getD 0 0 = Common.Authentication →
        (parseIAC d ([255, 250] ++ p ++ [255, 240] ++ rest)).1 = parseSubAuth d p)
    ∧ (p.getD 0 0 = Common.TerminalType →
        (parseIAC d ([255, 250] ++ p ++ [255, 240] ++ rest)).1 = parseSubTT d p)
    ∧ (p.getD 0 0 = Common.NAWS →
        (parseIAC d ([255, 250] ++ p ++ [255, 240] ++ rest)).1 = parseSubNAWS d p)
    ∧ (p.getD 0 0 ≠ Common.TerminalType → p.getD 0 0 ≠ Common.Authentication →
        (parseIAC d ([255, 250] ++ p ++ [255, 240] ++ rest)).1 = d) := by
  have hdata : [255, 250] ++ p ++ [255, 240] ++ rest = 255 :: 250 :: (p ++ 255 :: 240 :: rest) := by
    simp
  rw [hdata, parseIAC_suboption d p rest hne hff]
  refine ⟨getSubOption_framed p rest hne hff, rfl, ?_, ?_, ?_, ?_⟩
  · intro h
    show parseIACSwitch d _ p = _
    unfold parseIACSwitch
    rw [if_pos h]
  · intro h
    have h37 : p.getD 0 0 ≠ Common.Authentication := by rw [h]; decide
    show parseIACSwitch d _ p = _
    unfold parseIACSwitch
    rw [if_neg h37, if_pos h]
  · intro h
    have h37 : p.getD 0 0 ≠ Common.Authentication := by rw [h]; decide
    have h24 : p.getD 0 0 ≠ Common.TerminalType := by rw [h]; decide
    show parseIACSwitch d _ p = _
    unfold parseIACSwitch parseSubNAWS
    rw [if_neg h37, if_neg h24, if_pos h]
  · intro h1 h2
    show parseIACSwitch d _ p = _
    unfold parseIACSwitch parseSubNAWS
    rw [if_neg h2, if_neg h1, ite_self]

theorem suboption_framing_witness :
    ([31, 0, 80, 0, 24] : List Nat) ≠ [] ∧ 255 ∉ ([31, 0, 80, 0, 24] : List Nat)
    ∧ (parseIAC connectedEngine ([255, 250] ++ [31, 0, 80, 0, 24] ++ [255, 240] ++ [65])).2 = 9
    ∧ (parseIAC connectedEngine ([255, 250] ++ [31, 0, 80, 0, 24] ++ [255, 240] ++ [65])).1.written
        = connectedEngine.written :=
  ⟨by decide, by decide,
    (suboption_framing connectedEngine [31, 0, 80, 0, 24] [65] (by decide) (by decide)).2.1,
    congrArg QtTelnetPrivate.written
      ((suboption_framing connectedEngine [31, 0, 80, 0, 24] [65] (by decide)
        (by decide)).2.2.2.2.2 (by decide) (by decide))⟩

/-! ## Plaintext runs -/

theorem indexOfNul_append_nul (pre post : List Nat) (h : 0 ∉ pre) :
    indexOfNul (pre ++ 0 :: post) = some pre.length := by
  induction pre with
  | nil => simp [indexOfNul]
  | cons c cs ih =>
    have hc : c ≠ 0 := fun hc => h (by simp [hc])
    have hcs : 0 ∉ cs := fun hcs => h (by simp [hcs])
    simp [indexOfNul, hc, ih hcs]

theorem indexOfNul_eq_none (data : List Nat) (h : 0 ∉ data) : indexOfNul data = none := by
  induction data with
  | nil => rfl
  | cons c cs ih =>
    have hc : c ≠ 0 := fun hc => h (by simp [hc])
    have hcs : 0 ∉ cs := fun hcs => h (by simp [hcs])
    simp [indexOfNul, hc, ih hcs]

theorem parsePlaintext_nul (d : QtTelnetPrivate) (pre post : List Nat) (h : 0 ∉ pre) :
    parsePlaintext d (pre ++ 0 :: post) = (parsePlaintextText d pre, pre.length + 1) := by
  unfold parsePlaintext
  rw [indexOfNul_append_nul pre post h]
  simp

theorem parsePlaintext_open (d : QtTelnetPrivate) (data : List Nat) (h : 0 ∉ data) :
    parsePlaintext d data = (parsePlaintextText d data, data.length) := by
  unfold parsePlaintext
  rw [indexOfNul_eq_none data h]
  simp

theorem parsePlaintextText_inactive (d : QtTelnetPrivate) (text : List Nat)
    (h : d.nullauth = false ∨ d.nocheckp = true) (hne : text ≠ []) :
    parsePlaintextText d text = emit d (Signal.message text) := by
  have h1 : ¬ (d.nocheckp = false ∧ d.nullauth = true) := by
    rcases h with h | h <;> simp [h]
  have hemp : text.isEmpty = false := by
    cases text with
    | nil => exact absurd rfl hne
    | cons _ _ => rfl
  simp [parsePlaintextText, h1, hemp]

/-- C2 (as stated, refuted): for the buffer 61 FF FD 03, whose first byte is
neither IAC nor DM, the plaintext sub-parser consumes all four bytes, not the
one byte before the IAC; the message payload holds the byte 0xFF, and the
IAC DO SuppressGoAhead after the text gets no reply. -/
theorem plaintext_swallows_iac :
    (parsePlaintext connectedEngine [97, 255, 253, 3]).2 = 4
    ∧ (socketReadyRead connectedEngine [97, 255, 253, 3]).emitted
        = [Signal.message [97, 255, 253, 3]]
    ∧ (socketReadyRead connectedEngine [97, 255, 253, 3]).written = connectedEngine.written
    ∧ (socketReadyRead connectedEngine [255, 253, 3]).written
        = connectedEngine.written ++ [255, 251, 3] := by
  decide

/-- C2 (amended): the plaintext sub-parser consumes the bytes up to and
including the first NUL, or up to the end of the buffer when there is none,
whatever IAC bytes they hold; the text it handles is the bytes before that
NUL, and while the login assistant is inactive a non-empty text is emitted
whole as one message. -/
theorem plaintext_run_ends_at_nul (d : QtTelnetPrivate) (pre post : List Nat) (h : 0 ∉ pre) :
    parsePlaintext d (pre ++ 0 :: post) = (parsePlaintextText d pre, pre.length + 1)
    ∧ parsePlaintext d pre = (parsePlaintextText d pre, pre.length)
    ∧ ((d.nullauth = false ∨ d.nocheckp = true) → pre ≠ [] →
        (parsePlaintext d (pre ++ 0 :: post)).1 = emit d (Signal.message pre)
        ∧ (parsePlaintext d pre).1 = emit d (Signal.message pre)) := by
  refine ⟨parsePlaintext_nul d pre post h, parsePlaintext_open d pre h, ?_⟩
  intro hin hne
  rw [parsePlaintext_nul d pre post h, parsePlaintext_open d pre h]
  exact ⟨parsePlaintextText_inactive d pre hin hne, parsePlaintextText_inactive d pre hin hne⟩

theorem plaintext_run_ends_at_nul_witness :
    0 ∉ ([97, 255, 253, 3] : List Nat)
    ∧ (parsePlaintext connectedEngine ([97, 255, 253, 3] ++ 0 :: [98])).2 = 5
    ∧ (parsePlaintext connectedEngine ([97, 255, 253, 3] ++ 0 :: [98])).1
        = emit connectedEngine (Signal.message [97, 255, 253, 3]) :=
  ⟨by decide,
    congrArg Prod.snd
      (plaintext_run_ends_at_nul connectedEngine [97, 255, 253, 3] [98] (by decide)).1,
    ((plaintext_run_ends_at_nul connectedEngine [97, 255, 253, 3] [98] (by decide)).2.2
      (Or.inl (by decide)) (by decide)).1⟩

/-! ## The parse functions leave the receive buffer alone -/

theorem alreadySent_buffer (d : QtTelnetPrivate) (operation option : Nat) :
    (alreadySent d operation option).2.buffer = d.buffer := by
  unfold alreadySent
  split_ifs <;> rfl

theorem sendCommand_buffer (d : QtTelnetPrivate) (command : List Nat) :
    (sendCommand d command).buffer = d.buffer := by
  simp only [sendCommand]
  split_ifs
  · rfl
  · exact alreadySent_buffer d _ _
  · exact alreadySent_buffer d _ _
  · rfl

theorem sendCommandOp_buffer (d : QtTelnetPrivate) (operation option : Nat) :
    (sendCommandOp d operation option).buffer = d.buffer :=
  sendCommand_buffer d _

theorem sendString_buffer (d : QtTelnetPrivate) (str : List Nat) :
    (sendString d str).buffer = d.buffer := by
  unfold sendString socketWrite
  split_ifs <;> rfl

theorem sendWindowSize_buffer (d : QtTelnetPrivate) : (sendWindowSize d).buffer = d.buffer := by
  simp only [sendWindowSize]
  split_ifs
  · rfl
  · rfl
  · exact sendCommand_buffer d _

theorem setMode_buffer (d : QtTelnetPrivate) (operation option : Nat) :
    (setMode d operation option).buffer = d.buffer := by
  simp only [setMode]
  split_ifs
  · rfl
  · rw [sendWindowSize_buffer]
  · rfl

theorem parseSubTT_buffer (d : QtTelnetPrivate) (data : List Nat) :
    (parseSubTT d data).buffer = d.buffer := by
  simp only [parseSubTT]
  split_ifs
  · rfl
  · simp only [sendCommand_buffer, sendString_buffer]

theorem parseSubAuthLoop_none (data : List Nat) (fuel pos : Nat) :
    parseSubAuthLoop data fuel pos = none := by
  induction fuel generalizing pos with
  | zero => rfl
  | succ fuel ih =>
    unfold parseSubAuthLoop
    split_ifs
    · simp only [authsLookup]
      exact ih (pos + 2)
    · rfl

theorem parseSubAuthSelect_buffer (d : QtTelnetPrivate) (data : List Nat) :
    (parseSubAuthSelect d data).buffer = d.buffer := by
  simp only [parseSubAuthSelect, parseSubAuthLoop_none]
  split_ifs <;> rfl

theorem parseSubAuthStep_buffer (d : QtTelnetPrivate) (data : List Nat) :
    (parseSubAuthStep d data).buffer = d.buffer := by
  unfold parseSubAuthStep
  split
  · rfl
  · simp only [emit]
    split_ifs <;> first | rfl | exact sendCommand_buffer _ _

theorem parseSubAuth_buffer (d : QtTelnetPrivate) (data : List Nat) :
    (parseSubAuth d data).buffer = d.buffer := by
  unfold parseSubAuth
  rw [parseSubAuthStep_buffer, parseSubAuthSelect_buffer]

theorem parseIACSwitch_buffer (d : QtTelnetPrivate) (data suboption : List Nat) :
    (parseIACSwitch d data suboption).buffer = d.buffer := by
  unfold parseIACSwitch parseSubNAWS
  split_ifs
  · exact parseSubAuth_buffer d _
  · exact parseSubTT_buffer d _
  · rfl
  · rfl

theorem close_buffer (d : QtTelnetPrivate) : (close d).buffer = d.buffer := by
  unfold close emit
  split_ifs <;> rfl

theorem parseIAC_buffer (d : QtTelnetPrivate) (data : List Nat) :
    (parseIAC d data).1.buffer = d.buffer := by
  simp only [parseIAC]
  split_ifs
  · rfl
  · exact close_buffer d
  · simp only [setMode_buffer, sendCommandOp_buffer, (parseIACDontAuth_fields d _ _).2.2.2.2.2.2]
  · exact (parseIACDontAuth_fields d _ _).2.2.2.2.2.2
  · rfl
  · rfl
  · exact parseIACSwitch_buffer d _ _

theorem sendData_buffer (d : QtTelnetPrivate) (data : List Nat) :
    (sendData d data).buffer = d.buffer := by
  unfold sendData socketWrite
  split_ifs <;> rfl

theorem parsePlaintextLogin_buffer (d : QtTelnetPrivate) (text : List Nat) :
    (parsePlaintextLogin d text).1.buffer = d.buffer := by
  simp only [parsePlaintextLogin]
  split_ifs <;> first | rfl | exact sendData_buffer _ _

theorem parsePlaintextPass_buffer (d : QtTelnetPrivate) (text : List Nat) :
    (parsePlaintextPass d text).1.buffer = d.buffer := by
  simp only [parsePlaintextPass]
  split_ifs <;> first | rfl | exact sendData_buffer _ _

theorem parsePlaintextText_buffer (d : QtTelnetPrivate) (text : List Nat) :
    (parsePlaintextText d text).buffer = d.buffer := by
  simp only [parsePlaintextText]
  split_ifs <;> simp only [emit, parsePlaintextPass_buffer, parsePlaintextLogin_buffer]

theorem parsePlaintext_buffer (d : QtTelnetPrivate) (data : List Nat) :
    (parsePlaintext d data).1.buffer = d.buffer := by
  unfold parsePlaintext
  split <;> exact parsePlaintextText_buffer d _

theorem consumeStep_buffer (d : QtTelnetPrivate) (data : List Nat) (currpos : Nat) :
    (consumeStep d data currpos).1.buffer = d.buffer := by
  simp only [consumeStep]
  split_ifs
  · rfl
  · exact parseIAC_buffer d _
  · exact parsePlaintext_buffer d _

/-! ## The length of a frame depends on the bytes alone -/

theorem getSubOptionLoop_some (data : List Nat) :
    ∀ (fuel i j : Nat), getSubOptionLoop data fuel i = some j →
      i ≤ j ∧ j + 1 < data.length
      ∧ data.getD j 0 = Common.IAC ∧ data.getD (j + 1) 0 = Common.SE := by
  intro fuel
  induction fuel with
  | zero => intro i j h; simp [getSubOptionLoop] at h
  | succ fuel ih =>
    intro i j h
    unfold getSubOptionLoop at h
    split_ifs at h with h1 h2
    · have hij : i = j := Option.some.inj h
      subst hij
      exact ⟨Nat.le_refl _, h1, h2.1, h2.2⟩
    · have := ih (i + 1) j h
      exact ⟨by omega, this.2⟩

theorem getSubOption_length (data : List Nat) (h : getSubOption data ≠ []) :
    (getSubOption data).length + 4 ≤ data.length := by
  unfold getSubOption at h ⊢
  split_ifs at h ⊢ with h1
  · exact absurd rfl h
  · cases hj : getSubOptionLoop data data.length 2 with
    | none =>
      rw [hj] at h
      exact absurd rfl h
    | some j =>
      have hs := getSubOptionLoop_some data _ 2 j hj
      simp only [List.length_take, List.length_drop]
      omega

theorem parseIAC_snd (d : QtTelnetPrivate) (data : List Nat) :
    (parseIAC d data).2
      = if data.isEmpty = true then 0
        else if 3 ≤ data.length ∧ isOperation (data.getD 1 0) = true then 3
        else if 2 ≤ data.length ∧ isCommand (data.getD 1 0) = true then 2
        else if (getSubOption data).isEmpty = true then 0
        else (getSubOption data).length + 4 := by
  simp only [parseIAC]
  split_ifs <;> rfl

theorem parsePlaintext_snd (d : QtTelnetPrivate) (data : List Nat) :
    (parsePlaintext d data).2
      = match indexOfNul data with
        | none => data.length
        | some length => length + 1 := by
  unfold parsePlaintext
  split <;> rfl

theorem consumeStep_snd (d : QtTelnetPrivate) (rest : List Nat) :
    (consumeStep d rest 0).2 = frameLength rest := by
  simp only [frameLength, consumeStep, parseIAC_snd, parsePlaintext_snd]
  split_ifs <;> rfl

theorem indexOfNul_some (data : List Nat) :
    ∀ i, indexOfNul data = some i → i < data.length := by
  induction data with
  | nil => intro i h; simp [indexOfNul] at h
  | cons c cs ih =>
    intro i h
    unfold indexOfNul at h
    split_ifs at h with hc
    · have : i = 0 := (Option.some.inj h).symm
      subst this
      simp
    · cases hcs : indexOfNul cs with
      | none => rw [hcs] at h; simp at h
      | some k =>
        rw [hcs] at h
        have : i = k + 1 := (Option.some.inj h).symm
        subst this
        have := ih k hcs
        simp
        omega

theorem parseIAC_snd_le (d : QtTelnetPrivate) (data : List Nat) :
    (parseIAC d data).2 ≤ data.length := by
  rw [parseIAC_snd]
  split_ifs with h1 h2 h3 h4
  · exact Nat.zero_le _
  · exact h2.1
  · exact h3.1
  · exact Nat.zero_le _
  · have hne : getSubOption data ≠ [] := by
      intro h
      rw [h] at h4
      exact h4 rfl
    exact getSubOption_length data hne

theorem parsePlaintext_snd_le (d : QtTelnetPrivate) (data : List Nat) :
    (parsePlaintext d data).2 ≤ data.length := by
  rw [parsePlaintext_snd]
  split
  · exact Nat.le_refl _
  · rename_i i hi
    exact indexOfNul_some data i hi

theorem getD_zero_ne_nil (rest : List Nat) (c : Nat) (hc : c ≠ 0) (h : rest.getD 0 0 = c) :
    rest ≠ [] := by
  intro hnil
  rw [hnil] at h
  exact hc h.symm

theorem consumeStep_snd_le (d : QtTelnetPrivate) (rest : List Nat) (hne : rest ≠ []) :
    (consumeStep d rest 0).2 ≤ rest.length := by
  simp only [consumeStep, List.drop_zero, Nat.zero_add]
  split_ifs
  · exact List.length_pos.mpr hne
  · exact parseIAC_snd_le d rest
  · exact parsePlaintext_snd_le d rest

theorem parseIAC_zero (d : QtTelnetPrivate) (data : List Nat) (h : (parseIAC d data).2 = 0) :
    (parseIAC d data).1 = d := by
  simp only [parseIAC] at h ⊢
  split_ifs at h ⊢ <;> first | rfl | (exact absurd h (by simp))

theorem parsePlaintext_snd_pos (d : QtTelnetPrivate) (data : List Nat) (hne : data ≠ []) :
    0 < (parsePlaintext d data).2 := by
  rw [parsePlaintext_snd]
  split
  · exact List.length_pos.mpr hne
  · exact Nat.succ_pos _

theorem consumeStep_zero (d : QtTelnetPrivate) (rest : List Nat) (hne : rest ≠ [])
    (h : (consumeStep d rest 0).2 = 0) : (consumeStep d rest 0).1 = d := by
  simp only [consumeStep, List.drop_zero, Nat.zero_add] at h ⊢
  split_ifs at h ⊢
  · exact parseIAC_zero d rest h
  · exact absurd h (Nat.pos_iff_ne_zero.mp (parsePlaintext_snd_pos d rest hne))

/-! ## A complete frame is parsed the same way whatever follows it -/

theorem getD_append_of_lt (data more : List Nat) (i : Nat) (h : i < data.length) :
    (data ++ more).getD i 0 = data.getD i 0 :=
  List.getD_append data more 0 i h

theorem getSubOptionLoop_append (data more : List Nat) :
    ∀ (fuel i j : Nat), getSubOptionLoop data fuel i = some j →
      ∀ fuel', fuel ≤ fuel' → getSubOptionLoop (data ++ more) fuel' i = some j := by
  intro fuel
  induction fuel with
  | zero => intro i j h; simp [getSubOptionLoop] at h
  | succ fuel ih =>
    intro i j h fuel' hfuel
    obtain ⟨g, rfl⟩ : ∃ g, fuel' = g + 1 := ⟨fuel' - 1, by omega⟩
    unfold getSubOptionLoop at h ⊢
    split_ifs at h with h1 h2
    · have hlen : i + 1 < (data ++ more).length := by
        rw [List.length_append]
        omega
      rw [if_pos hlen, getD_append_of_lt data more i (by omega),
        getD_append_of_lt data more (i + 1) h1, if_pos h2]
      exact h
    · have hlen : i + 1 < (data ++ more).length := by
        rw [List.length_append]
        omega
      rw [if_pos hlen, getD_append_of_lt data more i (by omega),
        getD_append_of_lt data more (i + 1) h1, if_neg h2]
      exact ih (i + 1) j h g (by omega)

theorem getSubOption_append (data more : List Nat) (h : getSubOption data ≠ []) :
    getSubOption (data ++ more) = getSubOption data := by
  unfold getSubOption at h ⊢
  split_ifs at h with h1
  · exact absurd rfl h
  · have h4 : 4 ≤ data.length := by
      by_contra hc
      exact h1 (Or.inl (by omega))
    have hsb : data.getD 1 0 = Common.SB := by
      by_contra hc
      exact h1 (Or.inr hc)
    have h1' : ¬ ((data ++ more).length < 4 ∨ (data ++ more).getD 1 0 ≠ Common.SB) := by
      rw [getD_append_of_lt data more 1 (by omega), List.length_append]
      intro hc
      rcases hc with hc | hc
      · omega
      · exact hc hsb
    rw [if_neg h1', if_neg h1]
    cases hj : getSubOptionLoop data data.length 2 with
    | none =>
      rw [hj] at h
      exact absurd rfl h
    | some j =>
      have hs := getSubOptionLoop_some data _ 2 j hj
      rw [getSubOptionLoop_append data more _ 2 j hj (data ++ more).length
        (by rw [List.length_append]; omega)]
      show ((data ++ more).drop 2).take (j - 2) = (data.drop 2).take (j - 2)
      rw [List.drop_append_of_le_length (by omega),
        List.take_append_of_le_length (by rw [List.length_drop]; omega)]

theorem parseIACSwitch_data (d : QtTelnetPrivate) (data data' suboption : List Nat) :
    parseIACSwitch d data suboption = parseIACSwitch d data' suboption := by
  unfold parseIACSwitch parseSubNAWS
  rfl

theorem parseIAC_append (d : QtTelnetPrivate) (data more : List Nat)
    (h : (parseIAC d data).2 ≠ 0) : parseIAC d (data ++ more) = parseIAC d data := by
  rw [parseIAC_snd] at h
  by_cases h1 : data.isEmpty = true
  · rw [if_pos h1] at h
    exact absurd rfl h
  have h1' : (data ++ more).isEmpty = false := by
    cases data with
    | nil => exact absurd rfl h1
    | cons _ _ => rfl
  have h1f : data.isEmpty = false := by
    cases data with
    | nil => exact absurd rfl h1
    | cons _ _ => rfl
  rw [if_neg h1] at h
  by_cases h2 : 3 ≤ data.length ∧ isOperation (data.getD 1 0) = true
  · have hlen : 3 ≤ (data ++ more).length := by
      rw [List.length_append]
      omega
    have e1 := getD_append_of_lt data more 1 (by omega)
    have e2 := getD_append_of_lt data more 2 (by omega)
    simp only [parseIAC, e1, e2, h1', h1f, h2, hlen, and_self, if_true, Bool.false_eq_true,
      if_false]
  rw [if_neg h2] at h
  by_cases h3 : 2 ≤ data.length ∧ isCommand (data.getD 1 0) = true
  · have e1 := getD_append_of_lt data more 1 (by omega)
    have hop : isOperation (data.getD 1 0) = false := by
      have hdm : data.getD 1 0 = Common.DM := by
        simpa [isCommand] using h3.2
      rw [hdm]
      decide
    have hlen : 2 ≤ (data ++ more).length := by
      rw [List.length_append]
      omega
    simp only [parseIAC, e1, h1', h1f, hop, h3, hlen, and_self, and_false, if_true,
      Bool.false_eq_true, if_false]
  rw [if_neg h3] at h
  by_cases h4 : (getSubOption data).isEmpty = true
  · rw [if_pos h4] at h
    exact absurd rfl h
  have hne : getSubOption data ≠ [] := by
    intro hc
    rw [hc] at h4
    exact h4 rfl
  have hlen := getSubOption_length data hne
  have e1 := getD_append_of_lt data more 1 (by omega)
  have hop : isOperation (data.getD 1 0) = false := by
    cases hc : isOperation (data.getD 1 0) with
    | false => rfl
    | true => exact absurd ⟨by omega, hc⟩ h2
  have hcmd : isCommand (data.getD 1 0) = false := by
    cases hc : isCommand (data.getD 1 0) with
    | false => rfl
    | true => exact absurd ⟨by omega, hc⟩ h3
  simp only [parseIAC, e1, h1', h1f, hop, hcmd, and_false, Bool.false_eq_true, if_false,
    getSubOption_append data more hne, h4, parseIACSwitch_data d (data ++ more) data]

theorem indexOfNul_append (data more : List Nat) :
    ∀ i, indexOfNul data = some i → indexOfNul (data ++ more) = some i := by
  induction data with
  | nil => intro i h; simp [indexOfNul] at h
  | cons c cs ih =>
    intro i h
    rw [List.cons_append]
    unfold indexOfNul at h ⊢
    split_ifs at h ⊢ with hc
    · exact h
    · cases hcs : indexOfNul cs with
      | none => rw [hcs] at h; simp at h
      | some k => rw [ih k hcs]; rw [hcs] at h; exact h

theorem parsePlaintext_append (d : QtTelnetPrivate) (data more : List Nat)
    (h : indexOfNul data ≠ none) : parsePlaintext d (data ++ more) = parsePlaintext d data := by
  cases hi : indexOfNul data with
  | none => exact absurd hi h
  | some i =>
    have hlt := indexOfNul_some data i hi
    unfold parsePlaintext
    rw [indexOfNul_append data more i hi, hi]
    simp only
    rw [List.take_append_of_le_length (by omega)]

/-- The dispatch of `consume` at the front of `rest` is not changed by bytes
that follow, when it consumed something and was not a plaintext run without
NUL. -/
theorem consumeStep_append (d : QtTelnetPrivate) (rest more : List Nat) (hne : rest ≠ [])
    (hpos : (consumeStep d rest 0).2 ≠ 0) (hopen : isOpenText rest = false) :
    consumeStep d (rest ++ more) 0 = consumeStep d rest 0 := by
  have e0 : (rest ++ more).getD 0 0 = rest.getD 0 0 :=
    getD_append_of_lt rest more 0 (List.length_pos.mpr hne)
  simp only [consumeStep, List.drop_zero, Nat.zero_add, e0] at hpos ⊢
  split_ifs at hpos ⊢ with h1 h2
  · rfl
  · rw [parseIAC_append d rest more hpos]
  · have hnul : indexOfNul rest ≠ none := by
      intro hc
      have : isOpenText rest = true := by
        unfold isOpenText
        rw [hc, decide_eq_true h1, decide_eq_true h2]
        rfl
      rw [hopen] at this
      exact Bool.false_ne_true this
    rw [parsePlaintext_append d rest more hnul]

/-! ## The loop of `consume` seen from the unread bytes -/

theorem consumeStep_drop (d : QtTelnetPrivate) (data : List Nat) (currpos : Nat) :
    consumeStep d data currpos
      = ((consumeStep d (data.drop currpos) 0).1,
          currpos + (consumeStep d (data.drop currpos) 0).2) := by
  have e : (data.drop currpos).getD 0 0 = data.getD currpos 0 := by
    simp [List.getD_eq_getElem?_getD, List.getElem?_drop]
  simp only [consumeStep, List.drop_zero, Nat.zero_add, e]
  split_ifs <;> rfl

theorem consumeLoop_stuck (data : List Nat) (fuel : Nat) (d : QtTelnetPrivate) (currpos : Nat) :
    consumeLoop data fuel d (currpos : Int) currpos = (d, currpos) := by
  cases fuel with
  | zero => rfl
  | succ fuel => simp [consumeLoop]

theorem consumeRest_nil (fuel : Nat) (d : QtTelnetPrivate) : consumeRest fuel d [] = (d, []) := by
  cases fuel <;> simp [consumeRest]

/-- The loop of `consume` from position `currpos` does what `consumeRest`
does on the bytes from `currpos` on. -/
theorem consumeLoop_eq_consumeRest (data : List Nat) :
    ∀ (fuel : Nat) (d : QtTelnetPrivate) (prevpos : Int) (currpos : Nat),
      prevpos < (currpos : Int) → currpos ≤ data.length →
      (consumeLoop data fuel d prevpos currpos).1 = (consumeRest fuel d (data.drop currpos)).1
      ∧ data.drop (consumeLoop data fuel d prevpos currpos).2
          = (consumeRest fuel d (data.drop currpos)).2
      ∧ (consumeLoop data fuel d prevpos currpos).2 ≤ data.length := by
  intro fuel
  induction fuel with
  | zero =>
    intro d prevpos currpos _ hle
    exact ⟨rfl, rfl, hle⟩
  | succ fuel ih =>
    intro d prevpos currpos hprev hle
    by_cases hlt : currpos < data.length
    · have hne : data.drop currpos ≠ [] := by
        intro hc
        have := List.drop_eq_nil_iff.mp hc
        omega
      have hstep := consumeStep_drop d data currpos
      have hk := consumeStep_snd_le d (data.drop currpos) hne
      rw [List.length_drop] at hk
      simp only [consumeLoop, hprev, hlt, and_self, if_true, consumeRest, hne, if_false]
      rw [hstep]
      by_cases h0 : (consumeStep d (data.drop currpos) 0).2 = 0
      · simp only [h0, Nat.add_zero, if_true, consumeLoop_stuck]
        exact ⟨trivial, trivial, hle⟩
      · simp only [h0, if_false]
        have := ih (consumeStep d (data.drop currpos) 0).1 (currpos : Int)
          (currpos + (consumeStep d (data.drop currpos) 0).2) (by omega) (by omega)
        rw [← List.drop_drop] at this
        exact this
    · have hnil : data.drop currpos = [] := List.drop_eq_nil_iff.mpr (by omega)
      simp only [consumeLoop, hlt, and_false, if_false, hnil, consumeRest_nil]
      exact ⟨trivial, trivial, hle⟩

theorem consume_eq (d : QtTelnetPrivate) :
    consume d
      = pushBack (consumeRest (d.buffer.flatten.length + 1) { d with buffer := [] }
          d.buffer.flatten) := by
  have h := consumeLoop_eq_consumeRest d.buffer.flatten (d.buffer.flatten.length + 1)
    { d with buffer := [] } (-1) 0 (by omega) (Nat.zero_le _)
  rw [List.drop_zero] at h
  obtain ⟨h1, h2, h3⟩ := h
  simp only [consume, pushBack]
  rw [← h1, ← h2]
  by_cases hlt : (consumeLoop d.buffer.flatten (d.buffer.flatten.length + 1)
      { d with buffer := [] } (-1) 0).2 < d.buffer.flatten.length
  · have hne : d.buffer.flatten.drop (consumeLoop d.buffer.flatten (d.buffer.flatten.length + 1)
        { d with buffer := [] } (-1) 0).2 ≠ [] := by
      intro hc
      have := List.drop_eq_nil_iff.mp hc
      omega
    rw [if_pos hlt, if_neg hne]
  · have hnil : d.buffer.flatten.drop (consumeLoop d.buffer.flatten (d.buffer.flatten.length + 1)
        { d with buffer := [] } (-1) 0).2 = [] := List.drop_eq_nil_iff.mpr (by omega)
    rw [if_neg hlt, if_pos hnil]

theorem consumeRest_fuel (fuel : Nat) :
    ∀ (fuel' : Nat) (d : QtTelnetPrivate) (rest : List Nat),
      rest.length ≤ fuel → rest.length ≤ fuel' → consumeRest fuel d rest = consumeRest fuel' d rest := by
  induction fuel with
  | zero =>
    intro fuel' d rest h _
    have : rest = [] := List.length_eq_zero.mp (by omega)
    subst this
    rw [consumeRest_nil, consumeRest_nil]
  | succ fuel ih =>
    intro fuel' d rest h h'
    by_cases hne : rest = []
    · subst hne
      rw [consumeRest_nil, consumeRest_nil]
    · have hpos : 0 < rest.length := List.length_pos.mpr hne
      obtain ⟨g, rfl⟩ : ∃ g, fuel' = g + 1 := ⟨fuel' - 1, by omega⟩
      simp only [consumeRest, hne, if_false]
      by_cases h0 : (consumeStep d rest 0).2 = 0
      · simp only [h0, if_true]
      · simp only [h0, if_false]
        apply ih
        · rw [List.length_drop]; omega
        · rw [List.length_drop]; omega

theorem consumeRest_buffer (fuel : Nat) :
    ∀ (d : QtTelnetPrivate) (rest : List Nat), (consumeRest fuel d rest).1.buffer = d.buffer := by
  induction fuel with
  | zero => intro d rest; rfl
  | succ fuel ih =>
    intro d rest
    simp only [consumeRest]
    split_ifs
    · rfl
    · exact consumeStep_buffer d rest 0
    · rw [ih, consumeStep_buffer]

/-! ## Incrementality -/

theorem endsInOpenTextAux_nil (fuel : Nat) : endsInOpenTextAux fuel [] = false := by
  cases fuel <;> simp [endsInOpenTextAux]

/-- A pass over `a` followed by a pass over what it left and the bytes `b`
does what one pass over `a ++ b` does, when the pass over `a` does not end
with a plaintext run without NUL. -/
theorem consumeRest_append (n : Nat) :
    ∀ (a b : List Nat) (d : QtTelnetPrivate) (fuel fuel' : Nat),
      a.length ≤ n → endsInOpenTextAux n a = false →
      (a ++ b).length ≤ fuel → ((consumeRest n d a).2 ++ b).length ≤ fuel' →
      consumeRest fuel d (a ++ b) = consumeRest fuel' (consumeRest n d a).1 ((consumeRest n d a).2 ++ b) := by
  induction n with
  | zero =>
    intro a b d fuel fuel' hlen _ hfuel hfuel'
    have : a = [] := List.length_eq_zero.mp (by omega)
    subst this
    rw [consumeRest_nil] at hfuel' ⊢
    exact consumeRest_fuel fuel fuel' d _ hfuel hfuel'
  | succ n ih =>
    intro a b d fuel fuel' hlen hopen hfuel hfuel'
    by_cases hne : a = []
    · subst hne
      rw [consumeRest_nil] at hfuel' ⊢
      exact consumeRest_fuel fuel fuel' d _ hfuel hfuel'
    · have hpos : 0 < a.length := List.length_pos.mpr hne
      simp only [endsInOpenTextAux, hne, if_false] at hopen
      have hnot : isOpenText a = false := by
        cases h : isOpenText a with
        | false => rfl
        | true => rw [h] at hopen; simp at hopen
      rw [hnot] at hopen
      simp only [Bool.false_eq_true, if_false] at hopen
      rw [← consumeStep_snd d a] at hopen
      by_cases h0 : (consumeStep d a 0).2 = 0
      · have hst := consumeStep_zero d a hne h0
        have hr : consumeRest (n + 1) d a = (d, a) := by
          simp only [consumeRest, hne, if_false, h0, if_true, hst]
        rw [hr] at hfuel' ⊢
        exact consumeRest_fuel fuel fuel' d _ hfuel hfuel'
      · have hr : consumeRest (n + 1) d a
            = consumeRest n (consumeStep d a 0).1 (a.drop (consumeStep d a 0).2) := by
          simp only [consumeRest, hne, if_false, h0]
        rw [hr] at hfuel' ⊢
        rw [if_neg h0] at hopen
        have hk := consumeStep_snd_le d a hne
        have hab : a ++ b ≠ [] := by simp [hne]
        rw [List.length_append] at hfuel
        obtain ⟨g, rfl⟩ : ∃ g, fuel = g + 1 := ⟨fuel - 1, by omega⟩
        have hstep := consumeStep_append d a b hne h0 hnot
        simp only [consumeRest, hab, if_false, hstep, h0]
        rw [List.drop_append_of_le_length hk]
        apply ih (a.drop (consumeStep d a 0).2) b (consumeStep d a 0).1 g fuel'
        · rw [List.length_drop]; omega
        · exact hopen
        · rw [List.length_append, List.length_drop]; omega
        · exact hfuel'

theorem clear_buffer_eq (d : QtTelnetPrivate) (h : d.buffer = []) :
    { d with buffer := [] } = d := by
  cases d
  simp only at h
  subst h
  rfl

theorem socketReadyRead_eq (d : QtTelnetPrivate) (chunk : List Nat) :
    socketReadyRead d chunk
      = pushBack (consumeRest ((d.buffer.flatten ++ chunk).length + 1) { d with buffer := [] }
          (d.buffer.flatten ++ chunk)) := by
  unfold socketReadyRead
  rw [consume_eq]
  simp only [List.flatten_append, List.flatten_cons, List.flatten_nil, List.append_nil]

theorem pushBack_buffer_flatten (r : QtTelnetPrivate × List Nat) (h : r.1.buffer = []) :
    (pushBack r).buffer.flatten = r.2 ∧ { pushBack r with buffer := [] } = r.1 := by
  unfold pushBack
  split_ifs with h2
  · rw [h, h2]
    exact ⟨rfl, clear_buffer_eq r.1 h⟩
  · simp only [h, List.flatten_cons, List.flatten_nil, List.append_nil, true_and]
    exact clear_buffer_eq r.1 h

/-- Two reads in a row do what one read of both chunks does, when the bytes
buffered before with the first chunk do not end with a plaintext run without
NUL. -/
theorem socketReadyRead_socketReadyRead (d : QtTelnetPrivate) (a b : List Nat)
    (hopen : endsInOpenText (d.buffer.flatten ++ a) = false) :
    socketReadyRead (socketReadyRead d a) b = socketReadyRead d (a ++ b) := by
  have hbuf : (consumeRest ((d.buffer.flatten ++ a).length + 1) { d with buffer := [] }
      (d.buffer.flatten ++ a)).1.buffer = [] := by
    rw [consumeRest_buffer]
  have hfl := pushBack_buffer_flatten _ hbuf
  rw [socketReadyRead_eq (socketReadyRead d a) b, socketReadyRead_eq d a, hfl.1, hfl.2,
    socketReadyRead_eq d (a ++ b)]
  congr 1
  rw [consumeRest_fuel ((d.buffer.flatten ++ a).length + 1) (d.buffer.flatten ++ a).length
    _ _ (Nat.le_succ _) (Nat.le_refl _)]
  rw [← List.append_assoc]
  exact (consumeRest_append (d.buffer.flatten ++ a).length (d.buffer.flatten ++ a) b _ _ _
    (Nat.le_refl _) hopen (Nat.le_succ _) (Nat.le_succ _)).symm

theorem socketReadyRead_nil (d : QtTelnetPrivate) (h : d.buffer = []) :
    socketReadyRead d [] = d := by
  rw [socketReadyRead_eq, h]
  simp only [List.flatten_nil, List.append_nil, consumeRest_nil, pushBack, if_true]
  exact clear_buffer_eq d h

theorem feedAll_after (chunks : List (List Nat)) :
    ∀ (d : QtTelnetPrivate) (pre : List Nat), d.buffer = [] →
      splitsAvoidOpenText pre chunks = true →
      feedAll (socketReadyRead d pre) chunks = socketReadyRead d (pre ++ chunks.flatten) := by
  induction chunks with
  | nil =>
    intro d pre _ _
    simp [feedAll]
  | cons chunk chunks ih =>
    intro d pre hb h
    simp only [splitsAvoidOpenText, Bool.and_eq_true, Bool.not_eq_true'] at h
    have h2 := socketReadyRead_socketReadyRead d pre chunk (by rw [hb]; exact h.1)
    rw [feedAll, h2, ih d (pre ++ chunk) hb h.2, List.flatten_cons, List.append_assoc]

/-- C1 (as stated, refuted): from a connected engine with an empty receive
buffer, the stream 61 FF FD 03 fed as the chunks 61 and FF FD 03 emits
message(61) and writes FF FB 03, while fed in one chunk it emits
message(61 FF FD 03) and writes nothing; and the stream 61 62 fed as two
chunks emits two messages, fed as one chunk a single one. -/
theorem chunked_feeding_differs :
    connectedEngine.connected = true ∧ connectedEngine.buffer = []
    ∧ (feedAll connectedEngine [[97], [255, 253, 3]]).emitted = [Signal.message [97]]
    ∧ (feedAll connectedEngine [[97], [255, 253, 3]]).written
        = connectedEngine.written ++ [255, 251, 3]
    ∧ (socketReadyRead connectedEngine ([97] ++ [255, 253, 3])).emitted
        = [Signal.message [97, 255, 253, 3]]
    ∧ (socketReadyRead connectedEngine ([97] ++ [255, 253, 3])).written = connectedEngine.written
    ∧ (feedAll connectedEngine [[97], [98]]).emitted = [Signal.message [97], Signal.message [98]]
    ∧ (socketReadyRead connectedEngine ([97] ++ [98])).emitted = [Signal.message [97, 98]] := by
  decide

/-- C1 (amended): from an engine with an empty receive buffer, feeding the
chunks of a stream one by one leaves the engine in the same state, with the
same signals emitted and the same bytes written, as feeding the stream in one
chunk, provided that no read boundary comes after a pass that ended with a
plaintext run without NUL: the bytes received before each chunk, parsed in
one pass, do not end in such a run. -/
theorem incrementality (d : QtTelnetPrivate) (chunks : List (List Nat)) (hb : d.buffer = [])
    (h : splitsAvoidOpenText [] chunks = true) :
    feedAll d chunks = socketReadyRead d chunks.flatten := by
  have := feedAll_after chunks d [] hb h
  rwa [socketReadyRead_nil d hb, List.nil_append] at this

theorem incrementality_witness :
    connectedEngine.buffer = []
    ∧ splitsAvoidOpenText [] [[255, 250, 37, 1], [0, 0, 255, 240, 255], [253, 3, 97, 0], [98]]
        = true
    ∧ (feedAll connectedEngine
          [[255, 250, 37, 1], [0, 0, 255, 240, 255], [253, 3, 97, 0], [98]]).written
        = connectedEngine.written ++ [255, 250, 37, 0, 0, 0, 255, 240] ++ [255, 251, 3]
    ∧ (feedAll connectedEngine
          [[255, 250, 37, 1], [0, 0, 255, 240, 255], [253, 3, 97, 0], [98]]).emitted
        = [Signal.message [97], Signal.message [98]] :=
  ⟨by decide, by decide,
    (congrArg QtTelnetPrivate.written
      (incrementality connectedEngine
        [[255, 250, 37, 1], [0, 0, 255, 240, 255], [253, 3, 97, 0], [98]] (by decide)
        (by decide))).trans (by decide),
    (congrArg QtTelnetPrivate.emitted
      (incrementality connectedEngine
        [[255, 250, 37, 1], [0, 0, 255, 240, 255], [253, 3, 97, 0], [98]] (by decide)
        (by decide))).trans (by decide)⟩

/-! ## Single frames -/

/-- For IAC followed by a byte that is neither a negotiation verb, nor DM,
nor SB, the IAC sub-parser consumes nothing and changes nothing, whatever
follows. -/
theorem parseIAC_other (d : QtTelnetPrivate) (x : Nat) (rest : List Nat)
    (hop : isOperation x = false) (hdm : x ≠ Common.DM) (hsb : x ≠ Common.SB) :
    parseIAC d (Common.IAC :: x :: rest) = (d, 0) := by
  have hcmd : isCommand x = false := by simp [isCommand, hdm]
  have hsub : getSubOption (Common.IAC :: x :: rest) = [] := by
    unfold getSubOption
    have hc : (Common.IAC :: x :: rest).length < 4
        ∨ (Common.IAC :: x :: rest).getD 1 0 ≠ Common.SB := Or.inr hsb
    rw [if_pos hc]
  simp only [parseIAC, List.isEmpty_cons, Bool.false_eq_true, if_false, List.getD_cons_succ,
    List.getD_cons_zero, hop, hcmd, and_false, hsub, List.isEmpty_nil, if_true]


/-- A read that brings exactly one frame for the IAC sub-parser, into an
empty receive buffer, does what `parseIAC` does with the frame and leaves the
buffer empty. -/
theorem socketReadyRead_frame (d : QtTelnetPrivate) (data : List Nat) (hb : d.buffer = [])
    (hiac : data.getD 0 0 = Common.IAC) (hlen : (parseIAC d data).2 = data.length) :
    socketReadyRead d data = (parseIAC d data).1 := by
  have hne : data ≠ [] := getD_zero_ne_nil data Common.IAC (by decide) hiac
  have hpos : 0 < data.length := List.length_pos.mpr hne
  have hstep : consumeStep d data 0 = ((parseIAC d data).1, data.length) := by
    have hdm : ¬ Common.IAC = Common.DM := by decide
    simp only [consumeStep, List.drop_zero, Nat.zero_add, hiac, hdm, if_false, if_true, hlen]
  have h0 : ¬ data.length = 0 := by omega
  rw [socketReadyRead_eq, hb]
  simp only [List.flatten_nil, List.nil_append, clear_buffer_eq d hb]
  have hb' : (parseIAC d data).1.buffer = [] := by rw [parseIAC_buffer, hb]
  simp only [consumeRest, hne, if_false, hstep, h0, List.drop_length, consumeRest_nil, pushBack,
    if_true]


/-- C7: when peer_enabled[opt] is true and IAC DO opt arrives, or it is false
and IAC DONT opt arrives, the engine consumes the three bytes, writes nothing
(in band or urgent) and leaves the option mode map and the sent-set as they
were; a read of the three bytes into an empty receive buffer leaves the buffer
empty. -/
theorem redundant_request_suppressed (d : QtTelnetPrivate) (op opt : Nat) (rest : List Nat)
    (h : (op = Common.DO ∧ d.modes opt = true) ∨ (op = Common.DONT ∧ d.modes opt = false)) :
    (parseIAC d (Common.IAC :: op :: opt :: rest)).2 = 3
    ∧ (parseIAC d (Common.IAC :: op :: opt :: rest)).1.written = d.written
    ∧ (parseIAC d (Common.IAC :: op :: opt :: rest)).1.urgent = d.urgent
    ∧ (parseIAC d (Common.IAC :: op :: opt :: rest)).1.modes = d.modes
    ∧ (parseIAC d (Common.IAC :: op :: opt :: rest)).1.osent = d.osent
    ∧ (d.buffer = [] →
        (socketReadyRead d [Common.IAC, op, opt]).buffer = []
        ∧ (socketReadyRead d [Common.IAC, op, opt]).written = d.written
        ∧ (socketReadyRead d [Common.IAC, op, opt]).urgent = d.urgent
        ∧ (socketReadyRead d [Common.IAC, op, opt]).modes = d.modes
        ∧ (socketReadyRead d [Common.IAC, op, opt]).osent = d.osent) := by
  have hop : isOperation op = true := by
    rcases h with ⟨h, _⟩ | ⟨h, _⟩ <;> subst h <;> decide
  have hlogout : ¬ (op = Common.WONT ∧ opt = Common.Logout) := by
    rcases h with ⟨h, _⟩ | ⟨h, _⟩ <;> subst h <;> simp [Common.WONT, Common.DO, Common.DONT]
  have hneed : replyNeeded d op opt = false := by
    rcases h with ⟨h, hm⟩ | ⟨h, hm⟩ <;> subst h
      <;> simp [replyNeeded, hm, Common.DO, Common.DONT]
  have hf := parseIACDontAuth_fields d op opt
  have hparse : ∀ tail : List Nat,
      parseIAC d (Common.IAC :: op :: opt :: tail) = (parseIACDontAuth d op opt, 3) := by
    intro tail
    rw [parseIAC_operation d op opt tail hop hlogout, hneed]
    simp
  rw [hparse rest]
  refine ⟨rfl, hf.2.2.1, hf.2.2.2.1, hf.1, hf.2.1, ?_⟩
  intro hb
  have hread := socketReadyRead_frame d [Common.IAC, op, opt] hb rfl
    (by rw [hparse []]; rfl)
  rw [hread, hparse []]
  exact ⟨hf.2.2.2.2.2.2.trans hb, hf.2.2.1, hf.2.2.2.1, hf.1, hf.2.1⟩

theorem redundant_request_suppressed_witness :
    (socketReadyRead connectedEngine [255, 253, 3]).modes 3 = true
    ∧ (socketReadyRead connectedEngine [255, 253, 3]).buffer = []
    ∧ (socketReadyRead (socketReadyRead connectedEngine [255, 253, 3]) [255, 253, 3]).written
        = (socketReadyRead connectedEngine [255, 253, 3]).written :=
  ⟨by decide, by decide,
    ((redundant_request_suppressed (socketReadyRead connectedEngine [255, 253, 3]) 253 3 []
      (Or.inl ⟨rfl, by decide⟩)).2.2.2.2.2 (by decide)).2.1⟩

/-- The search of `getSubOption` does not stop for lack of fuel: when it
finds nothing from index `i` on, no IAC SE pair starts at or after `i`. -/
theorem getSubOptionLoop_none (data : List Nat) :
    ∀ (fuel i : Nat), data.length ≤ fuel + i → getSubOptionLoop data fuel i = none →
      ∀ j, i ≤ j → j + 1 < data.length →
        ¬ (data.getD j 0 = Common.IAC ∧ data.getD (j + 1) 0 = Common.SE) := by
  intro fuel
  induction fuel with
  | zero =>
    intro i hlen _ j hij hj
    omega
  | succ fuel ih =>
    intro i hlen h j hij hj
    unfold getSubOptionLoop at h
    split_ifs at h with h1 h2
    · rcases Nat.eq_or_lt_of_le hij with heq | hlt
      · subst heq
        exact h2
      · exact ih (i + 1) (by omega) h j hlt hj
    · omega

/-! ## Partial frames -/

/-- A read that brings bytes the IAC sub-parser cannot consume yet, into an
empty receive buffer, changes nothing but the buffer, which holds the bytes
as one chunk. -/
theorem socketReadyRead_held (d : QtTelnetPrivate) (pre : List Nat) (hb : d.buffer = [])
    (hiac : pre.getD 0 0 = Common.IAC) (h0 : (parseIAC d pre).2 = 0) :
    socketReadyRead d pre = { d with buffer := [pre] } := by
  have hne : pre ≠ [] := getD_zero_ne_nil pre Common.IAC (by decide) hiac
  have hdm : ¬ Common.IAC = Common.DM := by decide
  have hstep : consumeStep d pre 0 = (d, 0) := by
    simp only [consumeStep, List.drop_zero, Nat.zero_add, hiac, hdm, if_false, if_true, h0,
      parseIAC_zero d pre h0]
  rw [socketReadyRead_eq, hb]
  simp only [List.flatten_nil, List.nil_append, clear_buffer_eq d hb]
  simp only [consumeRest, hne, if_false, hstep, if_true, pushBack, hb]

theorem endsInOpenText_held (pre : List Nat) (hiac : pre.getD 0 0 = Common.IAC)
    (h0 : frameLength pre = 0) : endsInOpenText pre = false := by
  have hne : pre ≠ [] := getD_zero_ne_nil pre Common.IAC (by decide) hiac
  obtain ⟨n, hn⟩ : ∃ n, pre.length = n + 1 :=
    ⟨pre.length - 1, by have := List.length_pos.mpr hne; omega⟩
  have hopen : isOpenText pre = false := by
    unfold isOpenText
    rw [hiac]
    rfl
  unfold endsInOpenText
  rw [hn]
  simp only [endsInOpenTextAux, hne, if_false, hopen, Bool.false_eq_true, h0, if_true]

theorem getD_zero_append_left (pre post : List Nat) (hpre : pre ≠ []) :
    pre.getD 0 0 = (pre ++ post).getD 0 0 :=
  (getD_append_of_lt pre post 0 (List.length_pos.mpr hpre)).symm

/-- A non-empty strict prefix of a negotiation frame is not consumed. -/
theorem parseIAC_incomplete_negotiation (d : QtTelnetPrivate) (op opt : Nat) (pre post : List Nat)
    (hop : isOperation op = true) (hsplit : pre ++ post = [255, op, opt]) (hpost : post ≠ []) :
    (parseIAC d pre).2 = 0 := by
  have hlen : pre.length + post.length = 3 := by
    have := congrArg List.length hsplit
    simpa using this
  have hpostlen : 0 < post.length := List.length_pos.mpr hpost
  have hcmd : isCommand op = false := by
    simp only [isOperation, Common.WILL, Common.WONT, Common.DO, Common.DONT, Bool.or_eq_true,
      decide_eq_true_eq] at hop
    rcases hop with ((h | h) | h) | h <;> subst h <;> decide
  have h1 : ¬ (3 ≤ pre.length ∧ isOperation (pre.getD 1 0) = true) := by
    intro h
    omega
  have h2 : ¬ (2 ≤ pre.length ∧ isCommand (pre.getD 1 0) = true) := by
    intro h
    have e : pre.getD 1 0 = op := by
      have := getD_append_of_lt pre post 1 (by omega)
      rw [hsplit] at this
      exact this.symm
    rw [e, hcmd] at h
    exact Bool.false_ne_true h.2
  have h3 : getSubOption pre = [] := by
    unfold getSubOption
    rw [if_pos (Or.inl (by omega))]
  simp only [parseIAC_snd, h1, h2, h3, if_false, List.isEmpty_nil, if_true, ite_self]

/-- A non-empty strict prefix of a suboption frame whose payload holds no
0xFF is not consumed. -/
theorem parseIAC_incomplete_suboption (d : QtTelnetPrivate) (p pre post : List Nat)
    (hff : 255 ∉ p) (hsplit : pre ++ post = [255, 250] ++ p ++ [255, 240])
    (hpost : post ≠ []) : (parseIAC d pre).2 = 0 := by
  have hframe : [255, 250] ++ p ++ [255, 240] = 255 :: 250 :: (p ++ 255 :: 240 :: []) := by
    simp
  rw [hframe] at hsplit
  have hlen : pre.length + post.length = p.length + 4 := by
    have := congrArg List.length hsplit
    simp at this
    omega
  have hpostlen : 0 < post.length := List.length_pos.mpr hpost
  have hget : ∀ i, i < pre.length →
      pre.getD i 0 = (255 :: 250 :: (p ++ 255 :: 240 :: [])).getD i 0 := by
    intro i hi
    rw [← hsplit]
    exact (getD_append_of_lt pre post i hi).symm
  have h1 : ¬ (3 ≤ pre.length ∧ isOperation (pre.getD 1 0) = true) := by
    intro h
    have e : (255 :: 250 :: (p ++ 255 :: 240 :: [])).getD 1 0 = 250 := rfl
    rw [hget 1 (by omega), e] at h
    exact absurd h.2 (by decide)
  have h2 : ¬ (2 ≤ pre.length ∧ isCommand (pre.getD 1 0) = true) := by
    intro h
    have e : (255 :: 250 :: (p ++ 255 :: 240 :: [])).getD 1 0 = 250 := rfl
    rw [hget 1 (by omega), e] at h
    exact absurd h.2 (by decide)
  have h3 : getSubOption pre = [] := by
    unfold getSubOption
    split_ifs
    · rfl
    · cases hj : getSubOptionLoop pre pre.length 2 with
      | none => rfl
      | some j =>
        exfalso
        have hs := getSubOptionLoop_some pre _ 2 j hj
        obtain ⟨k, rfl⟩ : ∃ k, j = k + 2 := ⟨j - 2, by omega⟩
        have hk : k < p.length := by omega
        have hjget := hget (k + 2) (by omega)
        rw [getD_framed_payload p [] k hk] at hjget
        rw [hjget] at hs
        exact getD_ne_of_not_mem p k hk 255 hff hs.2.2.1
  simp only [parseIAC_snd, h1, h2, h3, if_false, List.isEmpty_nil, if_true, ite_self]

/-- C11: from an empty receive buffer, a read that brings a non-empty strict
prefix of a negotiation frame FF op opt or of a suboption frame FF FA p FF F0
(p non-empty, without 0xFF) changes nothing but the receive buffer, which
then holds exactly the prefix: no signal is emitted and nothing is written;
the read that brings the rest of the frame leaves the engine in the state,
with the signals and the bytes written, of one read of the whole frame. -/
theorem incomplete_frame_held_back (d : QtTelnetPrivate) (frame pre post : List Nat)
    (hb : d.buffer = [])
    (hframe : (∃ op opt, isOperation op = true ∧ frame = [255, op, opt])
      ∨ (∃ p, p ≠ [] ∧ 255 ∉ p ∧ frame = [255, 250] ++ p ++ [255, 240]))
    (hsplit : pre ++ post = frame) (hpre : pre ≠ []) (hpost : post ≠ []) :
    socketReadyRead d pre = { d with buffer := [pre] }
    ∧ socketReadyRead (socketReadyRead d pre) post = socketReadyRead d frame := by
  have hiac : pre.getD 0 0 = Common.IAC := by
    rw [getD_zero_append_left pre post hpre, hsplit]
    rcases hframe with ⟨op, opt, _, rfl⟩ | ⟨p, _, _, rfl⟩ <;> rfl
  have h0 : ∀ e : QtTelnetPrivate, (parseIAC e pre).2 = 0 := by
    intro e
    rcases hframe with ⟨op, opt, hop, rfl⟩ | ⟨p, _, hff, rfl⟩
    · exact parseIAC_incomplete_negotiation e op opt pre post hop hsplit hpost
    · exact parseIAC_incomplete_suboption e p pre post hff hsplit hpost
  have hfl : frameLength pre = 0 := by
    have hdm : ¬ Common.IAC = Common.DM := by decide
    simp only [frameLength, consumeStep, List.drop_zero, Nat.zero_add, hiac, hdm, if_false,
      if_true, h0]
  refine ⟨socketReadyRead_held d pre hb hiac (h0 d), ?_⟩
  rw [← hsplit]
  exact socketReadyRead_socketReadyRead d pre post
    (by rw [hb]; exact endsInOpenText_held pre hiac hfl)

theorem incomplete_frame_held_back_witness :
    connectedEngine.buffer = []
    ∧ socketReadyRead connectedEngine [255, 250, 37, 1]
        = { connectedEngine with buffer := [[255, 250, 37, 1]] }
    ∧ (socketReadyRead (socketReadyRead connectedEngine [255, 250, 37, 1])
          [0, 0, 0, 255, 240]).written
        = connectedEngine.written ++ [255, 250, 37, 0, 0, 0, 255, 240] :=
  ⟨by decide,
    (incomplete_frame_held_back connectedEngine [255, 250, 37, 1, 0, 0, 0, 255, 240]
      [255, 250, 37, 1] [0, 0, 0, 255, 240] (by decide)
      (Or.inr ⟨[37, 1, 0, 0, 0], by decide, by decide, rfl⟩) rfl (by decide) (by decide)).1,
    (congrArg QtTelnetPrivate.written
      (incomplete_frame_held_back connectedEngine [255, 250, 37, 1, 0, 0, 0, 255, 240]
        [255, 250, 37, 1] [0, 0, 0, 255, 240] (by decide)
        (Or.inr ⟨[37, 1, 0, 0, 0], by decide, by decide, rfl⟩) rfl (by decide)
        (by decide)).2).trans (by decide)⟩

/-! ## Plaintext fidelity -/

theorem messagePayloads_append (signals : List Signal) (s : Signal) :
    messagePayloads (signals ++ [s]) = messagePayloads signals ++ s.payload := by
  simp [messagePayloads]

theorem sendData_emitted (d : QtTelnetPrivate) (data : List Nat) :
    (sendData d data).emitted = d.emitted := by
  unfold sendData socketWrite
  split_ifs <;> rfl

theorem parsePlaintextLogin_payloads (d : QtTelnetPrivate) (text : List Nat) :
    messagePayloads (parsePlaintextLogin d text).1.emitted ++ (parsePlaintextLogin d text).2
      = messagePayloads d.emitted ++ text := by
  simp only [parsePlaintextLogin]
  split_ifs <;>
    simp [emit, sendData_emitted, messagePayloads, Signal.payload]

theorem parsePlaintextPass_payloads (d : QtTelnetPrivate) (text : List Nat) :
    messagePayloads (parsePlaintextPass d text).1.emitted ++ (parsePlaintextPass d text).2
      = messagePayloads d.emitted ++ text := by
  simp only [parsePlaintextPass]
  split_ifs <;>
    simp [emit, sendData_emitted, messagePayloads, Signal.payload]

/-- Whatever the login assistant does with a text, the message signals it
emits carry the text once, in order. -/
theorem parsePlaintextText_payloads (d : QtTelnetPrivate) (text : List Nat) :
    messagePayloads (parsePlaintextText d text).emitted = messagePayloads d.emitted ++ text := by
  have hfinal : ∀ r : QtTelnetPrivate × List Nat,
      messagePayloads (if r.2.isEmpty = false then emit r.1 (Signal.message r.2) else r.1).emitted
        = messagePayloads r.1.emitted ++ r.2 := by
    intro r
    cases h : r.2 with
    | nil => simp
    | cons c cs => simp [emit, messagePayloads_append, Signal.payload]
  simp only [parsePlaintextText]
  rw [hfinal]
  split_ifs <;>
    simp only [parsePlaintextPass_payloads, parsePlaintextLogin_payloads, emit,
      messagePayloads_append, Signal.payload, List.append_nil]

/-- A read of bytes without IAC, NUL and DM into an empty receive buffer is
one plaintext run; the buffer stays empty. -/
theorem socketReadyRead_text (d : QtTelnetPrivate) (chunk : List Nat) (hb : d.buffer = [])
    (h : ∀ b ∈ chunk, b ≠ 255 ∧ b ≠ 0 ∧ b ≠ 242) (hne : chunk ≠ []) :
    socketReadyRead d chunk = parsePlaintextText d chunk := by
  have hnul : (0 : Nat) ∉ chunk := fun hc => (h 0 hc).2.1 rfl
  have hhead : chunk.getD 0 0 ∈ chunk := by
    cases chunk with
    | nil => exact absurd rfl hne
    | cons c cs => simp
  have hiac : ¬ chunk.getD 0 0 = Common.IAC := (h _ hhead).1
  have hdm : ¬ chunk.getD 0 0 = Common.DM := (h _ hhead).2.2
  have hstep : consumeStep d chunk 0 = (parsePlaintextText d chunk, chunk.length) := by
    simp only [consumeStep, List.drop_zero, Nat.zero_add, hiac, hdm, if_false,
      parsePlaintext_open d chunk hnul]
  have hlen : ¬ chunk.length = 0 := by
    have := List.length_pos.mpr hne
    omega
  rw [socketReadyRead_eq, hb]
  simp only [List.flatten_nil, List.nil_append, clear_buffer_eq d hb]
  simp only [consumeRest, hne, if_false, hstep, hlen, List.drop_length, consumeRest_nil, pushBack,
    if_true]

/-- C12: from an empty receive buffer, for every stream without IAC (0xFF),
NUL (0x00) and DM (0xF2) bytes and every way of chunking it, the payloads of
the message signals emitted while the chunks are fed, taken in order, are the
bytes of the stream, whatever state the login assistant is in. -/
theorem plaintext_fidelity (chunks : List (List Nat)) (d : QtTelnetPrivate) (hb : d.buffer = [])
    (h : ∀ chunk ∈ chunks, ∀ b ∈ chunk, b ≠ 255 ∧ b ≠ 0 ∧ b ≠ 242) :
    messagePayloads (feedAll d chunks).emitted = messagePayloads d.emitted ++ chunks.flatten
    ∧ (feedAll d chunks).buffer = [] := by
  induction chunks generalizing d with
  | nil => simp [feedAll, hb]
  | cons chunk chunks ih =>
    have hchunk := h chunk (by simp)
    have hrest : ∀ c ∈ chunks, ∀ b ∈ c, b ≠ 255 ∧ b ≠ 0 ∧ b ≠ 242 :=
      fun c hc => h c (by simp [hc])
    by_cases hne : chunk = []
    · subst hne
      rw [feedAll, socketReadyRead_nil d hb]
      simpa using ih d hb hrest
    · have hread := socketReadyRead_text d chunk hb hchunk hne
      have hb' : (socketReadyRead d chunk).buffer = [] := by
        rw [hread, parsePlaintextText_buffer, hb]
      have := ih (socketReadyRead d chunk) hb' hrest
      refine ⟨?_, this.2⟩
      rw [feedAll, this.1, hread, parsePlaintextText_payloads]
      simp

theorem plaintext_fidelity_witness :
    connectedEngine.buffer = []
    ∧ messagePayloads (feedAll connectedEngine
          [[108, 111, 103], [105, 110, 58, 32], [], [97]]).emitted
        = [108, 111, 103, 105, 110, 58, 32, 97] :=
  ⟨by decide,
    (plaintext_fidelity [[108, 111, 103], [105, 110, 58, 32], [], [97]] connectedEngine
      (by decide) (by decide)).1⟩

/-! ## The initial negotiation -/

theorem isValidWindowSize_congr (d e : QtTelnetPrivate) (hm : e.modes = d.modes)
    (hw : e.windowSize = d.windowSize) : isValidWindowSize e = isValidWindowSize d := by
  simp [isValidWindowSize, windowSize, hm, hw]

theorem sendCommandOp_modes (d : QtTelnetPrivate) (operation option : Nat) :
    (sendCommandOp d operation option).modes = d.modes
    ∧ (sendCommandOp d operation option).windowSize = d.windowSize := by
  cases hc : d.connected
  · rw [sendCommandOp_disconnected d operation option hc]
    exact ⟨rfl, rfl⟩
  · rw [sendCommandOp_eq d operation option hc]
    split_ifs <;> exact ⟨rfl, rfl⟩

/-- The four announcements of `sendOptions` on an engine with an empty
sent-set for which `isValidWindowSize()` is false. -/
theorem socketConnected_eq (d : QtTelnetPrivate) (hosent : d.osent = [])
    (hvalid : isValidWindowSize d = false) :
    socketConnected d
      = { d with connected := true,
                 osent := [(251, 37), (253, 3), (251, 34), (253, 5)],
                 written := d.written ++ [255, 251, 37, 255, 253, 3, 255, 251, 34, 255, 253, 5] } := by
  have hv : ∀ e : QtTelnetPrivate, e.modes = d.modes → e.windowSize = d.windowSize →
      isValidWindowSize e = false := fun e hm hw => (isValidWindowSize_congr d e hm hw).trans hvalid
  have e1 : sendCommandOp { d with connected := true } Common.WILL Common.Authentication
      = { d with connected := true, osent := [(251, 37)],
                 written := d.written ++ [255, 251, 37] } := by
    rw [sendCommandOp_eq _ _ _ rfl]
    simp [hosent, Common.IAC, Common.WILL, Common.Authentication]
  have e2 : sendCommandOp
        { d with connected := true, osent := [(251, 37)],
                 written := d.written ++ [255, 251, 37] }
        Common.DO Common.SuppressGoAhead
      = { d with connected := true, osent := [(251, 37), (253, 3)],
                 written := d.written ++ [255, 251, 37, 255, 253, 3] } := by
    rw [sendCommandOp_eq _ _ _ rfl]
    simp [Common.IAC, Common.DO, Common.SuppressGoAhead]
  have e3 : sendCommandOp
        { d with connected := true, osent := [(251, 37), (253, 3)],
                 written := d.written ++ [255, 251, 37, 255, 253, 3] }
        Common.WILL Common.LineMode
      = { d with connected := true, osent := [(251, 37), (253, 3), (251, 34)],
                 written := d.written ++ [255, 251, 37, 255, 253, 3, 255, 251, 34] } := by
    rw [sendCommandOp_eq _ _ _ rfl]
    simp [Common.IAC, Common.WILL, Common.LineMode]
  have e4 : sendCommandOp
        { d with connected := true, osent := [(251, 37), (253, 3), (251, 34)],
                 written := d.written ++ [255, 251, 37, 255, 253, 3, 255, 251, 34] }
        Common.DO Common.Status
      = { d with connected := true, osent := [(251, 37), (253, 3), (251, 34), (253, 5)],
                 written := d.written
                   ++ [255, 251, 37, 255, 253, 3, 255, 251, 34, 255, 253, 5] } := by
    rw [sendCommandOp_eq _ _ _ rfl]
    simp [Common.IAC, Common.DO, Common.Status]
  unfold socketConnected sendOptions
  have hX : ∀ (os : List (Nat × Nat)) (wr : List Nat),
      isValidWindowSize { d with connected := true, osent := os, written := wr } = false :=
    fun os wr => hv _ rfl rfl
  simp only [e1, e2, e3, e4, hX, Bool.false_eq_true, if_false]

/-- C13: when the transport comes up on an engine with an empty sent-set and
no valid window size (a freshly constructed engine is one), exactly the twelve
bytes FF FB 25, FF FD 03, FF FB 22, FF FD 05 are written, in that order, no
NAWS announcement is written, and the sent-set is exactly the four pairs
(WILL, Authentication), (DO, SuppressGoAhead), (WILL, LineMode), (DO, Status),
in that order. -/
theorem initial_negotiation (d : QtTelnetPrivate) (hosent : d.osent = [])
    (hvalid : isValidWindowSize d = false) :
    (socketConnected d).written
        = d.written ++ [255, 251, 37, 255, 253, 3, 255, 251, 34, 255, 253, 5]
    ∧ (socketConnected d).osent
        = [(Common.WILL, Common.Authentication), (Common.DO, Common.SuppressGoAhead),
            (Common.WILL, Common.LineMode), (Common.DO, Common.Status)]
    ∧ (socketConnected d).connected = true
    ∧ (socketConnected d).emitted = d.emitted
    ∧ (socketConnected d).modes = d.modes := by
  rw [socketConnected_eq d hosent hvalid]
  exact ⟨rfl, rfl, rfl, rfl, rfl⟩

theorem initial_negotiation_witness :
    QtTelnetPrivate.new.osent = [] ∧ QtTelnetPrivate.new.windowSize = QSize.invalid
    ∧ isValidWindowSize QtTelnetPrivate.new = false
    ∧ (socketConnected QtTelnetPrivate.new).written
        = [255, 251, 37, 255, 253, 3, 255, 251, 34, 255, 253, 5]
    ∧ (socketConnected QtTelnetPrivate.new).osent = [(251, 37), (253, 3), (251, 34), (253, 5)] :=
  ⟨rfl, rfl, by decide,
    (initial_negotiation QtTelnetPrivate.new rfl (by decide)).1,
    (initial_negotiation QtTelnetPrivate.new rfl (by decide)).2.1⟩

/-! ## The NULL authentication mechanism -/

theorem length_of_getD_one (data : List Nat) (h : data.getD 1 0 = Common.SEND) :
    ¬ (data.length < 2 ∨ data.getD 1 0 ≠ Common.SEND) := by
  intro hc
  rcases hc with hc | hc
  · rw [List.getD_eq_default data 0 (by omega)] at h
    exact absurd h (by decide)
  · exact hc h

theorem authStep_send (a : QtTelnetAuth) (data : List Nat) (h : data.getD 1 0 = Common.SEND) :
    authStep a data = ({ a with st := QtTelnetAuth.State.AuthSuccess }, specAuthNullReply) := by
  unfold authStep
  rw [if_neg (length_of_getD_one data h)]
  rfl

theorem parseSubAuthSelect_active (d : QtTelnetPrivate) (data : List Nat) (a : QtTelnetAuth)
    (hcur : d.curauth = some a) : parseSubAuthSelect d data = d := by
  unfold parseSubAuthSelect
  rw [if_neg]
  intro h
  rw [hcur] at h
  exact absurd h.1 (by simp)

theorem parseSubAuthSelect_null (d : QtTelnetPrivate) (data : List Nat)
    (hcur : d.curauth = none) (h : data.getD 1 0 = Common.SEND) :
    (parseSubAuthSelect d data).curauth = some QtTelnetAuthNull
    ∧ (parseSubAuthSelect d data).nullauth = true
    ∧ (parseSubAuthSelect d data).written = d.written
    ∧ (parseSubAuthSelect d data).emitted = d.emitted
    ∧ (parseSubAuthSelect d data).connected = d.connected
    ∧ (parseSubAuthSelect d data).loginp = d.loginp
    ∧ (parseSubAuthSelect d data).passp = d.passp
    ∧ (parseSubAuthSelect d data).osent = d.osent
    ∧ (parseSubAuthSelect d data).modes = d.modes
    ∧ (parseSubAuthSelect d data).urgent = d.urgent := by
  simp only [parseSubAuthSelect, parseSubAuthLoop_none, hcur, h, and_self, if_true]
  split_ifs <;> simp

/-- The step of an active mechanism on a payload whose second byte is SEND,
on a connected engine: the reply IS NULL is written, the mechanism is in
state AuthSuccess, and loggedIn is emitted when both patterns are empty. -/
theorem parseSubAuthStep_send (d : QtTelnetPrivate) (data : List Nat) (a : QtTelnetAuth)
    (hc : d.connected = true) (hcur : d.curauth = some a) (h : data.getD 1 0 = Common.SEND) :
    (parseSubAuthStep d data).curauth = some { a with st := QtTelnetAuth.State.AuthSuccess }
    ∧ (parseSubAuthStep d data).written = d.written ++ specAuthNullReply
    ∧ (parseSubAuthStep d data).emitted
        = d.emitted ++ (if d.loginp.isEmpty = true ∧ d.passp.isEmpty = true
            then [Signal.loggedIn] else [])
    ∧ (parseSubAuthStep d data).nullauth = d.nullauth
    ∧ (parseSubAuthStep d data).osent = d.osent
    ∧ (parseSubAuthStep d data).modes = d.modes
    ∧ (parseSubAuthStep d data).urgent = d.urgent
    ∧ (parseSubAuthStep d data).connected = true := by
  have hsend : ∀ e : QtTelnetPrivate, e.connected = true →
      sendCommand e specAuthNullReply = socketWrite e specAuthNullReply := by
    intro e he
    simp [sendCommand, he, specAuthNullReply]
  have hs := hsend { d with curauth := some { a with st := QtTelnetAuth.State.AuthSuccess } } hc
  have hne : specAuthNullReply.isEmpty = false := rfl
  unfold parseSubAuthStep
  rw [hcur]
  simp only [authStep_send a data h, hne, if_true, hs, reduceCtorEq, if_false]
  split_ifs <;> simp_all [socketWrite, emit]

/-- C14: on a connected engine with no active mechanism, for every
Authentication suboption payload whose second byte is SEND, whatever follows
it, the engine writes exactly FF FA 25 00 00 00 FF F0, the NULL mechanism is
active in state AuthSuccess afterwards, nullauth is true, and loggedIn is
emitted exactly when the login pattern and the password pattern are both
empty; the payload reaches the handler from the frame FF FA 25 01 ... FF F0. -/
theorem null_auth_handshake (d : QtTelnetPrivate) (data : List Nat)
    (hc : d.connected = true) (hcur : d.curauth = none) (h : data.getD 1 0 = Common.SEND) :
    (parseSubAuth d data).written = d.written ++ specAuthNullReply
    ∧ (parseSubAuth d data).curauth
        = some { QtTelnetAuthNull with st := QtTelnetAuth.State.AuthSuccess }
    ∧ (parseSubAuth d data).nullauth = true
    ∧ (parseSubAuth d data).emitted
        = d.emitted ++ (if d.loginp.isEmpty = true ∧ d.passp.isEmpty = true
            then [Signal.loggedIn] else [])
    ∧ (parseSubAuth d data).osent = d.osent
    ∧ (parseSubAuth d data).modes = d.modes
    ∧ (∀ tail rest : List Nat, 255 ∉ tail →
        parseIAC d ([255, 250] ++ (37 :: 1 :: tail) ++ [255, 240] ++ rest)
          = (parseSubAuth d (37 :: 1 :: tail), tail.length + 6)) := by
  have hsel := parseSubAuthSelect_null d data hcur h
  have hstep := parseSubAuthStep_send (parseSubAuthSelect d data) data QtTelnetAuthNull
    (hsel.2.2.2.2.1.trans hc) hsel.1 h
  unfold parseSubAuth
  refine ⟨?_, hstep.1, ?_, ?_, ?_, ?_, ?_⟩
  · rw [hstep.2.1, hsel.2.2.1]
  · rw [hstep.2.2.2.1, hsel.2.1]
  · rw [hstep.2.2.1, hsel.2.2.2.1, hsel.2.2.2.2.2.1, hsel.2.2.2.2.2.2.1]
  · rw [hstep.2.2.2.2.1, hsel.2.2.2.2.2.2.2.1]
  · rw [hstep.2.2.2.2.2.1, hsel.2.2.2.2.2.2.2.2.1]
  · intro tail rest hff
    have hp : (255 : Nat) ∉ (37 :: 1 :: tail) := by
      simp only [List.mem_cons, not_or]
      exact ⟨by decide, by decide, hff⟩
    have := suboption_framing d (37 :: 1 :: tail) rest (by simp) hp
    refine Prod.ext (this.2.2.1 rfl) ?_
    rw [this.2.1]
    simp

theorem null_auth_handshake_witness :
    connectedEngine.connected = true ∧ connectedEngine.curauth = none
    ∧ (parseIAC connectedEngine [255, 250, 37, 1, 0, 0, 255, 240]).1.written
        = connectedEngine.written ++ [255, 250, 37, 0, 0, 0, 255, 240] :=
  ⟨by decide, by decide,
    (congrArg (fun r => r.1.written)
      ((null_auth_handshake connectedEngine [37, 1, 0, 0] (by decide) (by decide)
        (by decide)).2.2.2.2.2.2 [0, 0] [] (by decide))).trans
      (null_auth_handshake connectedEngine [37, 1, 0, 0] (by decide) (by decide)
        (by decide)).1⟩

/-- C15 (as stated, refuted): on a connected engine with empty login and
password patterns, the suboption FF FA 25 01 00 00 FF F0 brings the NULL
mechanism to AuthSuccess; the same suboption once more makes the engine write
a second IS NULL reply and emit a second loggedIn. -/
theorem null_auth_invoked_twice :
    (socketReadyRead
        (setPasswordPattern (setLoginPattern connectedEngine QRegExp.empty) QRegExp.empty)
        [255, 250, 37, 1, 0, 0, 255, 240]).curauth
      = some ⟨QtTelnetAuth.State.AuthSuccess, 0⟩
    ∧ (feedAll
        (setPasswordPattern (setLoginPattern connectedEngine QRegExp.empty) QRegExp.empty)
        [[255, 250, 37, 1, 0, 0, 255, 240], [255, 250, 37, 1, 0, 0, 255, 240]]).written
      = connectedEngine.written ++ [255, 250, 37, 0, 0, 0, 255, 240]
          ++ [255, 250, 37, 0, 0, 0, 255, 240]
    ∧ (feedAll
        (setPasswordPattern (setLoginPattern connectedEngine QRegExp.empty) QRegExp.empty)
        [[255, 250, 37, 1, 0, 0, 255, 240], [255, 250, 37, 1, 0, 0, 255, 240]]).emitted
      = [Signal.loggedIn, Signal.loggedIn] := by
  decide

/-- C15 (amended): once the NULL mechanism has reached AuthSuccess it stays
the active mechanism, and on a connected engine every further Authentication
suboption whose second byte is SEND invokes it again: the reply
FF FA 25 00 00 00 FF F0 is written again, the mechanism stays in AuthSuccess,
and loggedIn is emitted again when the login pattern and the password pattern
are both empty. -/
theorem null_auth_reinvoked (d : QtTelnetPrivate) (data : List Nat) (a : QtTelnetAuth)
    (hc : d.connected = true) (hcur : d.curauth = some a)
    (hst : a.st = QtTelnetAuth.State.AuthSuccess) (h : data.getD 1 0 = Common.SEND) :
    (parseSubAuth d data).written = d.written ++ specAuthNullReply
    ∧ (parseSubAuth d data).curauth = some a
    ∧ (parseSubAuth d data).emitted
        = d.emitted ++ (if d.loginp.isEmpty = true ∧ d.passp.isEmpty = true
            then [Signal.loggedIn] else []) := by
  have ha : { a with st := QtTelnetAuth.State.AuthSuccess } = a := by
    cases a
    simp only at hst
    subst hst
    rfl
  have hstep := parseSubAuthStep_send d data a hc hcur h
  unfold parseSubAuth
  rw [parseSubAuthSelect_active d data a hcur]
  exact ⟨hstep.2.1, hstep.1.trans (congrArg some ha), hstep.2.2.1⟩

theorem null_auth_reinvoked_witness :
    (socketReadyRead connectedEngine [255, 250, 37, 1, 0, 0, 255, 240]).connected = true
    ∧ (socketReadyRead connectedEngine [255, 250, 37, 1, 0, 0, 255, 240]).curauth
        = some ⟨QtTelnetAuth.State.AuthSuccess, 0⟩
    ∧ (parseSubAuth (socketReadyRead connectedEngine [255, 250, 37, 1, 0, 0, 255, 240])
          [37, 1, 0, 0]).written
        = connectedEngine.written ++ [255, 250, 37, 0, 0, 0, 255, 240]
            ++ [255, 250, 37, 0, 0, 0, 255, 240] :=
  ⟨by decide, by decide,
    (null_auth_reinvoked (socketReadyRead connectedEngine [255, 250, 37, 1, 0, 0, 255, 240])
      [37, 1, 0, 0] ⟨QtTelnetAuth.State.AuthSuccess, 0⟩ (by decide) (by decide) rfl
      (by decide)).1.trans (by decide)⟩

/-! ## Terminal type -/

/-- C16: on a connected engine, a TerminalType suboption payload whose second
byte is SEND makes the engine write exactly FF FA 18 00, the seven bytes of
UNKNOWN and FF F0, and changes nothing else; a payload without a second byte,
or whose second byte is not SEND, changes nothing at all; the payload reaches
the handler from the frame FF FA 18 ... FF F0. -/
theorem terminal_type_reply (d : QtTelnetPrivate) (data : List Nat) (hc : d.connected = true) :
    (data.getD 1 0 = Common.SEND →
        parseSubTT d data = { d with written := d.written ++ specTerminalTypeReply })
    ∧ ((data.length < 2 ∨ data.getD 1 0 ≠ Common.SEND) → parseSubTT d data = d)
    ∧ (∀ tail rest : List Nat, 255 ∉ tail →
        parseIAC d ([255, 250] ++ (24 :: tail) ++ [255, 240] ++ rest)
          = (parseSubTT d (24 :: tail), tail.length + 5)) := by
  refine ⟨?_, ?_, ?_⟩
  · intro h
    unfold parseSubTT
    rw [if_neg (length_of_getD_one data h)]
    simp [sendCommand, sendString, socketWrite, hc, specTerminalTypeReply, Common.IAC,
      Common.SB, Common.TerminalType, Common.IS, Common.SE]
  · intro h
    unfold parseSubTT
    rw [if_pos h]
  · intro tail rest hff
    have hp : (255 : Nat) ∉ (24 :: tail) := by
      simp only [List.mem_cons, not_or]
      exact ⟨by decide, hff⟩
    have := suboption_framing d (24 :: tail) rest (by simp) hp
    refine Prod.ext (this.2.2.2.1 rfl) ?_
    rw [this.2.1]
    simp

theorem terminal_type_reply_witness :
    connectedEngine.connected = true
    ∧ (parseIAC connectedEngine [255, 250, 24, 1, 255, 240]).1.written
        = connectedEngine.written
            ++ [255, 250, 24, 0, 85, 78, 75, 78, 79, 87, 78, 255, 240]
    ∧ (parseIAC connectedEngine [255, 250, 24, 255, 240]).1 = connectedEngine :=
  ⟨by decide,
    (congrArg (fun r => r.1.written)
      ((terminal_type_reply connectedEngine [24, 1] (by decide)).2.2 [1] [] (by decide))).trans
      (congrArg QtTelnetPrivate.written
        ((terminal_type_reply connectedEngine [24, 1] (by decide)).1 rfl)),
    (congrArg Prod.fst
      ((terminal_type_reply connectedEngine [24] (by decide)).2.2 [] [] (by decide))).trans
      ((terminal_type_reply connectedEngine [24] (by decide)).2.1 (Or.inl (by decide)))⟩

/-! ## Window size -/

theorem htons_bytes (x : Nat) :
    htons x % 256 = x / 256 % 256 ∧ htons x / 256 % 256 = x % 256 := by
  unfold htons
  have ha : x % 256 < 256 := Nat.mod_lt _ (by decide)
  have hb : x / 256 % 256 < 256 := Nat.mod_lt _ (by decide)
  generalize x % 256 = a at ha ⊢
  generalize x / 256 % 256 = b at hb ⊢
  omega

theorem toUInt16_natCast (n : Nat) (h : n ≤ 65535) : toUInt16 (n : Int) = n := by
  unfold toUInt16
  omega

/-- The bytes `sendWindowSize` writes on a connected engine with
modes[NAWS] true and a valid stored size. -/
theorem sendWindowSize_eq (d : QtTelnetPrivate) (hc : d.connected = true)
    (hm : d.modes Common.NAWS = true) (hvalid : d.windowSize.isValid = true) :
    sendWindowSize d
      = { d with written := d.written
            ++ specNawsSuboption (toUInt16 d.windowSize.wd) (toUInt16 d.windowSize.ht) } := by
  have hv : isValidWindowSize d = true := by
    simp [isValidWindowSize, windowSize, hm, hvalid]
  unfold sendWindowSize
  rw [if_neg (by rw [hm]; simp), if_neg (by rw [hv]; simp)]
  simp only [(htons_bytes _).1, (htons_bytes _).2]
  simp [sendCommand, socketWrite, hc, specNawsSuboption, Common.IAC, Common.SB, Common.NAWS,
    Common.SE]

theorem sendWindowSize_off (d : QtTelnetPrivate)
    (h : d.modes Common.NAWS = false ∨ d.windowSize.isValid = false) : sendWindowSize d = d := by
  unfold sendWindowSize
  rcases h with h | h
  · rw [if_pos h]
  · have hv : isValidWindowSize d = false := by
      simp only [isValidWindowSize, windowSize]
      split_ifs
      · exact h
      · rfl
    rw [if_pos hv]
    split_ifs <;> rfl

/-- C17: a NAWS suboption is written by `sendWindowSize` alone, on a connected
engine with modes[NAWS] true; for a stored size (cols, rows) with both
dimensions at most 65535 the nine bytes are FF FA 1F, the high then the low
byte of cols, the high then the low byte of rows, FF F0 (with `htons` as on a
little-endian host); nothing is written when modes[NAWS] is false. -/
theorem naws_wire_format (d : QtTelnetPrivate) (cols rows : Nat) (hc : d.connected = true)
    (hsize : d.windowSize = ⟨(cols : Int), (rows : Int)⟩)
    (hcols : cols ≤ 65535) (hrows : rows ≤ 65535) :
    (d.modes Common.NAWS = true →
      sendWindowSize d
        = { d with written := d.written
              ++ [255, 250, 31, cols / 256, cols % 256, rows / 256, rows % 256, 255, 240] })
    ∧ (d.modes Common.NAWS = false → sendWindowSize d = d) := by
  constructor
  · intro hm
    have hvalid : d.windowSize.isValid = true := by
      rw [hsize]
      simp [QSize.isValid]
    rw [sendWindowSize_eq d hc hm hvalid, hsize]
    simp only [toUInt16_natCast cols hcols, toUInt16_natCast rows hrows, specNawsSuboption]
    have h1 : cols / 256 % 256 = cols / 256 := by omega
    have h2 : rows / 256 % 256 = rows / 256 := by omega
    rw [h1, h2]
  · intro hm
    exact sendWindowSize_off d (Or.inl hm)

theorem naws_wire_format_witness :
    (setWindowSize (socketReadyRead connectedEngine [255, 253, 31]) 80 24).connected = true
    ∧ (setWindowSize (socketReadyRead connectedEngine [255, 253, 31]) 80 24).modes Common.NAWS
        = true
    ∧ (sendWindowSize (setWindowSize (socketReadyRead connectedEngine [255, 253, 31]) 80 24)).written
        = (setWindowSize (socketReadyRead connectedEngine [255, 253, 31]) 80 24).written
            ++ [255, 250, 31, 0, 80, 0, 24, 255, 240] :=
  ⟨by decide, by decide,
    congrArg QtTelnetPrivate.written
      ((naws_wire_format (setWindowSize (socketReadyRead connectedEngine [255, 253, 31]) 80 24)
        80 24 (by decide) (by decide) (by decide) (by decide)).1 (by decide))⟩

/-- C18: on a connected engine whose stored window size is valid and for
which modes[NAWS] is false, an inbound IAC DO NAWS sets modes[NAWS] and makes
the engine write, after its reply (WONT NAWS, unless that pair was in the
sent-set), exactly one NAWS suboption, which carries the stored size. -/
theorem naws_triggering (d : QtTelnetPrivate) (rest : List Nat) (hc : d.connected = true)
    (hvalid : d.windowSize.isValid = true) (hm : d.modes Common.NAWS = false) :
    (parseIAC d (Common.IAC :: Common.DO :: Common.NAWS :: rest)).2 = 3
    ∧ (parseIAC d (Common.IAC :: Common.DO :: Common.NAWS :: rest)).1.modes Common.NAWS = true
    ∧ (parseIAC d (Common.IAC :: Common.DO :: Common.NAWS :: rest)).1.written
        = d.written
            ++ (if (Common.WONT, Common.NAWS) ∈ d.osent then [] else [255, 252, 31])
            ++ specNawsSuboption (toUInt16 d.windowSize.wd) (toUInt16 d.windowSize.ht) := by
  have hm' : d.modes 31 = false := hm
  have hneed : replyNeeded d Common.DO Common.NAWS = true := by
    simp [replyNeeded, hm', Common.DO, Common.DONT, Common.NAWS]
  have hallow : allowOption d Common.DO Common.NAWS = false := by
    simp [allowOption, isValidWindowSize, windowSize, hm', QSize.isValid, QSize.invalid,
      Common.NAWS, Common.Authentication, Common.SuppressGoAhead, Common.LineMode,
      Common.Status, Common.Logout, Common.TerminalType]
  have hdont : parseIACDontAuth d Common.DO Common.NAWS = d := by
    simp [parseIACDontAuth, Common.DO, Common.DONT]
  have hopp : opposite Common.DO false = Common.WONT := by decide
  have hcs : (sendCommandOp d Common.WONT Common.NAWS).connected = true := by
    rw [sendCommandOp_connected, hc]
  have hms := sendCommandOp_modes d Common.WONT Common.NAWS
  have hwr : (sendCommandOp d Common.WONT Common.NAWS).written
      = d.written ++ (if (Common.WONT, Common.NAWS) ∈ d.osent then [] else [255, 252, 31]) := by
    rw [sendCommandOp_eq d Common.WONT Common.NAWS hc]
    split_ifs <;> simp [Common.IAC, Common.WONT, Common.NAWS]
  have hsw := sendWindowSize_eq
    { sendCommandOp d Common.WONT Common.NAWS with
        modes := setModeEntry (sendCommandOp d Common.WONT Common.NAWS).modes Common.NAWS true }
    hcs (by simp [setModeEntry]) (by rw [hms.2]; exact hvalid)
  have hset : setMode (sendCommandOp d Common.WONT Common.NAWS) Common.DO Common.NAWS
      = sendWindowSize { sendCommandOp d Common.WONT Common.NAWS with
          modes := setModeEntry (sendCommandOp d Common.WONT Common.NAWS).modes Common.NAWS true } := by
    simp [setMode, setModeEntry, Common.DO, Common.DONT]
  rw [parseIAC_operation d Common.DO Common.NAWS rest (by decide) (by decide), if_pos hneed,
    hallow, hdont, hopp, hset, hsw]
  refine ⟨rfl, by simp [setModeEntry], ?_⟩
  simp only [hms.2, hwr]

theorem naws_triggering_witness :
    ({ connectedEngine with windowSize := ⟨80, 24⟩ } : QtTelnetPrivate).connected = true
    ∧ (parseIAC { connectedEngine with windowSize := ⟨80, 24⟩ } [255, 253, 31]).1.written
        = connectedEngine.written ++ [255, 252, 31] ++ [255, 250, 31, 0, 80, 0, 24, 255, 240] :=
  ⟨by decide,
    (naws_triggering { connectedEngine with windowSize := ⟨80, 24⟩ } [] (by decide) (by decide)
      (by decide)).2.2.trans (by decide)⟩

/-- C19 (as stated, refuted): in the connected state reached by an inbound
IAC DO NAWS, where modes[NAWS] is true and the stored size is still invalid,
setWindowSize(80, 24) writes FF FB 1F (WILL NAWS) and no NAWS suboption. -/
theorem resize_from_invalid_writes_will :
    (socketReadyRead connectedEngine [255, 253, 31]).connected = true
    ∧ (socketReadyRead connectedEngine [255, 253, 31]).modes Common.NAWS = true
    ∧ (socketReadyRead connectedEngine [255, 253, 31]).windowSize.isValid = false
    ∧ (setWindowSize (socketReadyRead connectedEngine [255, 253, 31]) 80 24).written
        = (socketReadyRead connectedEngine [255, 253, 31]).written ++ [255, 251, 31] := by
  decide

/-- C19 (amended): in a connected state in which modes[NAWS] is true, a call
of setWindowSize with a valid size writes the NAWS suboption carrying the new
size when the size stored before was valid too; when the size stored before
was invalid it sends IAC WILL NAWS through the loop breaker instead, and no
suboption. -/
theorem resize_with_naws_enabled (d : QtTelnetPrivate) (w h : Int) (hc : d.connected = true)
    (hm : d.modes Common.NAWS = true) (hw : 0 ≤ w) (hh : 0 ≤ h) :
    (d.windowSize.isValid = true →
      setWindowSize d w h
        = { d with windowSize := ⟨w, h⟩,
                   written := d.written ++ specNawsSuboption (toUInt16 w) (toUInt16 h) })
    ∧ (d.windowSize.isValid = false →
      setWindowSize d w h = sendCommandOp { d with windowSize := ⟨w, h⟩ } Common.WILL Common.NAWS
      ∧ (setWindowSize d w h).written
          = d.written ++ (if (Common.WILL, Common.NAWS) ∈ d.osent then [] else [255, 251, 31])) := by
  have hnew : isValidWindowSize { d with windowSize := ⟨w, h⟩ } = true := by
    simp [isValidWindowSize, windowSize, hm, QSize.isValid, hw, hh]
  have hnewvalid : (⟨w, h⟩ : QSize).isValid = true := by
    simp [QSize.isValid, hw, hh]
  constructor
  · intro hold
    have hwas : isValidWindowSize d = true := by
      simp [isValidWindowSize, windowSize, hm, hold]
    simp only [setWindowSize, hwas, hnew, and_self, if_true]
    rw [sendWindowSize_eq { d with windowSize := ⟨w, h⟩ } hc hm hnewvalid]
  · intro hold
    have hwas : isValidWindowSize d = false := by
      simp [isValidWindowSize, windowSize, hm, hold]
    have heq : setWindowSize d w h
        = sendCommandOp { d with windowSize := ⟨w, h⟩ } Common.WILL Common.NAWS := by
      simp only [setWindowSize, hwas, hnew, Bool.false_eq_true, false_and, if_false, if_true]
    refine ⟨heq, ?_⟩
    rw [heq, sendCommandOp_eq { d with windowSize := ⟨w, h⟩ } Common.WILL Common.NAWS hc]
    split_ifs <;> simp [Common.IAC, Common.WILL, Common.NAWS]

theorem resize_with_naws_enabled_witness :
    (setWindowSize (socketReadyRead connectedEngine [255, 253, 31]) 80 24).connected = true
    ∧ (setWindowSize (socketReadyRead connectedEngine [255, 253, 31]) 80 24).modes Common.NAWS
        = true
    ∧ (setWindowSize (setWindowSize (socketReadyRead connectedEngine [255, 253, 31]) 80 24)
          132 43).written
        = (setWindowSize (socketReadyRead connectedEngine [255, 253, 31]) 80 24).written
            ++ [255, 250, 31, 0, 132, 0, 43, 255, 240] :=
  ⟨by decide, by decide,
    (congrArg QtTelnetPrivate.written
      ((resize_with_naws_enabled
        (setWindowSize (socketReadyRead connectedEngine [255, 253, 31]) 80 24) 132 43
        (by decide) (by decide) (by decide) (by decide)).1 (by decide))).trans (by decide)⟩

/-- C20 (the code at the failing input): setWindowSize(80, 24) on a connected
fresh engine, whose stored size was invalid and whose sent-set does not hold
(WILL, NAWS), writes nothing; and on a fresh engine on which
setWindowSize(80, 24) was called before the transport came up, the initial
negotiation is the twelve bytes of the four announcements, without
WILL NAWS. -/
theorem valid_size_not_announced :
    connectedEngine.windowSize.isValid = false
    ∧ (Common.WILL, Common.NAWS) ∉ connectedEngine.osent
    ∧ (setWindowSize connectedEngine 80 24).windowSize = ⟨80, 24⟩
    ∧ (setWindowSize connectedEngine 80 24).written = connectedEngine.written
    ∧ (setWindowSize QtTelnetPrivate.new 80 24).windowSize = ⟨80, 24⟩
    ∧ (socketConnected (setWindowSize QtTelnetPrivate.new 80 24)).written
        = [255, 251, 37, 255, 253, 3, 255, 251, 34, 255, 253, 5] := by
  decide

/-! ## Window size read-back, control commands and disconnected operation -/

theorem sendCommand_frame (d : QtTelnetPrivate) (command : List Nat) :
    sendCommand d command
      = { d with osent := (sendCommand d command).osent,
                 written := (sendCommand d command).written } := by
  by_cases h1 : d.connected = false ∨ command.isEmpty = true
  · simp only [sendCommand, if_pos h1]
  · by_cases h2 : command.length = 3
    · by_cases h3 : (command.getD 1 0, command.getD 2 0) ∈ d.osent
      · simp only [sendCommand, alreadySent, if_neg h1, if_pos h2, if_pos h3, if_true]
      · simp only [sendCommand, alreadySent, if_neg h1, if_pos h2, if_neg h3,
          Bool.false_eq_true, if_false, socketWrite, addSent]
    · simp only [sendCommand, if_neg h1, if_neg h2, socketWrite]

theorem sendCommandOp_frame (d : QtTelnetPrivate) (operation option : Nat) :
    sendCommandOp d operation option
      = { d with osent := (sendCommandOp d operation option).osent,
                 written := (sendCommandOp d operation option).written } :=
  sendCommand_frame d _

theorem sendWindowSize_frame (d : QtTelnetPrivate) :
    sendWindowSize d
      = { d with osent := (sendWindowSize d).osent, written := (sendWindowSize d).written } := by
  unfold sendWindowSize
  split_ifs
  · rfl
  · rfl
  · exact sendCommand_frame d _

theorem setWindowSize_frame (d : QtTelnetPrivate) (w h : Int) :
    setWindowSize d w h
      = { d with windowSize := ⟨w, h⟩, osent := (setWindowSize d w h).osent,
                 written := (setWindowSize d w h).written } := by
  by_cases h1 : isValidWindowSize d = true
      ∧ isValidWindowSize { d with windowSize := ⟨w, h⟩ } = true
  · have e : setWindowSize d w h = sendWindowSize { d with windowSize := ⟨w, h⟩ } := by
      simp only [setWindowSize, if_pos h1]
    rw [e]
    exact sendWindowSize_frame _
  · by_cases h2 : isValidWindowSize { d with windowSize := ⟨w, h⟩ } = true
    · have e : setWindowSize d w h
          = sendCommandOp { d with windowSize := ⟨w, h⟩ } Common.WILL Common.NAWS := by
        simp only [setWindowSize, if_neg h1, if_pos h2]
      rw [e]
      exact sendCommandOp_frame _ _ _
    · by_cases h3 : isValidWindowSize d = true
      · have e : setWindowSize d w h
            = sendCommandOp { d with windowSize := ⟨w, h⟩ } Common.WONT Common.NAWS := by
          simp only [setWindowSize, if_neg h1, if_neg h2, if_pos h3]
        rw [e]
        exact sendCommandOp_frame _ _ _
      · have e : setWindowSize d w h = { d with windowSize := ⟨w, h⟩ } := by
          simp only [setWindowSize, if_neg h1, if_neg h2, if_neg h3]
        rw [e]

theorem sendCommand_disconnected (d : QtTelnetPrivate) (command : List Nat)
    (hc : d.connected = false) : sendCommand d command = d := by
  simp [sendCommand, hc]

theorem sendWindowSize_disconnected (d : QtTelnetPrivate) (hc : d.connected = false) :
    sendWindowSize d = d := by
  unfold sendWindowSize
  split_ifs
  · rfl
  · rfl
  · exact sendCommand_disconnected d _ hc

/-- C21: for every state and every (w, h), after setWindowSize(w, h) the call
windowSize() returns (w, h) when modes[NAWS] is true and the invalid size
QSize() otherwise, modes being left as it was by the call; and
isValidWindowSize() is the validity of the size windowSize() returns, before
the call as after it, which after the call is: modes[NAWS] is true and
neither w nor h is negative. -/
theorem windowSize_readback (d : QtTelnetPrivate) (w h : Int) :
    windowSize (setWindowSize d w h)
      = (if d.modes Common.NAWS = true then ⟨w, h⟩ else QSize.invalid)
    ∧ (setWindowSize d w h).modes = d.modes
    ∧ isValidWindowSize d = (windowSize d).isValid
    ∧ isValidWindowSize (setWindowSize d w h) = (windowSize (setWindowSize d w h)).isValid
    ∧ (isValidWindowSize (setWindowSize d w h) = true
        ↔ d.modes Common.NAWS = true ∧ 0 ≤ w ∧ 0 ≤ h) := by
  have hw : windowSize (setWindowSize d w h)
      = (if d.modes Common.NAWS = true then ⟨w, h⟩ else QSize.invalid) := by
    rw [setWindowSize_frame]
    simp [windowSize]
  refine ⟨hw, by rw [setWindowSize_frame], rfl, rfl, ?_⟩
  unfold isValidWindowSize
  rw [hw]
  by_cases hm : d.modes Common.NAWS = true
  · simp [hm, QSize.isValid]
  · simp [hm, QSize.isValid, QSize.invalid]

theorem controlByte_eq_spec (ctrl : Control) :
    controlByte ctrl = (specControlByte ctrl, specControlSync ctrl) := by
  cases ctrl <;> rfl

/-- C22: on a connected engine, for every control kind sendControl writes
exactly FF followed by the byte the specification gives for the kind, leaves
the sent-set unchanged, and sends the DM byte as urgent data afterwards if
and only if the kind is InterruptProcess, AbortOutput or AreYouThere; the
mapping from kinds to bytes is injective. -/
theorem sendControl_mapping (d : QtTelnetPrivate) (ctrl : Control) (hc : d.connected = true) :
    (sendControl d ctrl).written = d.written ++ [255, specControlByte ctrl]
    ∧ (sendControl d ctrl).osent = d.osent
    ∧ (sendControl d ctrl).urgent
        = d.urgent ++ (if ctrl = Control.InterruptProcess ∨ ctrl = Control.AbortOutput
            ∨ ctrl = Control.AreYouThere then [242] else [])
    ∧ (controlByte ctrl).1 = specControlByte ctrl
    ∧ Function.Injective specControlByte
    ∧ Function.Injective (fun c => (controlByte c).1) := by
  have hinj : Function.Injective specControlByte := by
    intro a b hab
    cases a <;> cases b <;> first | rfl | exact absurd hab (by decide)
  refine ⟨?_, ?_, ?_, by rw [controlByte_eq_spec], hinj, ?_⟩
  · cases ctrl <;>
      simp [sendControl, sendCommand, sendSync, controlByte, specControlByte, socketWrite, hc,
        Common.IAC, Common.IP, Common.AO, Common.AYT, Common.BRK, Common.SUSP, Common.CEOF,
        Common.ABORT, Common.GA, Common.EC, Common.EL]
  · cases ctrl <;>
      simp [sendControl, sendCommand, sendSync, controlByte, socketWrite, hc]
  · cases ctrl <;>
      simp [sendControl, sendCommand, sendSync, controlByte, socketWrite, hc, Common.DM]
  · intro a b hab
    apply hinj
    simpa only [controlByte_eq_spec] using hab

theorem sendControl_mapping_witness :
    connectedEngine.connected = true
    ∧ (sendControl connectedEngine Control.InterruptProcess).written
        = connectedEngine.written ++ [255, 244]
    ∧ (sendControl connectedEngine Control.InterruptProcess).urgent = [242] :=
  ⟨by decide,
    (sendControl_mapping connectedEngine Control.InterruptProcess (by decide)).1,
    (sendControl_mapping connectedEngine Control.InterruptProcess (by decide)).2.2.1.trans
      (by decide)⟩

/-- C23: while the engine is not connected, sendData, sendControl, sendSync
and logout leave the engine as it is, and setWindowSize only stores the
size: none of them writes a byte, ordinary or urgent, or changes the
sent-set. On a connected engine sendData appends exactly the bytes of its
argument to the bytes written, with nothing after them, and sends no urgent
byte and leaves the sent-set as it is. -/
theorem disconnected_operations_write_nothing (d : QtTelnetPrivate) (hc : d.connected = false)
    (data : List Nat) (ctrl : Control) (w h : Int) :
    sendData d data = d
    ∧ sendControl d ctrl = d
    ∧ sendSync d = d
    ∧ logout d = d
    ∧ setWindowSize d w h = { d with windowSize := ⟨w, h⟩ }
    ∧ (∀ e : QtTelnetPrivate, e.connected = true →
        sendData e data = { e with written := e.written ++ data }) := by
  have hsc : ∀ command, sendCommand d command = d := fun command =>
    sendCommand_disconnected d command hc
  refine ⟨by simp [sendData, hc], ?_, by simp [sendSync, hc], hsc _, ?_, ?_⟩
  · simp only [sendControl, hsc]
    split_ifs
    · simp [sendSync, hc]
    · rfl
  · have hc1 : ({ d with windowSize := ⟨w, h⟩ } : QtTelnetPrivate).connected = false := hc
    unfold setWindowSize
    simp only [sendWindowSize_disconnected _ hc1, sendCommandOp,
      sendCommand_disconnected _ _ hc1, ite_self]
  · intro e he
    simp [sendData, he, socketWrite]

theorem disconnected_operations_write_nothing_witness :
    QtTelnetPrivate.new.connected = false
    ∧ (sendData QtTelnetPrivate.new [108, 115]).written = []
    ∧ (sendControl QtTelnetPrivate.new Control.InterruptProcess).urgent = []
    ∧ (logout QtTelnetPrivate.new).osent = []
    ∧ (sendData connectedEngine [108, 115]).written = connectedEngine.written ++ [108, 115] :=
  ⟨by decide,
    congrArg QtTelnetPrivate.written
      (disconnected_operations_write_nothing QtTelnetPrivate.new (by decide) [108, 115]
        Control.InterruptProcess 80 24).1,
    congrArg QtTelnetPrivate.urgent
      (disconnected_operations_write_nothing QtTelnetPrivate.new (by decide) [108, 115]
        Control.InterruptProcess 80 24).2.1,
    congrArg QtTelnetPrivate.osent
      (disconnected_operations_write_nothing QtTelnetPrivate.new (by decide) [108, 115]
        Control.InterruptProcess 80 24).2.2.2.1,
    congrArg QtTelnetPrivate.written
      ((disconnected_operations_write_nothing QtTelnetPrivate.new (by decide) [108, 115]
        Control.InterruptProcess 80 24).2.2.2.2.2 connectedEngine (by decide))⟩

/-! ## Logout and the refusal of authentication -/

/-- C24: on a connected engine whose sent-set does not hold (DO, Logout),
logout() writes exactly FF FD 12; and in every connected state an inbound
FF FC 12 (WONT Logout) is handled by close(): three bytes are consumed,
nothing is written, ordinary or urgent, the engine is left disconnected and
exactly one loggedOut is emitted. A read that holds just these three bytes,
with nothing held back before, gives the same state. -/
theorem logout_exchange (d : QtTelnetPrivate) (rest : List Nat) (hc : d.connected = true) :
    ((Common.DO, Common.Logout) ∉ d.osent → (logout d).written = d.written ++ [255, 253, 18])
    ∧ parseIAC d (255 :: 252 :: 18 :: rest)
        = ({ d with connected := false, emitted := d.emitted ++ [Signal.loggedOut] }, 3)
    ∧ (d.buffer = [] → socketReadyRead d [255, 252, 18]
        = { d with connected := false, emitted := d.emitted ++ [Signal.loggedOut] }) := by
  have hp : ∀ r : List Nat, parseIAC d (255 :: 252 :: 18 :: r)
      = ({ d with connected := false, emitted := d.emitted ++ [Signal.loggedOut] }, 3) := by
    intro r
    simp [parseIAC, isOperation, close, emit, hc, Common.WILL, Common.WONT, Common.DO,
      Common.DONT, Common.Logout]
  refine ⟨?_, hp rest, ?_⟩
  · intro hns
    unfold logout
    rw [sendCommandOp_eq d Common.DO Common.Logout hc, if_neg hns]
    rfl
  · intro hb
    rw [socketReadyRead_frame d [255, 252, 18] hb (by decide) (by rw [hp []]; rfl), hp []]

theorem logout_exchange_witness :
    connectedEngine.connected = true
    ∧ (logout connectedEngine).written = connectedEngine.written ++ [255, 253, 18]
    ∧ (socketReadyRead (logout connectedEngine) [255, 252, 18]).connected = false
    ∧ (socketReadyRead (logout connectedEngine) [255, 252, 18]).emitted = [Signal.loggedOut]
    ∧ (socketReadyRead (logout connectedEngine) [255, 252, 18]).written
        = (logout connectedEngine).written :=
  ⟨by decide,
    (logout_exchange connectedEngine [] (by decide)).1 (by decide),
    congrArg QtTelnetPrivate.connected
      ((logout_exchange (logout connectedEngine) [] (by decide)).2.2 (by decide)),
    congrArg QtTelnetPrivate.emitted
      ((logout_exchange (logout connectedEngine) [] (by decide)).2.2 (by decide)),
    (congrArg QtTelnetPrivate.written
      ((logout_exchange (logout connectedEngine) [] (by decide)).2.2 (by decide))).trans rfl⟩

theorem setMode_of_ne (d : QtTelnetPrivate) (operation option : Nat)
    (h : option ≠ Common.NAWS) :
    setMode d operation option
      = if operation ≠ Common.DO ∧ operation ≠ Common.DONT then d
        else { d with modes := setModeEntry d.modes option (decide (operation = Common.DO)) } := by
  simp [setMode, h]

/-- C25: in every engine state an inbound IAC DONT Authentication (FF FE 25)
consumes three bytes, sets nullauth, and emits loggedIn if and only if both
the login pattern and the password pattern are empty, emitting nothing else;
when modes[Authentication] is false it writes no byte and leaves the sent-set
as it is. -/
theorem dont_authentication (d : QtTelnetPrivate) (rest : List Nat) :
    (parseIAC d (255 :: 254 :: 37 :: rest)).2 = 3
    ∧ (parseIAC d (255 :: 254 :: 37 :: rest)).1.nullauth = true
    ∧ (parseIAC d (255 :: 254 :: 37 :: rest)).1.emitted
        = d.emitted ++ (if d.loginp.isEmpty = true ∧ d.passp.isEmpty = true
            then [Signal.loggedIn] else [])
    ∧ (d.modes Common.Authentication = false →
        (parseIAC d (255 :: 254 :: 37 :: rest)).1.written = d.written
        ∧ (parseIAC d (255 :: 254 :: 37 :: rest)).1.urgent = d.urgent
        ∧ (parseIAC d (255 :: 254 :: 37 :: rest)).1.osent = d.osent) := by
  have hd : parseIACDontAuth d Common.DONT 37
      = { d with nullauth := true,
                 emitted := d.emitted ++ (if d.loginp.isEmpty = true ∧ d.passp.isEmpty = true
                    then [Signal.loggedIn] else []) } := by
    by_cases he : d.loginp.isEmpty = true ∧ d.passp.isEmpty = true
    · simp [parseIACDontAuth, he, emit, Common.Authentication]
    · simp only [parseIACDontAuth, Common.Authentication, and_self, if_true, if_neg he,
        List.append_nil]
  have hp := parseIAC_operation d Common.DONT 37 rest (by decide) (by decide)
  have hp' : parseIAC d (255 :: 254 :: 37 :: rest)
      = if replyNeeded d Common.DONT 37 = true then
          (setMode (sendCommandOp (parseIACDontAuth d Common.DONT 37)
            (opposite Common.DONT (allowOption d Common.DONT 37)) 37) Common.DONT 37, 3)
        else (parseIACDontAuth d Common.DONT 37, 3) := hp
  rw [hp']
  by_cases hr : replyNeeded d Common.DONT 37 = true
  · have hm : ¬ d.modes Common.Authentication = false := by
      intro hm
      have hm' : d.modes 37 = false := hm
      simp [replyNeeded, hm', Common.DO, Common.DONT] at hr
    rw [if_pos hr, setMode_of_ne _ _ _ (by decide)]
    simp only [ne_eq, not_true_eq_false, and_false, if_false]
    refine ⟨trivial, ?_, ?_, fun h => absurd h hm⟩
    · show (sendCommandOp _ _ _).nullauth = true
      rw [sendCommandOp_frame, hd]
    · show (sendCommandOp _ _ _).emitted = _
      rw [sendCommandOp_frame, hd]
  · rw [if_neg hr, hd]
    exact ⟨rfl, rfl, rfl, fun _ => ⟨rfl, rfl, rfl⟩⟩

theorem dont_authentication_witness :
    connectedEngine.modes Common.Authentication = false
    ∧ (parseIAC connectedEngine [255, 254, 37]).1.nullauth = true
    ∧ (parseIAC connectedEngine [255, 254, 37]).1.emitted = []
    ∧ (parseIAC connectedEngine [255, 254, 37]).1.written = connectedEngine.written
    ∧ (parseIAC (setPasswordPattern (setLoginPattern connectedEngine QRegExp.empty)
          QRegExp.empty) [255, 254, 37]).1.emitted = [Signal.loggedIn] :=
  ⟨by decide,
    (dont_authentication connectedEngine []).2.1,
    (dont_authentication connectedEngine []).2.2.1.trans (by decide),
    ((dont_authentication connectedEngine []).2.2.2 (by decide)).1,
    (dont_authentication (setPasswordPattern (setLoginPattern connectedEngine QRegExp.empty)
      QRegExp.empty) []).2.2.1.trans (by decide)⟩

/-! ## The login assistant -/

theorem defaultPassp_not_found (t : List Nat) (h : defaultLoginp.found t = true) :
    defaultPassp.found t = false := by
  simp only [defaultLoginp, defaultPassp, QRegExp.literalAtEnd] at h ⊢
  rw [List.isSuffixOf_iff_suffix] at h
  by_contra hp
  have hp1 : List.isSuffixOf [97, 115, 115, 119, 111, 114, 100, 58] (dropTrailingSpace t) = true := by
    simpa using hp
  rw [List.isSuffixOf_iff_suffix] at hp1
  have hs : [111, 103, 105, 110, 58] <:+ [97, 115, 115, 119, 111, 114, 100, 58] :=
    List.suffix_of_suffix_length_le h hp1 (by decide)
  exact absurd hs (by decide)

theorem defaultLoginp_found_ne_nil (t : List Nat) (h : defaultLoginp.found t = true) : t ≠ [] := by
  intro ht
  rw [ht] at h
  exact absurd h (by decide)

theorem parsePlaintextLogin_found (d : QtTelnetPrivate) (t : List Nat) (hc : d.connected = true)
    (he : d.loginp.isEmpty = false) (hm : d.loginp.found t = true) :
    parsePlaintextLogin d t
      = ({ d with firsttry := false, triedlogin := true,
                  written := d.written ++ (if d.triedlogin = false then d.login else []),
                  emitted := d.emitted ++ (if d.firsttry = true ∨ d.triedlogin = true
                    then [Signal.message t, Signal.loginRequired] else []) },
         if d.firsttry = true ∨ d.triedlogin = true then [] else t) := by
  have h1 : d.loginp.isEmpty = false ∧ d.loginp.found t = true := ⟨he, hm⟩
  rcases hf : d.firsttry <;> rcases ht : d.triedlogin <;>
    simp [parsePlaintextLogin, h1, hf, ht, emit, sendData, hc, socketWrite]

/-- C26: on a connected engine with the default login and password patterns
and no prompt pattern, while the login assistant is active (nullauth true,
nocheckp false), a plaintext run t in which the login pattern is found is
handled so: when firsttry or triedlogin holds, message(t) and then
loginRequired are emitted and t is not emitted again; otherwise message(t)
alone is emitted, once. The stored username is written, as exactly its bytes
with nothing after them, if and only if triedlogin was false; afterwards
triedlogin is true and firsttry false, and nothing else of the engine has
changed. A read that holds just such a run, with nothing held back before and
no IAC, NUL or DM byte in it, is handled in this way. -/
theorem login_prompt_handling (d : QtTelnetPrivate) (t : List Nat) (hc : d.connected = true)
    (hn : d.nullauth = true) (hk : d.nocheckp = false) (hl : d.loginp = defaultLoginp)
    (hp : d.passp = defaultPassp) (hpr : d.promptp.isEmpty = true)
    (hm : d.loginp.found t = true) :
    parsePlaintextText d t
      = { d with firsttry := false, triedlogin := true,
                 written := d.written ++ (if d.triedlogin = false then d.login else []),
                 emitted := d.emitted ++ (if d.firsttry = true ∨ d.triedlogin = true
                    then [Signal.message t, Signal.loginRequired] else [Signal.message t]) }
    ∧ (d.buffer = [] → (∀ b ∈ t, b ≠ 255 ∧ b ≠ 0 ∧ b ≠ 242) →
        socketReadyRead d t = parsePlaintextText d t) := by
  have hm1 : defaultLoginp.found t = true := by rw [← hl]; exact hm
  have hne : t ≠ [] := defaultLoginp_found_ne_nil t hm1
  have he : d.loginp.isEmpty = false := by rw [hl]; rfl
  have hnp : defaultPassp.found t = false := defaultPassp_not_found t hm1
  have hnp0 : defaultPassp.found [] = false := by decide
  have hte : t.isEmpty = false := by
    cases t with
    | nil => exact absurd rfl hne
    | cons _ _ => rfl
  have hL := parsePlaintextLogin_found d t hc he hm
  refine ⟨?_, fun hb hbytes => socketReadyRead_text d t hb hbytes hne⟩
  have h1 : d.nocheckp = false ∧ d.nullauth = true := ⟨hk, hn⟩
  have h2 : ¬ (d.promptp.isEmpty = false ∧ d.promptp.found t = true) := by simp [hpr]
  simp only [parsePlaintextText, if_pos h1, if_neg h2, hL]
  by_cases hft : d.firsttry = true ∨ d.triedlogin = true
  · simp [parsePlaintextPass, hft, hp, hnp0, emit]
  · simp [parsePlaintextPass, hft, hp, hnp, hte, emit]

theorem login_prompt_handling_witness :
    (login (socketReadyRead (socketReadyRead connectedEngine [255, 254, 37])
        [108, 111, 103, 105, 110, 58, 32]) [97, 108, 105, 99, 101]
        [115, 101, 99, 114, 101, 116]).connected = true
    ∧ (socketReadyRead (socketReadyRead connectedEngine [255, 254, 37])
        [108, 111, 103, 105, 110, 58, 32]).emitted
        = [Signal.message [108, 111, 103, 105, 110, 58, 32], Signal.loginRequired]
    ∧ (parsePlaintextText
        (login (socketReadyRead (socketReadyRead connectedEngine [255, 254, 37])
        [108, 111, 103, 105, 110, 58, 32]) [97, 108, 105, 99, 101]
        [115, 101, 99, 114, 101, 116]) [108, 111, 103, 105, 110, 58, 32]).written
        = connectedEngine.written ++ [97, 108, 105, 99, 101]
    ∧ (parsePlaintextText
        (login (socketReadyRead (socketReadyRead connectedEngine [255, 254, 37])
        [108, 111, 103, 105, 110, 58, 32]) [97, 108, 105, 99, 101]
        [115, 101, 99, 114, 101, 116]) [108, 111, 103, 105, 110, 58, 32]).emitted
        = [Signal.message [108, 111, 103, 105, 110, 58, 32], Signal.loginRequired,
            Signal.message [108, 111, 103, 105, 110, 58, 32]]
    ∧ (socketReadyRead (socketReadyRead
        (login (socketReadyRead (socketReadyRead connectedEngine [255, 254, 37])
        [108, 111, 103, 105, 110, 58, 32]) [97, 108, 105, 99, 101]
        [115, 101, 99, 114, 101, 116]) [108, 111, 103, 105, 110, 58, 32])
        [80, 97, 115, 115, 119, 111, 114, 100, 58, 32]).written
        = connectedEngine.written ++ [97, 108, 105, 99, 101] ++ [115, 101, 99, 114, 101, 116] :=
  ⟨by decide, by decide,
    (congrArg QtTelnetPrivate.written (login_prompt_handling
      (login (socketReadyRead (socketReadyRead connectedEngine [255, 254, 37])
        [108, 111, 103, 105, 110, 58, 32]) [97, 108, 105, 99, 101]
        [115, 101, 99, 114, 101, 116]) [108, 111, 103, 105, 110, 58, 32]
      (by decide) (by decide) (by decide) rfl rfl (by decide) (by decide)).1).trans (by decide),
    (congrArg QtTelnetPrivate.emitted (login_prompt_handling
      (login (socketReadyRead (socketReadyRead connectedEngine [255, 254, 37])
        [108, 111, 103, 105, 110, 58, 32]) [97, 108, 105, 99, 101]
        [115, 101, 99, 114, 101, 116]) [108, 111, 103, 105, 110, 58, 32]
      (by decide) (by decide) (by decide) rfl rfl (by decide) (by decide)).1).trans (by decide),
    by decide⟩

/-- C27: a connected engine whose server has refused authentication (inbound
FF FE 25) and on which login("alice", "secret") has been called before any
prompt arrived has triedlogin and triedpass false and the credentials stored;
the login prompt "login: " that follows finds firsttry still true, so
loginRequired is emitted although login() has been called, next to the
username being written. -/
theorem loginRequired_after_login :
    (login (socketReadyRead connectedEngine [255, 254, 37]) [97, 108, 105, 99, 101]
      [115, 101, 99, 114, 101, 116]).triedlogin = false
    ∧ (login (socketReadyRead connectedEngine [255, 254, 37]) [97, 108, 105, 99, 101]
      [115, 101, 99, 114, 101, 116]).triedpass = false
    ∧ (login (socketReadyRead connectedEngine [255, 254, 37]) [97, 108, 105, 99, 101]
      [115, 101, 99, 114, 101, 116]).login = [97, 108, 105, 99, 101]
    ∧ (login (socketReadyRead connectedEngine [255, 254, 37]) [97, 108, 105, 99, 101]
      [115, 101, 99, 114, 101, 116]).firsttry = true
    ∧ (login (socketReadyRead connectedEngine [255, 254, 37]) [97, 108, 105, 99, 101]
      [115, 101, 99, 114, 101, 116]).loginp.found [108, 111, 103, 105, 110, 58, 32] = true
    ∧ (socketReadyRead
        (login (socketReadyRead connectedEngine [255, 254, 37]) [97, 108, 105, 99, 101]
          [115, 101, 99, 114, 101, 116]) [108, 111, 103, 105, 110, 58, 32]).emitted
        = [Signal.message [108, 111, 103, 105, 110, 58, 32], Signal.loginRequired]
    ∧ (socketReadyRead
        (login (socketReadyRead connectedEngine [255, 254, 37]) [97, 108, 105, 99, 101]
          [115, 101, 99, 114, 101, 116]) [108, 111, 103, 105, 110, 58, 32]).written
        = connectedEngine.written ++ [97, 108, 105, 99, 101] := by
  decide

/-- C28: on a connected engine that has seen no authentication exchange
(nullauth false) and on which setPromptPattern has set the non-empty pattern
for a text that ends in "$", a run "$ " in which the pattern is found emits
message alone, and no loggedIn; the same run emits loggedIn when an inbound
FF FE 25 has set nullauth before, and a second such run after it does not. -/
theorem prompt_match_without_loggedIn :
    (setPromptPattern connectedEngine (QRegExp.literalAtEnd [36])).promptp.isEmpty = false
    ∧ (setPromptPattern connectedEngine (QRegExp.literalAtEnd [36])).promptp.found [36, 32] = true
    ∧ (socketReadyRead (setPromptPattern connectedEngine (QRegExp.literalAtEnd [36]))
        [36, 32]).emitted = [Signal.message [36, 32]]
    ∧ (socketReadyRead (socketReadyRead (setPromptPattern connectedEngine
        (QRegExp.literalAtEnd [36])) [255, 254, 37]) [36, 32]).emitted
        = [Signal.loggedIn, Signal.message [36, 32]]
    ∧ (socketReadyRead (socketReadyRead (socketReadyRead (setPromptPattern connectedEngine
        (QRegExp.literalAtEnd [36])) [255, 254, 37]) [36, 32]) [36, 32]).emitted
        = [Signal.loggedIn, Signal.message [36, 32], Signal.message [36, 32]] := by
  decide

/-- What parsePlaintext does with a run in which a non-empty prompt pattern
is found: under nullauth true and nocheckp false loggedIn is emitted once,
before the run is emitted as a message, and nocheckp is set; under nullauth
false or nocheckp true the run is emitted as a message and nothing else is
emitted or changed. -/
theorem prompt_detection (d : QtTelnetPrivate) (t : List Nat)
    (he : d.promptp.isEmpty = false) (hm : d.promptp.found t = true) :
    (d.nullauth = true ∧ d.nocheckp = false →
      parsePlaintextText d t
        = { d with nocheckp := true,
                   emitted := d.emitted ++ [Signal.loggedIn]
                      ++ (if t.isEmpty = false then [Signal.message t] else []) })
    ∧ (d.nullauth = false ∨ d.nocheckp = true →
      parsePlaintextText d t
        = { d with emitted := d.emitted
                      ++ (if t.isEmpty = false then [Signal.message t] else []) }) := by
  constructor
  · intro h
    have h1 : d.nocheckp = false ∧ d.nullauth = true := ⟨h.2, h.1⟩
    have h2 : d.promptp.isEmpty = false ∧ d.promptp.found t = true := ⟨he, hm⟩
    simp only [parsePlaintextText, if_pos h1, if_pos h2, emit]
    by_cases hte : t.isEmpty = false
    · simp [hte]
    · simp [hte]
  · intro h
    have h1 : ¬ (d.nocheckp = false ∧ d.nullauth = true) := by
      rcases h with h | h <;> simp [h]
    simp only [parsePlaintextText, if_neg h1, emit]
    by_cases hte : t.isEmpty = false
    · simp [hte]
    · simp [hte]

theorem prompt_detection_witness :
    (socketReadyRead (setPromptPattern connectedEngine (QRegExp.literalAtEnd [36]))
        [255, 254, 37]).promptp.isEmpty = false
    ∧ (parsePlaintextText (socketReadyRead (setPromptPattern connectedEngine
        (QRegExp.literalAtEnd [36])) [255, 254, 37]) [36, 32]).emitted
        = [Signal.loggedIn, Signal.message [36, 32]]
    ∧ (parsePlaintextText (socketReadyRead (setPromptPattern connectedEngine
        (QRegExp.literalAtEnd [36])) [255, 254, 37]) [36, 32]).nocheckp = true
    ∧ (parsePlaintextText (setPromptPattern connectedEngine (QRegExp.literalAtEnd [36]))
        [36, 32]).emitted = [Signal.message [36, 32]] :=
  ⟨by decide,
    (congrArg QtTelnetPrivate.emitted
      ((prompt_detection (socketReadyRead (setPromptPattern connectedEngine
        (QRegExp.literalAtEnd [36])) [255, 254, 37]) [36, 32] (by decide) (by decide)).1
        ⟨by decide, by decide⟩)).trans (by decide),
    congrArg QtTelnetPrivate.nocheckp
      ((prompt_detection (socketReadyRead (setPromptPattern connectedEngine
        (QRegExp.literalAtEnd [36])) [255, 254, 37]) [36, 32] (by decide) (by decide)).1
        ⟨by decide, by decide⟩),
    (congrArg QtTelnetPrivate.emitted
      ((prompt_detection (setPromptPattern connectedEngine (QRegExp.literalAtEnd [36]))
        [36, 32] (by decide) (by decide)).2 (Or.inl (by decide)))).trans (by decide)⟩

/-! ## The stored password -/

theorem sendCommand_creds (d : QtTelnetPrivate) (command : List Nat) :
    (sendCommand d command).triedpass = d.triedpass ∧ (sendCommand d command).pass = d.pass := by
  rw [sendCommand_frame]
  exact ⟨rfl, rfl⟩

theorem sendCommandOp_creds (d : QtTelnetPrivate) (operation option : Nat) :
    (sendCommandOp d operation option).triedpass = d.triedpass
    ∧ (sendCommandOp d operation option).pass = d.pass :=
  sendCommand_creds d _

theorem sendWindowSize_creds (d : QtTelnetPrivate) :
    (sendWindowSize d).triedpass = d.triedpass ∧ (sendWindowSize d).pass = d.pass := by
  rw [sendWindowSize_frame]
  exact ⟨rfl, rfl⟩

theorem sendString_creds (d : QtTelnetPrivate) (str : List Nat) :
    (sendString d str).triedpass = d.triedpass ∧ (sendString d str).pass = d.pass := by
  unfold sendString socketWrite
  split_ifs <;> exact ⟨rfl, rfl⟩

theorem setMode_creds (d : QtTelnetPrivate) (operation option : Nat) :
    (setMode d operation option).triedpass = d.triedpass
    ∧ (setMode d operation option).pass = d.pass := by
  simp only [setMode]
  split_ifs
  · exact ⟨rfl, rfl⟩
  · exact sendWindowSize_creds _
  · exact ⟨rfl, rfl⟩

theorem parseSubTT_creds (d : QtTelnetPrivate) (data : List Nat) :
    (parseSubTT d data).triedpass = d.triedpass ∧ (parseSubTT d data).pass = d.pass := by
  simp only [parseSubTT]
  split_ifs
  · exact ⟨rfl, rfl⟩
  · simp only [(sendCommand_creds _ _).1, (sendCommand_creds _ _).2, (sendString_creds _ _).1,
      (sendString_creds _ _).2, and_self]

theorem parseSubAuthSelect_creds (d : QtTelnetPrivate) (data : List Nat) :
    (parseSubAuthSelect d data).triedpass = d.triedpass
    ∧ (parseSubAuthSelect d data).pass = d.pass := by
  simp only [parseSubAuthSelect, parseSubAuthLoop_none]
  split_ifs <;> exact ⟨rfl, rfl⟩

theorem parseSubAuthStep_creds (d : QtTelnetPrivate) (data : List Nat) :
    (parseSubAuthStep d data).triedpass = d.triedpass
    ∧ (parseSubAuthStep d data).pass = d.pass := by
  unfold parseSubAuthStep
  split
  · exact ⟨rfl, rfl⟩
  · simp only [emit]
    split_ifs <;> first | exact ⟨rfl, rfl⟩ | exact sendCommand_creds _ _

theorem parseSubAuth_creds (d : QtTelnetPrivate) (data : List Nat) :
    (parseSubAuth d data).triedpass = d.triedpass ∧ (parseSubAuth d data).pass = d.pass := by
  unfold parseSubAuth
  rw [(parseSubAuthStep_creds _ _).1, (parseSubAuthStep_creds _ _).2]
  exact parseSubAuthSelect_creds d data

theorem parseIACSwitch_creds (d : QtTelnetPrivate) (data suboption : List Nat) :
    (parseIACSwitch d data suboption).triedpass = d.triedpass
    ∧ (parseIACSwitch d data suboption).pass = d.pass := by
  unfold parseIACSwitch parseSubNAWS
  split_ifs
  · exact parseSubAuth_creds d _
  · exact parseSubTT_creds d _
  · exact ⟨rfl, rfl⟩
  · exact ⟨rfl, rfl⟩

theorem close_creds (d : QtTelnetPrivate) :
    (close d).triedpass = d.triedpass ∧ (close d).pass = d.pass := by
  unfold close emit
  split_ifs <;> exact ⟨rfl, rfl⟩

theorem parseIACDontAuth_creds (d : QtTelnetPrivate) (operation option : Nat) :
    (parseIACDontAuth d operation option).triedpass = d.triedpass
    ∧ (parseIACDontAuth d operation option).pass = d.pass := by
  unfold parseIACDontAuth emit
  split_ifs <;> exact ⟨rfl, rfl⟩

theorem parseIAC_creds (d : QtTelnetPrivate) (data : List Nat) :
    (parseIAC d data).1.triedpass = d.triedpass ∧ (parseIAC d data).1.pass = d.pass := by
  simp only [parseIAC]
  split_ifs
  · exact ⟨rfl, rfl⟩
  · exact close_creds d
  · simp only [(setMode_creds _ _ _).1, (setMode_creds _ _ _).2, (sendCommandOp_creds _ _ _).1,
      (sendCommandOp_creds _ _ _).2]
    exact parseIACDontAuth_creds d _ _
  · exact parseIACDontAuth_creds d _ _
  · exact ⟨rfl, rfl⟩
  · exact ⟨rfl, rfl⟩
  · exact parseIACSwitch_creds d _ _

theorem sendData_creds (d : QtTelnetPrivate) (data : List Nat) :
    (sendData d data).triedpass = d.triedpass ∧ (sendData d data).pass = d.pass := by
  unfold sendData socketWrite
  split_ifs <;> exact ⟨rfl, rfl⟩

theorem parsePlaintextLogin_creds (d : QtTelnetPrivate) (text : List Nat) :
    (parsePlaintextLogin d text).1.triedpass = d.triedpass
    ∧ (parsePlaintextLogin d text).1.pass = d.pass := by
  simp only [parsePlaintextLogin]
  split_ifs <;> first | exact ⟨rfl, rfl⟩ | exact sendData_creds _ _

theorem sendString_wp (d : QtTelnetPrivate) (p u str : List Nat) :
    sendString { d with pass := p, written := u ++ d.written } str
      = { sendString d str with pass := p, written := u ++ (sendString d str).written } := by
  unfold sendString socketWrite
  split_ifs <;> simp

theorem sendCommand_wp (d : QtTelnetPrivate) (p u command : List Nat) :
    sendCommand { d with pass := p, written := u ++ d.written } command
      = { sendCommand d command with pass := p, written := u ++ (sendCommand d command).written } := by
  by_cases h1 : d.connected = false ∨ command.isEmpty = true
  · simp only [sendCommand, if_pos h1]
  · by_cases h2 : command.length = 3
    · by_cases h3 : (command.getD 1 0, command.getD 2 0) ∈ d.osent
      · simp only [sendCommand, alreadySent, if_neg h1, if_pos h2, if_pos h3, if_true]
      · simp only [sendCommand, alreadySent, if_neg h1, if_pos h2, if_neg h3,
          Bool.false_eq_true, if_false, socketWrite, addSent, List.append_assoc]
    · simp only [sendCommand, if_neg h1, if_neg h2, socketWrite, List.append_assoc]

theorem sendCommandOp_wp (d : QtTelnetPrivate) (p u : List Nat) (operation option : Nat) :
    sendCommandOp { d with pass := p, written := u ++ d.written } operation option
      = { sendCommandOp d operation option with
            pass := p, written := u ++ (sendCommandOp d operation option).written } :=
  sendCommand_wp d p u _

theorem sendWindowSize_wp (d : QtTelnetPrivate) (p u : List Nat) :
    sendWindowSize { d with pass := p, written := u ++ d.written }
      = { sendWindowSize d with pass := p, written := u ++ (sendWindowSize d).written } := by
  by_cases h1 : d.modes Common.NAWS = false
  · simp only [sendWindowSize, if_pos h1]
  · by_cases h2 : isValidWindowSize d = false
    · have h2' : isValidWindowSize { d with pass := p, written := u ++ d.written } = false := h2
      simp only [sendWindowSize, if_neg h1, if_pos h2, if_pos h2']
    · have h2' : ¬ isValidWindowSize { d with pass := p, written := u ++ d.written } = false := h2
      simp only [sendWindowSize, if_neg h1, if_neg h2, if_neg h2']
      exact sendCommand_wp d p u _

theorem setMode_wp (d : QtTelnetPrivate) (p u : List Nat) (operation option : Nat) :
    setMode { d with pass := p, written := u ++ d.written } operation option
      = { setMode d operation option with
            pass := p, written := u ++ (setMode d operation option).written } := by
  by_cases h1 : operation ≠ Common.DO ∧ operation ≠ Common.DONT
  · simp only [setMode, if_pos h1]
  · by_cases h2 : option = Common.NAWS
        ∧ setModeEntry d.modes option (decide (operation = Common.DO)) Common.NAWS = true
    · simp only [setMode, if_neg h1, if_pos h2]
      exact sendWindowSize_wp
        { d with modes := setModeEntry d.modes option (decide (operation = Common.DO)) } p u
    · simp only [setMode, if_neg h1, if_neg h2]
theorem parseSubTT_wp (d : QtTelnetPrivate) (p u data : List Nat) :
    parseSubTT { d with pass := p, written := u ++ d.written } data
      = { parseSubTT d data with pass := p, written := u ++ (parseSubTT d data).written } := by
  by_cases h1 : data.length < 2 ∨ data.getD 1 0 ≠ Common.SEND
  · simp only [parseSubTT, if_pos h1]
  · simp only [parseSubTT, if_neg h1]
    rw [sendCommand_wp, sendString_wp, sendCommand_wp]

theorem parseSubAuthSelect_wp (d : QtTelnetPrivate) (p u data : List Nat) :
    parseSubAuthSelect { d with pass := p, written := u ++ d.written } data
      = { parseSubAuthSelect d data with
            pass := p, written := u ++ (parseSubAuthSelect d data).written } := by
  simp only [parseSubAuthSelect, parseSubAuthLoop_none]
  split_ifs <;> rfl

theorem parseSubAuthStep_wp (d : QtTelnetPrivate) (p u data : List Nat) :
    parseSubAuthStep { d with pass := p, written := u ++ d.written } data
      = { parseSubAuthStep d data with
            pass := p, written := u ++ (parseSubAuthStep d data).written } := by
  unfold parseSubAuthStep
  cases hcur : d.curauth with
  | none => simp only [hcur]
  | some cur =>
    simp only [hcur]
    have hs := sendCommand_wp { d with curauth := some (authStep cur data).1 } p u
      (authStep cur data).2
    by_cases he : (authStep cur data).2.isEmpty = false
    · simp only [if_pos he]
      rw [hs]
      simp only [emit]
      split_ifs <;> rfl
    · simp only [if_neg he, emit]
      split_ifs <;> rfl

theorem parseSubAuth_wp (d : QtTelnetPrivate) (p u data : List Nat) :
    parseSubAuth { d with pass := p, written := u ++ d.written } data
      = { parseSubAuth d data with pass := p, written := u ++ (parseSubAuth d data).written } := by
  unfold parseSubAuth
  rw [parseSubAuthSelect_wp, parseSubAuthStep_wp]

theorem parseIACSwitch_wp (d : QtTelnetPrivate) (p u data suboption : List Nat) :
    parseIACSwitch { d with pass := p, written := u ++ d.written } data suboption
      = { parseIACSwitch d data suboption with
            pass := p, written := u ++ (parseIACSwitch d data suboption).written } := by
  unfold parseIACSwitch parseSubNAWS
  split_ifs
  · exact parseSubAuth_wp d p u _
  · exact parseSubTT_wp d p u _
  · rfl
  · rfl

theorem close_wp (d : QtTelnetPrivate) (p u : List Nat) :
    close { d with pass := p, written := u ++ d.written }
      = { close d with pass := p, written := u ++ (close d).written } := by
  unfold close emit
  split_ifs <;> rfl

theorem parseIACDontAuth_wp (d : QtTelnetPrivate) (p u : List Nat) (operation option : Nat) :
    parseIACDontAuth { d with pass := p, written := u ++ d.written } operation option
      = { parseIACDontAuth d operation option with
            pass := p, written := u ++ (parseIACDontAuth d operation option).written } := by
  unfold parseIACDontAuth emit
  split_ifs <;> rfl

theorem parseIAC_wp (d : QtTelnetPrivate) (p u data : List Nat) :
    parseIAC { d with pass := p, written := u ++ d.written } data
      = ({ (parseIAC d data).1 with pass := p, written := u ++ (parseIAC d data).1.written },
          (parseIAC d data).2) := by
  have hr : ∀ (e : QtTelnetPrivate) (operation option : Nat),
      replyNeeded { e with pass := p, written := u ++ e.written } operation option
        = replyNeeded e operation option := fun _ _ _ => rfl
  have ha : ∀ (e : QtTelnetPrivate) (operation option : Nat),
      allowOption { e with pass := p, written := u ++ e.written } operation option
        = allowOption e operation option := fun _ _ _ => rfl
  simp only [parseIAC, parseIACDontAuth_wp, hr, ha, sendCommandOp_wp, setMode_wp,
    parseIACSwitch_wp, close_wp]
  split_ifs <;> rfl

theorem parsePlaintextLogin_wp (d : QtTelnetPrivate) (p u text : List Nat) :
    parsePlaintextLogin { d with pass := p, written := u ++ d.written } text
      = ({ (parsePlaintextLogin d text).1 with
              pass := p, written := u ++ (parsePlaintextLogin d text).1.written },
          (parsePlaintextLogin d text).2) := by
  by_cases h1 : d.loginp.isEmpty = false ∧ d.loginp.found text = true
  · rcases hf : d.firsttry <;> rcases ht : d.triedlogin <;> rcases hc : d.connected <;>
      simp [parsePlaintextLogin, h1, hf, ht, hc, emit, sendData, socketWrite]
  · simp only [parsePlaintextLogin, if_neg h1]
theorem parsePlaintextPass_w (d : QtTelnetPrivate) (u text : List Nat) :
    parsePlaintextPass { d with written := u ++ d.written } text
      = ({ (parsePlaintextPass d text).1 with
              written := u ++ (parsePlaintextPass d text).1.written },
          (parsePlaintextPass d text).2) := by
  by_cases h1 : d.passp.isEmpty = false ∧ d.passp.found text = true
  · rcases hf : d.firsttry <;> rcases ht : d.triedpass <;> rcases hc : d.connected <;>
      simp [parsePlaintextPass, h1, hf, ht, hc, emit, sendData, socketWrite]
  · simp only [parsePlaintextPass, if_neg h1]

theorem parsePlaintextLogin_w (d : QtTelnetPrivate) (u text : List Nat) :
    parsePlaintextLogin { d with written := u ++ d.written } text
      = ({ (parsePlaintextLogin d text).1 with
              written := u ++ (parsePlaintextLogin d text).1.written },
          (parsePlaintextLogin d text).2) := by
  have h := parsePlaintextLogin_wp d d.pass u text
  have hp : (parsePlaintextLogin d text).1.pass = d.pass :=
    (parsePlaintextLogin_creds d text).2
  rw [h]
  simp only [hp]

theorem parsePlaintextText_w (d : QtTelnetPrivate) (u text : List Nat) :
    parsePlaintextText { d with written := u ++ d.written } text
      = { parsePlaintextText d text with written := u ++ (parsePlaintextText d text).written } := by
  have key : ∀ e : QtTelnetPrivate,
      parsePlaintextPass (parsePlaintextLogin { e with written := u ++ e.written } text).1
          (parsePlaintextLogin { e with written := u ++ e.written } text).2
        = ({ (parsePlaintextPass (parsePlaintextLogin e text).1 (parsePlaintextLogin e text).2).1
              with written := u ++ (parsePlaintextPass (parsePlaintextLogin e text).1
                (parsePlaintextLogin e text).2).1.written },
            (parsePlaintextPass (parsePlaintextLogin e text).1
              (parsePlaintextLogin e text).2).2) := by
    intro e
    rw [parsePlaintextLogin_w, parsePlaintextPass_w]
  by_cases h1 : d.nocheckp = false ∧ d.nullauth = true
  · by_cases h2 : d.promptp.isEmpty = false ∧ d.promptp.found text = true
    · simp only [parsePlaintextText, if_pos h1, if_pos h2, emit, Bool.true_eq_false, false_and,
        if_false]
      split_ifs <;> rfl
    · simp only [parsePlaintextText, if_pos h1, if_neg h2, key d, emit]
      split_ifs <;> rfl
  · simp only [parsePlaintextText, if_neg h1, emit]
    split_ifs <;> rfl
theorem parsePlaintext_w (d : QtTelnetPrivate) (u data : List Nat) :
    parsePlaintext { d with written := u ++ d.written } data
      = ({ (parsePlaintext d data).1 with written := u ++ (parsePlaintext d data).1.written },
          (parsePlaintext d data).2) := by
  unfold parsePlaintext
  split <;> simp only [parsePlaintextText_w]

theorem parseIAC_w (d : QtTelnetPrivate) (u data : List Nat) :
    parseIAC { d with written := u ++ d.written } data
      = ({ (parseIAC d data).1 with written := u ++ (parseIAC d data).1.written },
          (parseIAC d data).2) := by
  have h := parseIAC_wp d d.pass u data
  rw [h]
  simp only [(parseIAC_creds d data).2]

theorem consumeStep_w (d : QtTelnetPrivate) (u data : List Nat) (currpos : Nat) :
    consumeStep { d with written := u ++ d.written } data currpos
      = ({ (consumeStep d data currpos).1 with
              written := u ++ (consumeStep d data currpos).1.written },
          (consumeStep d data currpos).2) := by
  simp only [consumeStep, parseIAC_w, parsePlaintext_w]
  split_ifs <;> rfl

theorem consumeRest_w (u : List Nat) (fuel : Nat) :
    ∀ (d : QtTelnetPrivate) (rest : List Nat),
      consumeRest fuel { d with written := u ++ d.written } rest
        = ({ (consumeRest fuel d rest).1 with
                written := u ++ (consumeRest fuel d rest).1.written },
            (consumeRest fuel d rest).2) := by
  induction fuel with
  | zero => intro d rest; rfl
  | succ fuel ih =>
    intro d rest
    simp only [consumeRest, consumeStep_w]
    split_ifs
    · rfl
    · rfl
    · exact ih _ _

theorem socketReadyRead_w (d : QtTelnetPrivate) (u chunk : List Nat) :
    socketReadyRead { d with written := u ++ d.written } chunk
      = { socketReadyRead d chunk with written := u ++ (socketReadyRead d chunk).written } := by
  rw [socketReadyRead_eq, socketReadyRead_eq]
  have h := consumeRest_w u ((d.buffer.flatten ++ chunk).length + 1) { d with buffer := [] }
    (d.buffer.flatten ++ chunk)
  show pushBack (consumeRest _ { { d with buffer := [] } with
      written := u ++ ({ d with buffer := [] } : QtTelnetPrivate).written } _) = _
  rw [h]
  unfold pushBack
  split_ifs <;> rfl
/-- C30: the frame FF FA 25 FF F0 carries the one-byte payload [37], which
parseIAC hands to parseSubAuth; on a connected fresh engine, where curauth is
null, the test at line 678 then reads index 1 of an array of size 1, which is
not within its bounds. -/
theorem auth_payload_read_out_of_range :
    getSubOption [255, 250, 37, 255, 240] = [37]
    ∧ (parseIAC connectedEngine [255, 250, 37, 255, 240]).2 = 5
    ∧ parseIACSwitch connectedEngine [255, 250, 37, 255, 240]
        (getSubOption [255, 250, 37, 255, 240]) = parseSubAuth connectedEngine [37]
    ∧ connectedEngine.curauth = none
    ∧ parseSubAuthReads connectedEngine (getSubOption [255, 250, 37, 255, 240]) = [(1, 1)]
    ∧ ¬ (∀ r ∈ parseSubAuthReads connectedEngine (getSubOption [255, 250, 37, 255, 240]),
          r.1 < r.2) :=
  ⟨by decide, by decide, rfl, by decide, by decide, by decide⟩

/-! ## The login assistant when it is not active -/

/-- C36: a plaintext run parsed in a state in which nullauth is false or
nocheckp is true leaves the engine as it was but for the events: whatever the
patterns and the text, nothing is written, ordinary or urgent, no
loginRequired and no loggedIn is emitted, the stored username and password
and the flags firsttry, triedlogin and triedpass are unchanged, and the run
is emitted as one message, or as no event when it is empty. The same holds of
parsePlaintext on the bytes of the run, up to the first NUL or to the end of
the data. -/
theorem inactive_assistant_frame (d : QtTelnetPrivate) (text : List Nat)
    (h : d.nullauth = false ∨ d.nocheckp = true) :
    parsePlaintextText d text
      = { d with emitted := d.emitted
                    ++ (if text.isEmpty = false then [Signal.message text] else []) }
    ∧ (0 ∉ text → ∀ post : List Nat,
        (parsePlaintext d text).1 = parsePlaintextText d text
        ∧ (parsePlaintext d (text ++ 0 :: post)).1 = parsePlaintextText d text) := by
  have h1 : ¬ (d.nocheckp = false ∧ d.nullauth = true) := by
    rcases h with h | h <;> simp [h]
  constructor
  · simp only [parsePlaintextText, if_neg h1, emit]
    by_cases hte : text.isEmpty = false
    · simp [hte]
    · simp [hte]
  · intro h0 post
    rw [parsePlaintext_open d text h0, parsePlaintext_nul d text post h0]
    exact ⟨rfl, rfl⟩

theorem inactive_assistant_frame_witness :
    connectedEngine.nullauth = false
    ∧ (parsePlaintextText connectedEngine [108, 111, 103, 105, 110, 58, 32]).emitted
        = [Signal.message [108, 111, 103, 105, 110, 58, 32]]
    ∧ (parsePlaintextText connectedEngine [108, 111, 103, 105, 110, 58, 32]).written
        = connectedEngine.written
    ∧ (parsePlaintextText connectedEngine [108, 111, 103, 105, 110, 58, 32]).firsttry = true
    ∧ (parsePlaintextText connectedEngine []).emitted = [] :=
  ⟨by decide,
    (congrArg QtTelnetPrivate.emitted
      (inactive_assistant_frame connectedEngine [108, 111, 103, 105, 110, 58, 32]
        (Or.inl (by decide))).1).trans (by decide),
    (congrArg QtTelnetPrivate.written
      (inactive_assistant_frame connectedEngine [108, 111, 103, 105, 110, 58, 32]
        (Or.inl (by decide))).1).trans rfl,
    (congrArg QtTelnetPrivate.firsttry
      (inactive_assistant_frame connectedEngine [108, 111, 103, 105, 110, 58, 32]
        (Or.inl (by decide))).1).trans (by decide),
    (congrArg QtTelnetPrivate.emitted
      (inactive_assistant_frame connectedEngine [] (Or.inl (by decide))).1).trans (by decide)⟩

/-! ## A second connection -/

/-- C35: on an engine with an empty sent-set and no valid window size, as a
fresh engine is, the transport coming up, then close(), then the transport
coming up again: the first initial negotiation writes its twelve bytes and
leaves its four pairs in the sent-set, close() keeps the sent-set, and the
second initial negotiation finds every pair in the sent-set, so it writes no
byte and leaves the sent-set empty. -/
theorem reconnect_negotiation_cancelled (d : QtTelnetPrivate) (hosent : d.osent = [])
    (hvalid : isValidWindowSize d = false) :
    (socketConnected d).written
        = d.written ++ [255, 251, 37, 255, 253, 3, 255, 251, 34, 255, 253, 5]
    ∧ (close (socketConnected d)).osent = [(251, 37), (253, 3), (251, 34), (253, 5)]
    ∧ (close (socketConnected d)).connected = false
    ∧ (socketConnected (close (socketConnected d))).written = (socketConnected d).written
    ∧ (socketConnected (close (socketConnected d))).urgent = d.urgent
    ∧ (socketConnected (close (socketConnected d))).osent = []
    ∧ (socketConnected (close (socketConnected d))).connected = true := by
  have hv : ∀ (c : Bool) (os : List (Nat × Nat)) (wr : List Nat) (em : List Signal),
      isValidWindowSize { d with connected := c, osent := os, written := wr, emitted := em }
        = false := fun _ _ _ _ => hvalid
  rw [socketConnected_eq d hosent hvalid]
  simp [close, emit, socketConnected, sendOptions, sendCommandOp, sendCommand, alreadySent,
    addSent, socketWrite, hv, Common.IAC, Common.WILL, Common.DO, Common.Authentication,
    Common.SuppressGoAhead, Common.LineMode, Common.Status]

theorem reconnect_negotiation_cancelled_witness :
    QtTelnetPrivate.new.osent = []
    ∧ (socketConnected (close (socketConnected QtTelnetPrivate.new))).written
        = [255, 251, 37, 255, 253, 3, 255, 251, 34, 255, 253, 5]
    ∧ (socketConnected (close (socketConnected QtTelnetPrivate.new))).osent = [] :=
  ⟨by decide,
    (reconnect_negotiation_cancelled QtTelnetPrivate.new (by decide) (by decide)).2.2.2.1.trans
      (by decide),
    (reconnect_negotiation_cancelled QtTelnetPrivate.new (by decide) (by decide)).2.2.2.2.2.1⟩

/-! ## An empty suboption -/

theorem parseIAC_empty_suboption (d : QtTelnetPrivate) (tail : List Nat) :
    parseIAC d (255 :: 250 :: 255 :: 240 :: tail) = (d, 0) := by
  have hg : getSubOption (255 :: 250 :: 255 :: 240 :: tail) = [] := by
    simp [getSubOption, getSubOptionLoop, Common.SB, Common.IAC, Common.SE]
  simp [parseIAC, isOperation, isCommand, hg, Common.WILL, Common.WONT, Common.DO, Common.DONT,
    Common.DM]

theorem socketReadyRead_empty_suboption (d : QtTelnetPrivate) (tail chunk : List Nat)
    (hb : d.buffer.flatten = 255 :: 250 :: 255 :: 240 :: tail) :
    socketReadyRead d chunk = { d with buffer := [d.buffer.flatten ++ chunk] } := by
  have hstep : consumeStep { d with buffer := [] } (255 :: 250 :: 255 :: 240 :: (tail ++ chunk)) 0
      = ({ d with buffer := [] }, 0) := by
    simp [consumeStep, parseIAC_empty_suboption, Common.DM, Common.IAC]
  rw [socketReadyRead_eq, hb]
  simp only [List.cons_append, List.length_cons, consumeRest, hstep, pushBack]
  simp

/-- C34: when the bytes held in the receive buffer begin with FF FA FF F0, a
suboption frame with an empty payload, parseIAC consumes nothing of them, and
every read that follows leaves the engine as it was but for the buffer, which
holds the bytes it held before followed by the chunk read: through any
sequence of reads nothing is emitted, nothing is written, and the buffer
holds its first content followed by all the chunks, still beginning with
FF FA FF F0. -/
theorem empty_suboption_wedges (chunks : List (List Nat)) :
    ∀ (d : QtTelnetPrivate) (tail : List Nat),
      d.buffer.flatten = 255 :: 250 :: 255 :: 240 :: tail →
      (parseIAC d d.buffer.flatten).2 = 0
      ∧ (∀ chunk : List Nat,
          socketReadyRead d chunk = { d with buffer := [d.buffer.flatten ++ chunk] })
      ∧ feedAll d chunks = { d with buffer := (feedAll d chunks).buffer }
      ∧ (feedAll d chunks).emitted = d.emitted
      ∧ (feedAll d chunks).written = d.written
      ∧ (feedAll d chunks).buffer.flatten = d.buffer.flatten ++ chunks.flatten := by
  induction chunks with
  | nil =>
    intro d tail hb
    refine ⟨?_, fun chunk => socketReadyRead_empty_suboption d tail chunk hb, rfl, rfl, rfl, ?_⟩
    · rw [hb, parseIAC_empty_suboption]
    · simp [feedAll]
  | cons chunk chunks ih =>
    intro d tail hb
    have hr := socketReadyRead_empty_suboption d tail chunk hb
    have hb1 : (socketReadyRead d chunk).buffer.flatten
        = 255 :: 250 :: 255 :: 240 :: (tail ++ chunk) := by
      rw [hr]
      simp [hb]
    have h := ih (socketReadyRead d chunk) (tail ++ chunk) hb1
    refine ⟨?_, fun c => socketReadyRead_empty_suboption d tail c hb, ?_, ?_, ?_, ?_⟩
    · rw [hb, parseIAC_empty_suboption]
    · simp only [feedAll]
      refine h.2.2.1.trans ?_
      rw [hr]
    · simp only [feedAll]
      rw [h.2.2.2.1, hr]
    · simp only [feedAll]
      rw [h.2.2.2.2.1, hr]
    · simp only [feedAll]
      rw [h.2.2.2.2.2, hr]
      simp

theorem empty_suboption_wedges_witness :
    (socketReadyRead connectedEngine [255, 250, 255, 240]).buffer.flatten = [255, 250, 255, 240]
    ∧ (feedAll (socketReadyRead connectedEngine [255, 250, 255, 240])
        [[104, 105], [255, 253, 3]]).emitted = []
    ∧ (feedAll (socketReadyRead connectedEngine [255, 250, 255, 240])
        [[104, 105], [255, 253, 3]]).written = connectedEngine.written
    ∧ (feedAll (socketReadyRead connectedEngine [255, 250, 255, 240])
        [[104, 105], [255, 253, 3]]).buffer.flatten
        = [255, 250, 255, 240, 104, 105, 255, 253, 3] :=
  ⟨by decide,
    (empty_suboption_wedges [[104, 105], [255, 253, 3]]
      (socketReadyRead connectedEngine [255, 250, 255, 240]) [] (by decide)).2.2.2.1.trans
      (by decide),
    (empty_suboption_wedges [[104, 105], [255, 253, 3]]
      (socketReadyRead connectedEngine [255, 250, 255, 240]) [] (by decide)).2.2.2.2.1.trans
      (by decide),
    (empty_suboption_wedges [[104, 105], [255, 253, 3]]
      (socketReadyRead connectedEngine [255, 250, 255, 240]) [] (by decide)).2.2.2.2.2.trans
      (by decide)⟩

/-! ## The loop of a parse pass -/

theorem consumeStep_bounds (d : QtTelnetPrivate) (data : List Nat) (currpos : Nat)
    (h : currpos < data.length) :
    currpos ≤ (consumeStep d data currpos).2 ∧ (consumeStep d data currpos).2 ≤ data.length := by
  have hne : data.drop currpos ≠ [] := by
    intro he
    have := congrArg List.length he
    simp at this
    omega
  have hle := consumeStep_snd_le d (data.drop currpos) hne
  rw [consumeStep_drop]
  simp only [List.length_drop] at hle
  constructor
  · exact Nat.le_add_right _ _
  · show currpos + (consumeStep d (data.drop currpos) 0).2 ≤ data.length
    omega

theorem consumeLoopCount_stuck (data : List Nat) (fuel : Nat) (d : QtTelnetPrivate)
    (currpos : Nat) :
    consumeLoopCount data fuel d (currpos : Int) currpos = some (d, currpos, 0) := by
  cases fuel <;> simp [consumeLoopCount]

theorem consumeLoopCount_some (data : List Nat) :
    ∀ (fuel : Nat) (d : QtTelnetPrivate) (prevpos : Int) (currpos : Nat),
      data.length - currpos ≤ fuel →
      ∃ n, n ≤ data.length - currpos
        ∧ consumeLoopCount data fuel d prevpos currpos
            = some ((consumeLoop data fuel d prevpos currpos).1,
                (consumeLoop data fuel d prevpos currpos).2, n) := by
  intro fuel
  induction fuel with
  | zero =>
    intro d prevpos currpos hf
    have hc : ¬ (prevpos < (currpos : Int) ∧ currpos < data.length) := by
      intro h
      omega
    exact ⟨0, Nat.zero_le _, by simp only [consumeLoopCount, consumeLoop, if_neg hc]⟩
  | succ fuel ih =>
    intro d prevpos currpos hf
    by_cases hc : prevpos < (currpos : Int) ∧ currpos < data.length
    · have hb := consumeStep_bounds d data currpos hc.2
      by_cases hs : (consumeStep d data currpos).2 = currpos
      · refine ⟨1, by omega, ?_⟩
        simp only [consumeLoopCount, consumeLoop, if_pos hc, hs, consumeLoopCount_stuck,
          consumeLoop_stuck]
      · obtain ⟨n, hn, he⟩ := ih (consumeStep d data currpos).1 (currpos : Int)
          (consumeStep d data currpos).2 (by omega)
        refine ⟨n + 1, by omega, ?_⟩
        simp only [consumeLoopCount, consumeLoop, if_pos hc, he]
    · exact ⟨0, Nat.zero_le _, by simp only [consumeLoopCount, consumeLoop, if_neg hc]⟩

theorem consumeLoopCount_fuel (data : List Nat) :
    ∀ (fuel fuel' : Nat) (d : QtTelnetPrivate) (prevpos : Int) (currpos : Nat),
      data.length - currpos ≤ fuel → data.length - currpos ≤ fuel' →
      consumeLoopCount data fuel d prevpos currpos
        = consumeLoopCount data fuel' d prevpos currpos := by
  intro fuel
  induction fuel with
  | zero =>
    intro fuel' d prevpos currpos hf _
    have hc : ¬ (prevpos < (currpos : Int) ∧ currpos < data.length) := by
      intro h
      omega
    cases fuel' <;> simp only [consumeLoopCount, if_neg hc]
  | succ fuel ih =>
    intro fuel' d prevpos currpos hf hf'
    by_cases hc : prevpos < (currpos : Int) ∧ currpos < data.length
    · cases fuel' with
      | zero => omega
      | succ fuel' =>
        have hb := consumeStep_bounds d data currpos hc.2
        by_cases hs : (consumeStep d data currpos).2 = currpos
        · simp only [consumeLoopCount, if_pos hc, hs, consumeLoopCount_stuck]
        · simp only [consumeLoopCount, if_pos hc]
          rw [ih fuel' (consumeStep d data currpos).1 (currpos : Int)
            (consumeStep d data currpos).2 (by omega) (by omega)]
    · cases fuel' <;> simp only [consumeLoopCount, if_neg hc]

theorem consumeLoop_fuel (data : List Nat) (fuel fuel' : Nat) (d : QtTelnetPrivate)
    (prevpos : Int) (currpos : Nat)
    (hf : data.length - currpos ≤ fuel) (hf' : data.length - currpos ≤ fuel') :
    consumeLoop data fuel d prevpos currpos = consumeLoop data fuel' d prevpos currpos := by
  obtain ⟨n, _, he⟩ := consumeLoopCount_some data fuel d prevpos currpos hf
  obtain ⟨n', _, he'⟩ := consumeLoopCount_some data fuel' d prevpos currpos hf'
  rw [consumeLoopCount_fuel data fuel fuel' d prevpos currpos hf hf', he'] at he
  have h := Option.some.inj he
  have h1 : (consumeLoop data fuel d prevpos currpos).1
      = (consumeLoop data fuel' d prevpos currpos).1 :=
    (congrArg (fun r : QtTelnetPrivate × Nat × Nat => r.1) h).symm
  have h2 : (consumeLoop data fuel d prevpos currpos).2
      = (consumeLoop data fuel' d prevpos currpos).2 :=
    (congrArg (fun r : QtTelnetPrivate × Nat × Nat => r.2.1) h).symm
  exact Prod.ext h1 h2

/-- C31: the loop of a parse pass reaches its exit: for every data and every
state at the entry there is a number of iterations, at most the number of
bytes of the data (so at most that number plus one), after which the loop has
ended, and whatever bound of at least that many iterations is allowed, the
loop ends after just this number, in the state and at the position that
consume computes. Each iteration at a position within the data leaves the
position where it was or moves it forward, never beyond the end of the data,
and when it leaves the position where it was the loop ends there. -/
theorem consume_terminates (d : QtTelnetPrivate) (data : List Nat) :
    (∃ n, n ≤ data.length ∧ n ≤ data.length + 1
      ∧ ∀ fuel, data.length ≤ fuel →
          consumeLoopCount data fuel d (-1) 0
            = some ((consumeLoop data (data.length + 1) d (-1) 0).1,
                (consumeLoop data (data.length + 1) d (-1) 0).2, n))
    ∧ (∀ (e : QtTelnetPrivate) (currpos : Nat), currpos < data.length →
        currpos ≤ (consumeStep e data currpos).2
        ∧ (consumeStep e data currpos).2 ≤ data.length
        ∧ ((consumeStep e data currpos).2 = currpos →
            ∀ fuel,
              consumeLoopCount data fuel (consumeStep e data currpos).1 (currpos : Int)
                  (consumeStep e data currpos).2
                = some ((consumeStep e data currpos).1, currpos, 0))) := by
  constructor
  · obtain ⟨n, hn, he⟩ := consumeLoopCount_some data (data.length + 1) d (-1) 0 (by omega)
    refine ⟨n, by omega, by omega, fun fuel hf => ?_⟩
    rw [consumeLoopCount_fuel data fuel (data.length + 1) d (-1) 0 (by omega) (by omega), he]
  · intro e currpos hc
    have hb := consumeStep_bounds e data currpos hc
    refine ⟨hb.1, hb.2, fun hs fuel => ?_⟩
    rw [hs]
    exact consumeLoopCount_stuck data fuel _ currpos

theorem consume_terminates_witness :
    (∃ n, n ≤ 9
      ∧ consumeLoopCount [104, 105, 0, 255, 253, 3, 255, 241, 97] 9 connectedEngine (-1) 0
        = some ((consumeLoop [104, 105, 0, 255, 253, 3, 255, 241, 97] 10
              connectedEngine (-1) 0).1,
            (consumeLoop [104, 105, 0, 255, 253, 3, 255, 241, 97] 10 connectedEngine (-1) 0).2, n))
    ∧ (consumeLoopCount [104, 105, 0, 255, 253, 3, 255, 241, 97] 9 connectedEngine (-1) 0).map
        (fun r => r.2) = some (6, 3) :=
  ⟨(consume_terminates connectedEngine [104, 105, 0, 255, 253, 3, 255, 241, 97]).1.elim
      (fun n h => ⟨n, h.1, h.2.2 9 (by decide)⟩),
    by decide⟩

/-! ## What a parse pass leaves in the buffer -/

theorem consumeStep_zero_iac (d : QtTelnetPrivate) (rest : List Nat) (hne : rest ≠ [])
    (h : (consumeStep d rest 0).2 = 0) : rest.getD 0 0 = Common.IAC := by
  by_contra hiac
  by_cases hdm : rest.getD 0 0 = Common.DM
  · simp only [consumeStep, hdm, if_true] at h
    exact absurd h (by decide)
  · simp only [consumeStep, hdm, hiac, if_false, List.drop_zero, Nat.zero_add] at h
    have := parsePlaintext_snd_pos d rest hne
    omega

theorem consumeStep_not_iac (d : QtTelnetPrivate) (rest : List Nat) (hne : rest ≠ [])
    (hiac : rest.getD 0 0 ≠ Common.IAC) :
    0 < (consumeStep d rest 0).2
    ∧ (rest.getD 0 0 = Common.DM → consumeStep d rest 0 = (d, 1))
    ∧ (rest.getD 0 0 ≠ Common.DM → consumeStep d rest 0 = parsePlaintext d rest) := by
  refine ⟨?_, ?_, ?_⟩
  · by_contra h0
    exact hiac (consumeStep_zero_iac d rest hne (by omega))
  · intro hdm
    simp only [consumeStep, hdm, if_true]
  · intro hdm
    simp only [consumeStep, hdm, hiac, if_false, List.drop_zero, Nat.zero_add]

theorem consumeRest_head (fuel : Nat) :
    ∀ (d : QtTelnetPrivate) (rest : List Nat), rest.length ≤ fuel →
      (consumeRest fuel d rest).2 = [] ∨ ∃ tail, (consumeRest fuel d rest).2 = 255 :: tail := by
  induction fuel with
  | zero =>
    intro d rest hf
    left
    have : rest = [] := List.length_eq_zero.mp (by omega)
    rw [this]
    rfl
  | succ fuel ih =>
    intro d rest hf
    simp only [consumeRest]
    by_cases hne : rest = []
    · rw [if_pos hne]
      exact Or.inl hne
    · rw [if_neg hne]
      by_cases h0 : (consumeStep d rest 0).2 = 0
      · rw [if_pos h0]
        right
        have hiac := consumeStep_zero_iac d rest hne h0
        cases rest with
        | nil => exact absurd rfl hne
        | cons c cs =>
          refine ⟨cs, ?_⟩
          have hc : c = 255 := hiac
          rw [hc]
      · rw [if_neg h0]
        apply ih
        simp only [List.length_drop]
        omega

/-- C32: after a parse pass over the bytes held in the receive buffer, the
position the loop has reached is at most the length of the data, the buffer
holds exactly the bytes of the data from that position on, and these are
none or begin with IAC (FF). An iteration at a byte that is not IAC takes at
least one byte: exactly the DM byte when the byte is DM, and otherwise what
parsePlaintext takes of the run, which is the run up to and with its first
NUL, or up to the end of the data. -/
theorem only_iac_held_back (d : QtTelnetPrivate) :
    (consumeLoop d.buffer.flatten (d.buffer.flatten.length + 1) { d with buffer := [] }
        (-1) 0).2 ≤ d.buffer.flatten.length
    ∧ (consume d).buffer.flatten
        = d.buffer.flatten.drop
            (consumeLoop d.buffer.flatten (d.buffer.flatten.length + 1) { d with buffer := [] }
              (-1) 0).2
    ∧ ((consume d).buffer.flatten = []
        ∨ ∃ tail, (consume d).buffer.flatten = 255 :: tail)
    ∧ (∀ (e : QtTelnetPrivate) (rest : List Nat), rest ≠ [] → rest.getD 0 0 ≠ 255 →
        0 < (consumeStep e rest 0).2
        ∧ (consumeStep e rest 0).2 ≤ rest.length
        ∧ (rest.getD 0 0 = 242 → consumeStep e rest 0 = (e, 1))
        ∧ (rest.getD 0 0 ≠ 242 →
            consumeStep e rest 0 = parsePlaintext e rest
            ∧ (parsePlaintext e rest).2
                = match indexOfNul rest with
                  | none => rest.length
                  | some length => length + 1)) := by
  have hl := consumeLoop_eq_consumeRest d.buffer.flatten (d.buffer.flatten.length + 1)
    { d with buffer := [] } (-1) 0 (by decide) (Nat.zero_le _)
  have hbuf : (consumeRest (d.buffer.flatten.length + 1) { d with buffer := [] }
      d.buffer.flatten).1.buffer = [] := by
    rw [consumeRest_buffer]
  have hflat : (consume d).buffer.flatten
      = (consumeRest (d.buffer.flatten.length + 1) { d with buffer := [] } d.buffer.flatten).2 := by
    rw [consume_eq]
    exact (pushBack_buffer_flatten _ hbuf).1
  refine ⟨hl.2.2, ?_, ?_, ?_⟩
  · rw [hflat, hl.2.1, List.drop_zero]
  · rw [hflat]
    exact consumeRest_head _ _ _ (Nat.le_succ _)
  · intro e rest hne hiac
    have h := consumeStep_not_iac e rest hne hiac
    exact ⟨h.1, consumeStep_snd_le e rest hne, h.2.1,
      fun hdm => ⟨h.2.2 hdm, parsePlaintext_snd e rest⟩⟩

theorem only_iac_held_back_witness :
    (socketReadyRead connectedEngine [104, 105, 0, 255, 253, 3, 255, 250, 24]).buffer.flatten
        = [255, 250, 24]
    ∧ ((consume { connectedEngine with buffer := [[104, 105, 0, 255, 253, 3], [255, 250, 24]] }
          ).buffer.flatten = []
        ∨ ∃ tail,
          (consume { connectedEngine with buffer := [[104, 105, 0, 255, 253, 3], [255, 250, 24]] }
            ).buffer.flatten = 255 :: tail)
    ∧ (consumeStep connectedEngine [104, 105, 0, 255, 253, 3] 0).2 = 3
    ∧ (consumeStep connectedEngine [242, 104] 0).2 = 1 :=
  ⟨by decide,
    (only_iac_held_back
      { connectedEngine with buffer := [[104, 105, 0, 255, 253, 3], [255, 250, 24]] }).2.2.1,
    (congrArg Prod.snd (((only_iac_held_back connectedEngine).2.2.2 connectedEngine
      [104, 105, 0, 255, 253, 3] (by decide) (by decide)).2.2.2 (by decide)).1).trans (by decide),
    congrArg Prod.snd (((only_iac_held_back connectedEngine).2.2.2 connectedEngine
      [242, 104] (by decide) (by decide)).2.2.1 (by decide))⟩

/-! ## The sent-set holds no pair twice -/

theorem sendCommand_nodup (d : QtTelnetPrivate) (command : List Nat) (h : d.osent.Nodup) :
    (sendCommand d command).osent.Nodup := by
  by_cases h1 : d.connected = false ∨ command.isEmpty = true
  · simp only [sendCommand, if_pos h1]
    exact h
  · by_cases h2 : command.length = 3
    · by_cases h3 : (command.getD 1 0, command.getD 2 0) ∈ d.osent
      · simp only [sendCommand, alreadySent, if_neg h1, if_pos h2, if_pos h3, if_true]
        exact h.filter _
      · simp only [sendCommand, alreadySent, if_neg h1, if_pos h2, if_neg h3,
          Bool.false_eq_true, if_false, socketWrite, addSent]
        exact List.Nodup.append h (List.nodup_singleton _)
          (List.disjoint_singleton.mpr h3)
    · simp only [sendCommand, if_neg h1, if_neg h2, socketWrite]
      exact h

theorem sendCommandOp_nodup (d : QtTelnetPrivate) (operation option : Nat)
    (h : d.osent.Nodup) : (sendCommandOp d operation option).osent.Nodup :=
  sendCommand_nodup d _ h

theorem sendString_osent (d : QtTelnetPrivate) (str : List Nat) :
    (sendString d str).osent = d.osent := by
  unfold sendString socketWrite
  split_ifs <;> rfl

theorem sendWindowSize_nodup (d : QtTelnetPrivate) (h : d.osent.Nodup) :
    (sendWindowSize d).osent.Nodup := by
  unfold sendWindowSize
  split_ifs
  · exact h
  · exact h
  · exact sendCommand_nodup d _ h

theorem setMode_nodup (d : QtTelnetPrivate) (operation option : Nat) (h : d.osent.Nodup) :
    (setMode d operation option).osent.Nodup := by
  simp only [setMode]
  split_ifs
  · exact h
  · exact sendWindowSize_nodup _ h
  · exact h

theorem parseSubTT_nodup (d : QtTelnetPrivate) (data : List Nat) (h : d.osent.Nodup) :
    (parseSubTT d data).osent.Nodup := by
  simp only [parseSubTT]
  split_ifs
  · exact h
  · apply sendCommand_nodup
    rw [sendString_osent]
    exact sendCommand_nodup d _ h

theorem parseSubAuthSelect_osent (d : QtTelnetPrivate) (data : List Nat) :
    (parseSubAuthSelect d data).osent = d.osent := by
  simp only [parseSubAuthSelect, parseSubAuthLoop_none]
  split_ifs <;> rfl

theorem parseSubAuthStep_nodup (d : QtTelnetPrivate) (data : List Nat) (h : d.osent.Nodup) :
    (parseSubAuthStep d data).osent.Nodup := by
  unfold parseSubAuthStep
  split
  · exact h
  · simp only [emit]
    split_ifs <;> first | exact h | exact sendCommand_nodup _ _ h

theorem parseSubAuth_nodup (d : QtTelnetPrivate) (data : List Nat) (h : d.osent.Nodup) :
    (parseSubAuth d data).osent.Nodup := by
  unfold parseSubAuth
  apply parseSubAuthStep_nodup
  rw [parseSubAuthSelect_osent]
  exact h

theorem parseIACSwitch_nodup (d : QtTelnetPrivate) (data suboption : List Nat)
    (h : d.osent.Nodup) : (parseIACSwitch d data suboption).osent.Nodup := by
  unfold parseIACSwitch parseSubNAWS
  split_ifs
  · exact parseSubAuth_nodup d _ h
  · exact parseSubTT_nodup d _ h
  · exact h
  · exact h

theorem close_osent (d : QtTelnetPrivate) : (close d).osent = d.osent := by
  unfold close emit
  split_ifs <;> rfl

theorem parseIAC_nodup (d : QtTelnetPrivate) (data : List Nat) (h : d.osent.Nodup) :
    (parseIAC d data).1.osent.Nodup := by
  have hd : ∀ operation option, (parseIACDontAuth d operation option).osent.Nodup := by
    intro operation option
    rw [(parseIACDontAuth_fields d operation option).2.1]
    exact h
  simp only [parseIAC]
  split_ifs
  · exact h
  · rw [close_osent]
    exact h
  · exact setMode_nodup _ _ _ (sendCommandOp_nodup _ _ _ (hd _ _))
  · exact hd _ _
  · exact h
  · exact h
  · exact parseIACSwitch_nodup d _ _ h

theorem sendData_osent (d : QtTelnetPrivate) (data : List Nat) :
    (sendData d data).osent = d.osent := by
  unfold sendData socketWrite
  split_ifs <;> rfl

theorem parsePlaintextLogin_osent (d : QtTelnetPrivate) (text : List Nat) :
    (parsePlaintextLogin d text).1.osent = d.osent := by
  simp only [parsePlaintextLogin]
  split_ifs <;> first | rfl | exact sendData_osent _ _

theorem parsePlaintextPass_osent (d : QtTelnetPrivate) (text : List Nat) :
    (parsePlaintextPass d text).1.osent = d.osent := by
  simp only [parsePlaintextPass]
  split_ifs <;> first | rfl | exact sendData_osent _ _

theorem parsePlaintextText_osent (d : QtTelnetPrivate) (text : List Nat) :
    (parsePlaintextText d text).osent = d.osent := by
  simp only [parsePlaintextText]
  split_ifs <;> simp only [emit, parsePlaintextPass_osent, parsePlaintextLogin_osent]

theorem parsePlaintext_osent (d : QtTelnetPrivate) (data : List Nat) :
    (parsePlaintext d data).1.osent = d.osent := by
  unfold parsePlaintext
  split <;> exact parsePlaintextText_osent d _

theorem consumeStep_nodup (d : QtTelnetPrivate) (data : List Nat) (currpos : Nat)
    (h : d.osent.Nodup) : (consumeStep d data currpos).1.osent.Nodup := by
  simp only [consumeStep]
  split_ifs
  · exact h
  · exact parseIAC_nodup d _ h
  · rw [parsePlaintext_osent]
    exact h

theorem consumeRest_nodup (fuel : Nat) :
    ∀ (d : QtTelnetPrivate) (rest : List Nat), d.osent.Nodup →
      (consumeRest fuel d rest).1.osent.Nodup := by
  induction fuel with
  | zero => intro d rest h; exact h
  | succ fuel ih =>
    intro d rest h
    simp only [consumeRest]
    split_ifs
    · exact h
    · exact consumeStep_nodup d rest 0 h
    · exact ih _ _ (consumeStep_nodup d rest 0 h)

theorem socketReadyRead_nodup (d : QtTelnetPrivate) (chunk : List Nat) (h : d.osent.Nodup) :
    (socketReadyRead d chunk).osent.Nodup := by
  rw [socketReadyRead_eq]
  have hr := consumeRest_nodup ((d.buffer.flatten ++ chunk).length + 1) { d with buffer := [] }
    (d.buffer.flatten ++ chunk) h
  unfold pushBack
  split_ifs
  · exact hr
  · exact hr

theorem sendControl_nodup (d : QtTelnetPrivate) (ctrl : Control) (h : d.osent.Nodup) :
    (sendControl d ctrl).osent.Nodup := by
  have hs : ∀ e : QtTelnetPrivate, (sendSync e).osent = e.osent := by
    intro e
    unfold sendSync
    split_ifs <;> rfl
  simp only [sendControl]
  split_ifs
  · rw [hs]
    exact sendCommand_nodup d _ h
  · exact sendCommand_nodup d _ h

theorem socketConnected_nodup (d : QtTelnetPrivate) (h : d.osent.Nodup) :
    (socketConnected d).osent.Nodup := by
  have h0 : ({ d with connected := true } : QtTelnetPrivate).osent.Nodup := h
  simp only [socketConnected, sendOptions]
  split_ifs <;>
    first
      | exact sendCommandOp_nodup _ _ _ (sendCommandOp_nodup _ _ _ (sendCommandOp_nodup _ _ _
          (sendCommandOp_nodup _ _ _ (sendCommandOp_nodup _ _ _ h0))))
      | exact sendCommandOp_nodup _ _ _ (sendCommandOp_nodup _ _ _ (sendCommandOp_nodup _ _ _
          (sendCommandOp_nodup _ _ _ h0)))

theorem setWindowSize_nodup (d : QtTelnetPrivate) (w h : Int) (hn : d.osent.Nodup) :
    (setWindowSize d w h).osent.Nodup := by
  have h0 : ({ d with windowSize := ⟨w, h⟩ } : QtTelnetPrivate).osent.Nodup := hn
  simp only [setWindowSize]
  split_ifs
  · exact sendWindowSize_nodup _ h0
  · exact sendCommandOp_nodup _ _ _ h0
  · exact sendCommandOp_nodup _ _ _ h0
  · exact h0

theorem apply_nodup (d : QtTelnetPrivate) (a : Action) (h : d.osent.Nodup) :
    (Action.apply d a).osent.Nodup := by
  cases a with
  | login username password => exact h
  | socketReadyRead chunk => exact socketReadyRead_nodup d chunk h
  | socketConnected => exact socketConnected_nodup d h
  | socketConnectionClosed => exact h
  | socketError error => exact h
  | close =>
    show (close d).osent.Nodup
    rw [close_osent]
    exact h
  | logout => exact sendCommandOp_nodup d _ _ h
  | sendData data =>
    show (sendData d data).osent.Nodup
    rw [sendData_osent]
    exact h
  | sendControl ctrl => exact sendControl_nodup d ctrl h
  | sendSync =>
    show (sendSync d).osent.Nodup
    unfold sendSync
    split_ifs <;> exact h
  | setWindowSize width height => exact setWindowSize_nodup d width height h
  | setSocket => exact sendCommandOp_nodup d _ _ h
  | setPromptPattern pattern => exact h
  | setLoginPattern pattern => exact h
  | setPasswordPattern pattern => exact h

theorem runActions_nodup (as : List Action) :
    ∀ d : QtTelnetPrivate, d.osent.Nodup → (runActions d as).osent.Nodup := by
  induction as with
  | nil => intro d h; exact h
  | cons a as ih => intro d h; exact ih _ (apply_nodup d a h)

theorem filter_ne_eq_erase (l : List (Nat × Nat)) (v : Nat × Nat) (h : l.Nodup) :
    l.filter (fun x => decide (x ≠ v)) = l.erase v := by
  rw [List.Nodup.erase_eq_filter h]
  congr 1
  funext x
  by_cases hx : x = v <;> simp [hx]

/-- C33: in every state reached from a fresh engine through any sequence of
calls of the application, transport events and inbound reads, the sent-set
holds no pair twice; so for every pair, removing all its occurrences, as
alreadySent does with removeAll, gives the list that removing its first
occurrence gives, and the sent-set alreadySent leaves is the sent-set without
the first occurrence of the pair. -/
theorem osent_never_duplicates (as : List Action) (operation option : Nat) :
    (runActions QtTelnetPrivate.new as).osent.Nodup
    ∧ (runActions QtTelnetPrivate.new as).osent.filter
          (fun v => decide (v ≠ (operation, option)))
        = (runActions QtTelnetPrivate.new as).osent.erase (operation, option)
    ∧ (alreadySent (runActions QtTelnetPrivate.new as) operation option).2.osent
        = (runActions QtTelnetPrivate.new as).osent.erase (operation, option)
    ∧ ((alreadySent (runActions QtTelnetPrivate.new as) operation option).1 = true
        ↔ (operation, option) ∈ (runActions QtTelnetPrivate.new as).osent) := by
  have hn := runActions_nodup as QtTelnetPrivate.new List.nodup_nil
  have hf := filter_ne_eq_erase _ (operation, option) hn
  refine ⟨hn, hf, ?_, ?_⟩
  · by_cases hm : (operation, option) ∈ (runActions QtTelnetPrivate.new as).osent
    · simp only [alreadySent, if_pos hm]
      exact hf
    · simp only [alreadySent, if_neg hm]
      exact (List.erase_of_not_mem hm).symm
  · by_cases hm : (operation, option) ∈ (runActions QtTelnetPrivate.new as).osent
    · simp [alreadySent, hm]
    · simp [alreadySent, hm]

end QtTelnet
